import Mathlib

/-!
# helmi: release state and credential resolution

A shallow embedding of the Go packages `pkg/helm` (status parser, commands,
flattened values), `pkg/release` (naming, chart values, user credentials, the
operations on a release) and of the handlers and the credential check of
`app.go`, followed by the properties proved about them.

Conventions of the embedding

* A Go `string` is the list of its bytes (`GoString`): the byte `b` is written as
  the character with the code point `b`, so ASCII text is written as itself.
  `len`, indexing and slicing count list elements, that is bytes.  Where Go
  decodes UTF-8 (`strings.Fields`, `strings.FieldsFunc`, the empty separator of
  `strings.Split` and `strings.Replace`), so does the embedding
  (`utf8.DecodeRune`).
* Go `int` has 64 bits, as on every 64-bit platform: a value is an `Int` of that
  range, `strconv.Atoi` keeps its range check, and the additions of the code
  wrap around (`wrapInt`).
* A Go `map` is a list of entries with pairwise distinct keys (`GoMap`).  The
  order in which `range` visits a map is not fixed by Go: it is supplied by a
  `RangeOrder`, and every theorem holds for every such order.
* A run-time panic (slice or index out of range) is the result `none`.
* What the operating system and the standard library decide (environment,
  clock, duration and date parsing, Unicode lower-casing, the random UUID
  source) is passed in as a parameter.
-/

/-- A Go string: the sequence of its bytes, each written as the character with that code
point.  An element above 255 stands for no byte; the decoder treats it as a byte that
belongs to no UTF-8 sequence. -/
abbrev GoString := List Char

/-- The value a 64-bit `int` holds when the exact result of an operation is `v`: `v`
reduced modulo 2^64 into the range from -2^63 to 2^63 - 1. -/
def wrapInt (v : Int) : Int :=
  (v + 9223372036854775808) % 18446744073709551616 - 9223372036854775808

/-! ## Go maps -/

/-- A Go map: entries with pairwise distinct keys. -/
structure GoMap (K V : Type) [DecidableEq K] where
  entries : List (K × V)
  nodup : (entries.map Prod.fst).Nodup

instance {K V : Type} [DecidableEq K] [DecidableEq V] : DecidableEq (GoMap K V) :=
  fun a b => decidable_of_iff (a.entries = b.entries)
    ⟨fun h => by cases a; cases b; cases h; rfl, fun h => by rw [h]⟩

namespace GoMap

variable {K V : Type} [DecidableEq K]

/-- The value stored in an entry list under `k`, if any. -/
def lookupEntries (k : K) : List (K × V) → Option V
  | [] => none
  | (k', v) :: r => if k' = k then some v else lookupEntries k r

/-- Overwrites the entry of `k`, or adds one when there is none. -/
def setEntries (k : K) (v : V) : List (K × V) → List (K × V)
  | [] => [(k, v)]
  | (k', v') :: r => if k' = k then (k, v) :: r else (k', v') :: setEntries k v r

/-- The empty map, `map[K]V{}`. -/
def empty : GoMap K V := ⟨[], List.nodup_nil⟩

/-- The lookup `v, ok := m[k]`. -/
def get? (m : GoMap K V) (k : K) : Option V := lookupEntries k m.entries

/-- The assignment `m[k] = v`. -/
def set (m : GoMap K V) (k : K) (v : V) : GoMap K V :=
  ⟨setEntries k v m.entries, by
    have keys : ∀ l : List (K × V), (setEntries k v l).map Prod.fst =
        if k ∈ l.map Prod.fst then l.map Prod.fst else l.map Prod.fst ++ [k] := by
      intro l
      induction l with
      | nil => simp [setEntries]
      | cons e r ih =>
        obtain ⟨k', v'⟩ := e
        by_cases h : k' = k
        · subst h; simp [setEntries]
        · have h' : ¬ k = k' := fun e => h e.symm
          simp only [setEntries, h, if_false, List.map_cons, ih, List.mem_cons, h', false_or]
          split <;> simp
    rw [keys]
    split
    · exact m.nodup
    · rename_i hk
      exact List.Nodup.append m.nodup (List.nodup_singleton k) (by simpa using hk)⟩

/-- The number of entries, `len(m)`. -/
def size (m : GoMap K V) : Nat := m.entries.length

end GoMap

/-- The order in which a `range` loop visits the entries of a map: some
permutation of the entries. -/
structure RangeOrder where
  order : {K V : Type} → [DecidableEq K] → GoMap K V → List (K × V)
  perm : ∀ {K V : Type} [DecidableEq K] (m : GoMap K V), (order m).Perm m.entries

/-- The order that visits the entries as they are stored. -/
def RangeOrder.stored : RangeOrder := ⟨fun m => m.entries, fun _ => List.Perm.refl _⟩

/-- The order that visits the entries last to first. -/
def RangeOrder.reversed : RangeOrder :=
  ⟨fun m => m.entries.reverse, fun m => List.reverse_perm m.entries⟩

/-! ## Package `unicode/utf8` -/

namespace utf8

/-- The constant `utf8.RuneError`. -/
def RuneError : Nat := 0xFFFD

/-- The bytes of `string(utf8.RuneError)`. -/
def RuneErrorBytes : GoString := ['\xef', '\xbf', '\xbd']

/-- The table `acceptRanges`: the least second byte behind the first byte `b0`. -/
def acceptLo (b0 : Nat) : Nat := if b0 = 0xE0 then 0xA0 else if b0 = 0xF0 then 0x90 else 0x80

/-- The table `acceptRanges`: the greatest second byte behind the first byte `b0`. -/
def acceptHi (b0 : Nat) : Nat := if b0 = 0xED then 0x9F else if b0 = 0xF4 then 0x8F else 0xBF

/-- The function `utf8.DecodeRuneInString`: the code point of the first rune of the text
and the number of bytes it takes; a byte that starts no valid encoding is `RuneError`
of width 1. -/
def DecodeRune : GoString → Nat × Nat
  | [] => (RuneError, 0)
  | p0 :: rest =>
    let b0 := p0.toNat
    if b0 < 0x80 then (b0, 1)
    else if b0 < 0xC2 ∨ 0xF4 < b0 then (RuneError, 1)
    else
      match rest with
      | [] => (RuneError, 1)
      | p1 :: rest1 =>
        let b1 := p1.toNat
        if b1 < acceptLo b0 ∨ acceptHi b0 < b1 then (RuneError, 1)
        else if b0 < 0xE0 then ((b0 - 0xC0) * 64 + (b1 - 0x80), 2)
        else
          match rest1 with
          | [] => (RuneError, 1)
          | p2 :: rest2 =>
            let b2 := p2.toNat
            if b2 < 0x80 ∨ 0xBF < b2 then (RuneError, 1)
            else if b0 < 0xF0 then
              ((b0 - 0xE0) * 4096 + (b1 - 0x80) * 64 + (b2 - 0x80), 3)
            else
              match rest2 with
              | [] => (RuneError, 1)
              | p3 :: _ =>
                let b3 := p3.toNat
                if b3 < 0x80 ∨ 0xBF < b3 then (RuneError, 1)
                else
                  ((b0 - 0xF0) * 262144 + (b1 - 0x80) * 4096 + (b2 - 0x80) * 64 +
                    (b3 - 0x80), 4)

end utf8

/-! ## Package `unicode` -/

namespace unicode

/-- The function `unicode.IsSpace`: the runes with the White_Space property, by their
code points. -/
def IsSpace (n : Nat) : Bool :=
  (0x09 ≤ n && n ≤ 0x0D) || n == 0x20 || n == 0x85 || n == 0xA0 || n == 0x1680 ||
  (0x2000 ≤ n && n ≤ 0x200A) || n == 0x2028 || n == 0x2029 || n == 0x202F ||
  n == 0x205F || n == 0x3000

end unicode

/-! ## Package `strings` -/

namespace strings

/-- The function `strings.HasPrefix`. -/
def HasPrefix (s pre : GoString) : Bool := pre.isPrefixOf s

/-- The function `strings.TrimPrefix`. -/
def TrimPrefix (s pre : GoString) : GoString :=
  if HasPrefix s pre then s.drop pre.length else s

/-- Scan of `strings.Index`: `i` is the offset of the text still to search. -/
def indexFrom (substr : GoString) : GoString → Int → Int
  | [], i => if substr = [] then i else -1
  | c :: cs, i => if substr.isPrefixOf (c :: cs) then i else indexFrom substr cs (i + 1)

/-- The function `strings.Index`: offset of the first occurrence of `substr`, or -1. -/
def Index (s substr : GoString) : Int := indexFrom substr s 0

/-- The loop `for end, rune := range s` of `strings.FieldsFunc`: `skip` bytes of the rune
just decoded are still to be passed, `keep` tells whether that rune belongs to a field,
and `acc` is the field being collected, in reverse. -/
def fieldsAux (f : Nat → Bool) : Nat → Bool → GoString → GoString → List GoString
  | _, _, [], acc => if acc = [] then [] else [acc.reverse]
  | skip + 1, keep, c :: cs, acc => fieldsAux f skip keep cs (if keep then c :: acc else acc)
  | 0, _, c :: cs, acc =>
    if f (utf8.DecodeRune (c :: cs)).1 then
      if acc = [] then fieldsAux f ((utf8.DecodeRune (c :: cs)).2 - 1) false cs []
      else acc.reverse :: fieldsAux f ((utf8.DecodeRune (c :: cs)).2 - 1) false cs []
    else fieldsAux f ((utf8.DecodeRune (c :: cs)).2 - 1) true cs (c :: acc)

/-- The function `strings.FieldsFunc`: the maximal runs of runes that do not satisfy
`f`, which is given the code point of each rune. -/
def FieldsFunc (s : GoString) (f : Nat → Bool) : List GoString := fieldsAux f 0 true s []

/-- The function `strings.Fields`: the fields between runs of white space. -/
def Fields (s : GoString) : List GoString := FieldsFunc s unicode.IsSpace

/-- Scan of `strings.Split` for a non-empty separator: `skip` bytes of a
separator just matched are still to be passed over, `acc` is the piece being
collected, in reverse. -/
def splitAux (sep : GoString) : Nat → GoString → GoString → List GoString
  | _, [], acc => [acc.reverse]
  | skip + 1, _ :: cs, acc => splitAux sep skip cs acc
  | 0, c :: cs, acc =>
    if sep.isPrefixOf (c :: cs) then acc.reverse :: splitAux sep (sep.length - 1) cs []
    else splitAux sep 0 cs (c :: acc)

/-- The function `explode` without a limit, which `strings.Split` calls for an empty
separator: the UTF-8 sequences of the text, an invalid byte replaced by the encoding of
`RuneError`, and as the last piece the text that is left.  `skip` bytes of the sequence
just cut off are still to be passed. -/
def explodeAux : Nat → GoString → List GoString
  | _, [] => []
  | skip + 1, _ :: cs => explodeAux skip cs
  | 0, c :: cs =>
    if cs.length < (utf8.DecodeRune (c :: cs)).2 then [c :: cs]
    else
      (if (utf8.DecodeRune (c :: cs)).1 = utf8.RuneError then utf8.RuneErrorBytes
        else (c :: cs).take (utf8.DecodeRune (c :: cs)).2) ::
        explodeAux ((utf8.DecodeRune (c :: cs)).2 - 1) cs

/-- The function `strings.Split`. -/
def Split (s sep : GoString) : List GoString :=
  if sep = [] then explodeAux 0 s else splitAux sep 0 s []

/-- Scan of `strings.Replace` for a non-empty `old`; `left` counts the
replacements still allowed and never reaches 0 when it starts negative. -/
def replaceAux (old new : GoString) : Nat → Int → GoString → GoString
  | _, _, [] => []
  | skip + 1, left, _ :: cs => replaceAux old new skip left cs
  | 0, left, c :: cs =>
    if left ≠ 0 ∧ old.isPrefixOf (c :: cs) then
      new ++ replaceAux old new (old.length - 1) (left - 1) cs
    else c :: replaceAux old new 0 left cs

/-- Scan of `strings.Replace` for an empty `old`: `new` goes before every UTF-8 sequence
and at the end; `skip` bytes of the sequence just entered are still to be copied. -/
def insertAux (new : GoString) : Nat → Int → GoString → GoString
  | _, left, [] => if left ≠ 0 then new else []
  | skip + 1, left, c :: cs => c :: insertAux new skip left cs
  | 0, left, c :: cs =>
    if left ≠ 0 then
      new ++ c :: insertAux new ((utf8.DecodeRune (c :: cs)).2 - 1) (left - 1) cs
    else c :: cs

/-- The function `strings.Replace`; a negative `n` puts no limit on the number of
replacements. -/
def Replace (s old new : GoString) (n : Int) : GoString :=
  if old = [] then insertAux new 0 n s else replaceAux old new 0 n s

/-- The function `strings.ToLower` on text whose letters are ASCII: it maps the bytes `A`
to `Z` and leaves every other byte.  Go also maps the upper-case letters beyond ASCII;
the code that lower-cases arbitrary text takes the mapping as a parameter instead. -/
def ToLower (s : GoString) : GoString := s.map Char.toLower

/-- The function `strings.EqualFold` on ASCII text: equality up to the case of
letters.  Where the code calls it, one argument is an ASCII literal and the
other a capture of ASCII character classes, or a decimal numeral. -/
def EqualFold (s t : GoString) : Bool := s.map Char.toLower == t.map Char.toLower

end strings

/-! ## Package `strconv` -/

namespace strconv

/-- Two to the 63rd: the first integer beyond the range of a 64-bit `int`. -/
def intLimit : Int := 9223372036854775808

/-- The value of a run of decimal digits, most significant first. -/
def digitsValue (ds : GoString) : Nat :=
  ds.foldl (fun acc c => acc * 10 + (c.toNat - 48)) 0

/-- The text behind an optional sign. -/
def unsigned (s : GoString) : GoString :=
  if s.head? = some '-' ∨ s.head? = some '+' then s.tail else s

/-- The function `strconv.Atoi`: an optional sign and one or more decimal digits, the
value within the range of `int`; `none` is a non-nil error. -/
def Atoi (s : GoString) : Option Int :=
  if unsigned s = [] ∨ ¬ (unsigned s).all Char.isDigit then none
  else
    let v : Int :=
      if s.head? = some '-' then -(digitsValue (unsigned s) : Int)
      else (digitsValue (unsigned s) : Int)
    if -intLimit ≤ v ∧ v < intLimit then some v else none

/-- The decimal digits of `n`, least significant first; `fuel` bounds their number. -/
def digitsRev : Nat → Nat → GoString
  | 0, _ => []
  | fuel + 1, n =>
    Nat.digitChar (n % 10) :: (if n / 10 = 0 then [] else digitsRev fuel (n / 10))

/-- The decimal numeral of a natural number. -/
def formatNat (n : Nat) : GoString := (digitsRev (n + 1) n).reverse

/-- The function `strconv.Itoa`. -/
def Itoa (i : Int) : GoString :=
  if i < 0 then '-' :: formatNat i.natAbs else formatNat i.natAbs

end strconv

/-! ## What the surroundings decide -/

/-- The operating system and library behaviour the code reads: the environment
(`os.LookupEnv`), the clock (`time.Now`, in nanoseconds since the zero
`time.Time`), `time.ParseDuration` (nanoseconds) and `time.ParseInLocation` for
the layout `time.ANSIC` in the local zone, where `none` is a non-nil error;
`strings.ToLower` on arbitrary text; and the sixteen bytes of the `n`-th
identifier that `uuid.NewV4` hands out during one call. -/
structure Runtime where
  LookupEnv : GoString → Option GoString
  Now : Int
  ParseDuration : GoString → Option Int
  ParseInLocation : GoString → Option Int
  ToLower : GoString → GoString
  NewV4 : Nat → Fin 16 → Fin 256

/-! ## Package `helm` -/

namespace helm

/-- The struct `helm.Status`. -/
structure Status where
  Name : GoString
  Namespace : GoString
  IsFailed : Bool
  IsDeployed : Bool
  DesiredNodes : Int
  AvailableNodes : Int
  NodePorts : GoMap Int Int
  ClusterPorts : GoMap Int Int
  deriving DecidableEq

def StatusFailed : GoString := "STATUS: FAILED".toList
def StatusDeployed : GoString := "STATUS: DEPLOYED".toList
def ResourcePrefix : GoString := "==> ".toList
def NamespacePrefix : GoString := "NAMESPACE: ".toList
def DeploymentTimePrefix : GoString := "LAST DEPLOYED: ".toList
def DesiredLabel : GoString := "DESIRED".toList
def CurrentLabel : GoString := "CURRENT".toList
def AvailableLabel : GoString := "AVAILABLE".toList
def PortsLabel : GoString := "PORT(S)".toList

/-- The local variables of `GetStatus` that live across the lines of the scan. -/
structure ScanState where
  status : Status
  lastResource : GoString
  lastDeploymentTime : Int
  columnDesired : Int
  columnCurrent : Int
  columnAvailable : Int
  columnPort : Int
  deriving DecidableEq

/-- The state before the first line: the initial `Status` literal, the name set to the
release, the zero deployment time and no column recorded. -/
def initialState (release : GoString) : ScanState where
  status := {
    Name := release, Namespace := [], IsFailed := false, IsDeployed := false,
    DesiredNodes := 0, AvailableNodes := 0,
    NodePorts := GoMap.empty, ClusterPorts := GoMap.empty }
  lastResource := []
  lastDeploymentTime := 0
  columnDesired := -1
  columnCurrent := -1
  columnAvailable := -1
  columnPort := -1

/-- The slice expression `line[column:]`; it panics when the column is beyond the end. -/
def sliceFrom (line : GoString) (column : Int) : Option GoString :=
  if 0 ≤ column ∧ column ≤ line.length then some (line.drop column.toNat) else none

/-- The expression `strings.Fields(line[column:])[0]`; it panics when the slice is out of
range or has no field. -/
def fieldAt (line : GoString) (column : Int) : Option GoString :=
  (sliceFrom line column).bind fun rest => (strings.Fields rest).head?

/-- The flag, blank-line and prefix tests at the head of the loop body. -/
def scanMarkers (rt : Runtime) (st : ScanState) (line : GoString) : ScanState :=
  let st := if strings.HasPrefix line StatusFailed then
      { st with status := { st.status with IsFailed := true } } else st
  let st := if strings.HasPrefix line StatusDeployed then
      { st with status := { st.status with IsDeployed := true } } else st
  let st := if line.length = 0 then
      { st with lastResource := [], columnDesired := -1, columnCurrent := -1,
                columnAvailable := -1, columnPort := -1 } else st
  let st := if strings.HasPrefix line ResourcePrefix then
      { st with lastResource := strings.TrimPrefix line ResourcePrefix } else st
  let st := if strings.HasPrefix line NamespacePrefix then
      { st with status := { st.status with
          Namespace := strings.TrimPrefix line NamespacePrefix } } else st
  if strings.HasPrefix line DeploymentTimePrefix then
    { st with lastDeploymentTime :=
        (rt.ParseInLocation (strings.TrimPrefix line DeploymentTimePrefix)).getD 0 }
  else st

/-- The block that reads one line at the recorded columns: the pair `nodesDesired`,
`nodesAvailable`.  A field that is no integer leaves the count at its earlier value;
a column without a field panics. -/
def countNodes (st : ScanState) (line : GoString) : Option (Int × Int) := do
  let desired ← fieldAt line st.columnDesired
  let current ← fieldAt line st.columnCurrent
  let nodesDesired := (strconv.Atoi desired).getD 0
  let nodesAvailable := (strconv.Atoi current).getD 0
  if st.columnAvailable ≥ 0 then do
    let available ← fieldAt line st.columnAvailable
    pure (nodesDesired, (strconv.Atoi available).getD nodesAvailable)
  else pure (nodesDesired, nodesAvailable)

/-- The node-count part of the loop body: a line with both labels records the columns, any
other line is read at the recorded columns and added to the totals, in 64-bit
arithmetic. -/
def scanNodes (st : ScanState) (line : GoString) : Option ScanState :=
  let indexDesired := strings.Index line DesiredLabel
  let indexCurrent := strings.Index line CurrentLabel
  let indexAvailable := strings.Index line AvailableLabel
  if indexDesired ≥ 0 ∧ indexCurrent ≥ 0 then
    some { st with
      columnDesired := indexDesired
      columnCurrent := indexCurrent
      columnAvailable := if indexAvailable ≥ 0 then indexAvailable else st.columnAvailable }
  else if st.columnDesired ≥ 0 ∧ st.columnCurrent ≥ 0 then
    (countNodes st line).map fun nodes =>
      { st with status := { st.status with
          DesiredNodes := wrapInt (st.status.DesiredNodes + nodes.1)
          AvailableNodes := wrapInt (st.status.AvailableNodes + nodes.2) } }
  else some st

/-- The body of the loop over the port pairs of one token. -/
def registerPort (status : Status) (portPair : GoString) : Status :=
  let portFields := strings.FieldsFunc portPair (fun c => c == ':'.toNat || c == '/'.toNat)
  let status :=
    if portFields.length = 2 then
      match strconv.Atoi (portFields.getD 0 []) with
      | some clusterPort =>
        { status with ClusterPorts := status.ClusterPorts.set clusterPort clusterPort }
      | none => status
    else status
  if portFields.length = 3 then
    match strconv.Atoi (portFields.getD 1 []), strconv.Atoi (portFields.getD 0 []) with
    | some nodePort, some clusterPort =>
      { status with
        NodePorts := status.NodePorts.set clusterPort nodePort
        ClusterPorts := status.ClusterPorts.set clusterPort clusterPort }
    | _, _ => status
  else status

/-- The port part of the loop body: a line with the label records the column, any other
line is read at the recorded column. -/
def scanPorts (st : ScanState) (line : GoString) : Option ScanState :=
  let indexPort := strings.Index line PortsLabel
  if indexPort ≥ 0 then some { st with columnPort := indexPort }
  else if st.columnPort ≥ 0 then
    (fieldAt line st.columnPort).map fun token =>
      { st with status := (strings.Split token ",".toList).foldl registerPort st.status }
  else some st

/-- One pass of the loop body of `GetStatus`. -/
def scanLine (rt : Runtime) (st : ScanState) (line : GoString) : Option ScanState :=
  (scanNodes (scanMarkers rt st line) line).bind fun st => scanPorts st line

/-- The loop `for scanner.Scan()` over the lines of the report. -/
def scan (rt : Runtime) (st : ScanState) : List GoString → Option ScanState
  | [] => some st
  | line :: rest => (scanLine rt st line).bind fun st => scan rt st rest

/-- The staleness timeout: `TIMEOUT` when set, else "30m", read by `time.ParseDuration`,
whose error leaves the duration 0. -/
def timeout (rt : Runtime) : Int :=
  (rt.ParseDuration ((rt.LookupEnv "TIMEOUT".toList).getD "30m".toList)).getD 0

/-- The statements after the loop: the staleness check. -/
def finish (rt : Runtime) (st : ScanState) : Status :=
  if rt.Now > st.lastDeploymentTime + timeout rt ∧
      st.status.AvailableNodes < st.status.DesiredNodes then
    { st.status with IsFailed := true }
  else st.status

/-- The function `helm.GetStatus` once the external command has returned without error,
on the lines `scanner.Scan` yields from its output. -/
def GetStatus (rt : Runtime) (release : GoString) (output : List GoString) : Option Status :=
  (scan rt (initialState release) output).map (finish rt)

end helm

/-! ## Packages `kubectl` and `catalog`: the data the resolver reads -/

namespace kubectl

/-- The struct `kubectl.Node`. -/
structure Node where
  Name : GoString
  Hostname : GoString
  InternalIP : GoString
  ExternalIP : GoString
  deriving DecidableEq

end kubectl

namespace catalog

/-- A non-nil value of type `interface{}` as the catalog file yields it: a string, a list
of values, or a value of any other type.  The nil value, on which
`reflect.Value.Interface` panics, is not represented. -/
inductive Value where
  | str (s : GoString)
  | list (items : List Value)
  | other

/-- The struct `catalog.CatalogPlan`. -/
structure CatalogPlan where
  Id : GoString
  Name : GoString
  Description : GoString
  Chart : GoString
  ChartVersion : GoString
  ChartValues : GoMap GoString GoString
  UserCredentials : GoMap GoString Value

/-- The struct `catalog.CatalogService`. -/
structure CatalogService where
  Id : GoString
  Name : GoString
  Description : GoString
  Chart : GoString
  ChartVersion : GoString
  ChartValues : GoMap GoString GoString
  UserCredentials : GoMap GoString Value
  Plans : List CatalogPlan

end catalog

/-! ## Package `uuid` -/

namespace uuid

/-- The two lower-case hexadecimal digits of a byte, as `hex.Encode` writes them. -/
def hexByte (b : Fin 256) : GoString :=
  [Nat.digitChar (b.val / 16), Nat.digitChar (b.val % 16)]

/-- The hexadecimal digits of bytes `i`, ..., `i + n - 1` of an identifier. -/
def hexRange (u : Fin 16 → Fin 256) (i n : Nat) : GoString :=
  ((List.range n).map fun j => hexByte (u (Fin.ofNat (i + j)))).flatten

/-- The method `UUID.String`: the canonical form, five groups of hexadecimal digits
separated by hyphens. -/
def String (u : Fin 16 → Fin 256) : GoString :=
  hexRange u 0 4 ++ '-' :: hexRange u 4 2 ++ '-' :: hexRange u 6 2 ++
    '-' :: hexRange u 8 2 ++ '-' :: hexRange u 10 6

end uuid

/-! ## Package `regexp`: the lookup placeholder

The only pattern the code compiles is `lookupRegex`,

    \{\{\s*lookup\s*\(\s*'(?P<type>[\w]+)'\s*,\s*'(?P<path>[\w/:]+)'\s*\)\s*\}\}

Every starred or plussed class in it is followed by a character outside the
class, so a match that starts at a given position is unique and is found by
reading the pattern left to right.  The pattern is made of ASCII literals and
classes of ASCII characters, and no byte of a longer UTF-8 sequence is ASCII, so
matching the bytes of a text is matching its runes.
-/

namespace regexp

/-- The class `\s`: tab, line feed, form feed, carriage return, space. -/
def isSpace (c : Char) : Bool :=
  c == '\t' || c == '\n' || c == '\x0c' || c == '\r' || c == ' '

/-- The class `\w`: ASCII letters, digits and the underscore. -/
def isWord (c : Char) : Bool :=
  ('0' ≤ c && c ≤ '9') || ('A' ≤ c && c ≤ 'Z') || ('a' ≤ c && c ≤ 'z') || c == '_'

/-- The class `[\w/:]`. -/
def isPathChar (c : Char) : Bool := isWord c || c == '/' || c == ':'

/-- A literal piece of the pattern: the rest of the text behind it. -/
def lit (p s : GoString) : Option GoString :=
  if p.isPrefixOf s then some (s.drop p.length) else none

/-- A plussed class: the longest non-empty run of the class, and the rest behind it. -/
def plus (cls : Char → Bool) (s : GoString) : Option (GoString × GoString) :=
  if s.takeWhile cls = [] then none else some (s.takeWhile cls, s.dropWhile cls)

/-- A match of `lookupRegex` that starts at the head of the text: the captures `type` and
`path`, and the rest of the text behind the match. -/
def matchHere (s : GoString) : Option (GoString × GoString × GoString) := do
  let s ← lit "\x7b\x7b".toList s
  let s ← lit "lookup".toList (s.dropWhile isSpace)
  let s ← lit "(".toList (s.dropWhile isSpace)
  let s ← lit "\x27".toList (s.dropWhile isSpace)
  let (type, s) ← plus isWord s
  let s ← lit "\x27".toList s
  let s ← lit ",".toList (s.dropWhile isSpace)
  let s ← lit "\x27".toList (s.dropWhile isSpace)
  let (path, s) ← plus isPathChar s
  let s ← lit "\x27".toList s
  let s ← lit ")".toList (s.dropWhile isSpace)
  let s ← lit "\x7d\x7d".toList (s.dropWhile isSpace)
  pure (type, path, s)

/-- The method `FindStringSubmatch`: the text of the leftmost match and its two captures,
or `nil` (the empty list) when there is no match. -/
def FindStringSubmatch : GoString → List GoString
  | [] => []
  | c :: cs =>
    match matchHere (c :: cs) with
    | some (type, path, rest) => [(c :: cs).take ((c :: cs).length - rest.length), type, path]
    | none => FindStringSubmatch cs

/-- The method `SubexpNames` of the compiled pattern. -/
def SubexpNames : List GoString := [[], "type".toList, "path".toList]

/-- Scan of `ReplaceAllStringFunc` with a replacement function that carries a state:
`skip` bytes of the match just replaced are still to be passed over. -/
def replaceAllAux {σ : Type} (repl : σ → GoString → GoString × σ) :
    Nat → σ → GoString → GoString × σ
  | _, st, [] => ([], st)
  | skip + 1, st, _ :: cs => replaceAllAux repl skip st cs
  | 0, st, c :: cs =>
    match matchHere (c :: cs) with
    | some (_, _, rest) =>
      let n := (c :: cs).length - rest.length
      let out := repl st ((c :: cs).take n)
      let tail := replaceAllAux repl (n - 1) out.2 cs
      (out.1 ++ tail.1, tail.2)
    | none =>
      let tail := replaceAllAux repl 0 st cs
      (c :: tail.1, tail.2)

/-- The method `ReplaceAllStringFunc`, the replacement function carrying a state: every
match, leftmost first and not overlapping, is replaced by what `repl` returns for
its text. -/
def ReplaceAllStringFuncM {σ : Type} (src : GoString) (repl : σ → GoString → GoString × σ)
    (st : σ) : GoString × σ :=
  replaceAllAux repl 0 st src

/-- The method `ReplaceAllStringFunc` for a replacement function without state. -/
def ReplaceAllStringFunc (src : GoString) (repl : GoString → GoString) : GoString :=
  (ReplaceAllStringFuncM src (fun (_ : Unit) m => (repl m, ())) ()).1

end regexp

/-! ## Package `release` -/

namespace release

def lookupRegexType : GoString := "type".toList
def lookupRegexPath : GoString := "path".toList
def lookupValue : GoString := "value".toList
def lookupCluster : GoString := "cluster".toList
def lookupUsername : GoString := "username".toList
def lookupPassword : GoString := "password".toList
def lookupEnv : GoString := "env".toList

/-- The name prefix, the constant `prefix` of `getName`. -/
def namePrefix : GoString := "helmi".toList

/-- The function `getName`; the slice `name[:14]` panics on a shorter `name`. -/
def getName (rt : Runtime) (value : GoString) : Option GoString :=
  if strings.HasPrefix value namePrefix then some value
  else
    let name := rt.ToLower value
    let name := strings.Replace name "-".toList [] (-1)
    let name := strings.Replace name "_".toList [] (-1)
    if 14 ≤ name.length then some (namePrefix ++ name.take 14) else none

/-- The loop over the submatches at the head of both replacement functions: the pair
`lookupType`, `lookupPath` it leaves behind. -/
def lookupGroups (submatch : List GoString) : GoString × GoString :=
  (List.zip regexp.SubexpNames submatch).foldl
    (fun (acc : GoString × GoString) (g : GoString × GoString) =>
      let acc := if strings.EqualFold g.1 lookupRegexType then (g.2, acc.2) else acc
      if strings.EqualFold g.1 lookupRegexPath then (acc.1, g.2) else acc)
    ([], [])

/-- The variables the replacement function of `getChartValues` closes over: the two
per-call caches, and the number of identifiers drawn from `uuid.NewV4` so far. -/
structure SecretCache where
  usernames : GoMap GoString GoString
  passwords : GoMap GoString GoString
  drawn : Nat

/-- The replacement function of `getChartValues`. -/
def chartValueLookup (rt : Runtime) (st : SecretCache) (m : GoString) :
    GoString × SecretCache :=
  let g := lookupGroups (regexp.FindStringSubmatch m)
  let lookupType := g.1
  let lookupPath := g.2
  if strings.EqualFold lookupType lookupUsername then
    let username := (st.usernames.get? lookupPath).getD []
    if username.length = 0 then
      let username := strings.Replace (uuid.String (rt.NewV4 st.drawn)) "-".toList [] (-1)
      (username, { st with usernames := st.usernames.set lookupPath username,
                           drawn := st.drawn + 1 })
    else (username, st)
  else if strings.EqualFold lookupType lookupPassword then
    let password := (st.passwords.get? lookupPath).getD []
    if password.length = 0 then
      let password := strings.Replace (uuid.String (rt.NewV4 st.drawn)) "-".toList [] (-1)
      (password, { st with passwords := st.passwords.set lookupPath password,
                           drawn := st.drawn + 1 })
    else (password, st)
  else if strings.EqualFold lookupType lookupEnv then
    ((rt.LookupEnv lookupPath).getD [], st)
  else ([], st)

/-- The two loops that copy one map over another: `for key, value := range src` with
body `dst[key] = value`. -/
def mergeInto {V : Type} (ro : RangeOrder) (dst src : GoMap GoString V) : GoMap GoString V :=
  (ro.order src).foldl (fun t kv => t.set kv.1 kv.2) dst

/-- The body of the loop over the templates in `getChartValues`. -/
def chartValueStep (rt : Runtime) (acc : GoMap GoString GoString × SecretCache)
    (kv : GoString × GoString) : GoMap GoString GoString × SecretCache :=
  let out := regexp.ReplaceAllStringFuncM kv.2 (chartValueLookup rt) acc.2
  (if out.1.length > 0 then acc.1.set kv.1 out.1 else acc.1, out.2)

/-- The loop over the templates in `getChartValues`, in the order given, from empty
caches: the values, and the caches at the end. -/
def resolveChartValues (rt : Runtime) (templates : List (GoString × GoString)) :
    GoMap GoString GoString × SecretCache :=
  templates.foldl (chartValueStep rt) (GoMap.empty, ⟨GoMap.empty, GoMap.empty, 0⟩)

/-- The map `templates` of `getChartValues`: the chart values of the service, then those
of the plan written over them. -/
def chartTemplates (ro : RangeOrder) (service : catalog.CatalogService)
    (plan : catalog.CatalogPlan) : GoMap GoString GoString :=
  mergeInto ro (mergeInto ro GoMap.empty service.ChartValues) plan.ChartValues

/-- The function `getChartValues`. -/
def getChartValues (rt : Runtime) (ro : RangeOrder) (service : catalog.CatalogService)
    (plan : catalog.CatalogPlan) : GoMap GoString GoString :=
  (resolveChartValues rt (ro.order (chartTemplates ro service plan))).1

/-- The loop over the node ports in `replaceTemplate`: the node port of the first entry
visited that passes the test, else "0". -/
def clusterPort (ro : RangeOrder) (helmStatus : helm.Status) (lookupPath : GoString) :
    GoString :=
  let portParts := strings.Split lookupPath ":".toList
  match (ro.order helmStatus.NodePorts).find? (fun e =>
      portParts.length == 1 || strings.EqualFold (strconv.Itoa e.1) (portParts.getD 1 [])) with
  | some e => strconv.Itoa e.2
  | none => "0".toList

/-- The address branch of `replaceTemplate` when `DOMAIN` is not set: the first non-empty
external address, else the first non-empty internal address. -/
def nodeAddress (kubernetesNodes : List kubectl.Node) : Option GoString :=
  match kubernetesNodes.find? (fun node => node.ExternalIP.length > 0) with
  | some node => some node.ExternalIP
  | none => (kubernetesNodes.find? (fun node => node.InternalIP.length > 0)).map
      fun node => node.InternalIP

/-- The closure `replaceTemplate` of `getUserCredentials`. -/
def replaceTemplate (rt : Runtime) (ro : RangeOrder) (kubernetesNodes : List kubectl.Node)
    (helmStatus : helm.Status) (helmValues : GoMap GoString GoString)
    (template : GoString) : GoString :=
  let g := lookupGroups (regexp.FindStringSubmatch template)
  let lookupType := g.1
  let lookupPath := g.2
  if strings.EqualFold lookupType lookupUsername then (helmValues.get? lookupPath).getD []
  else if strings.EqualFold lookupType lookupPassword then (helmValues.get? lookupPath).getD []
  else if strings.EqualFold lookupType lookupValue then (helmValues.get? lookupPath).getD []
  else if strings.EqualFold lookupType lookupCluster then
    if strings.HasPrefix (strings.ToLower lookupPath) "port".toList then
      clusterPort ro helmStatus lookupPath
    else
      let address : Option GoString :=
        if strings.EqualFold lookupPath "address".toList then
          match rt.LookupEnv "DOMAIN".toList with
          | some value => some value
          | none => nodeAddress kubernetesNodes
        else none
      match address with
      | some value => value
      | none =>
        if strings.EqualFold lookupPath "hostname".toList then
          match kubernetesNodes.find? (fun node => node.Hostname.length > 0) with
          | some node => node.Hostname
          | none => []
        else []
  else []

/-- A resolved credential: a string, or a list of strings. -/
inductive Credential where
  | str (s : GoString)
  | strs (l : List GoString)
  deriving DecidableEq

/-- The body of the inner loop over the items of a list template: what the item appends
to `valueArray`, if anything. -/
def resolveItem (resolve : GoString → GoString) : catalog.Value → Option GoString
  | catalog.Value.str templateString =>
    let value := resolve templateString
    if value.length > 0 then some value else none
  | _ => none

/-- The body of the loop over the templates in `getUserCredentials`. -/
def userCredentialStep (resolve : GoString → GoString)
    (values : GoMap GoString Credential) (kv : GoString × catalog.Value) :
    GoMap GoString Credential :=
  match kv.2 with
  | catalog.Value.str templateString =>
    let value := resolve templateString
    if value.length > 0 then values.set kv.1 (Credential.str value) else values
  | catalog.Value.list templateStringArray =>
    let valueArray := templateStringArray.filterMap (resolveItem resolve)
    if valueArray.length > 0 then values.set kv.1 (Credential.strs valueArray) else values
  | catalog.Value.other => values

/-- The map `templates` of `getUserCredentials`: the credential templates of the service,
then those of the plan written over them. -/
def credentialTemplates (ro : RangeOrder) (service : catalog.CatalogService)
    (plan : catalog.CatalogPlan) : GoMap GoString catalog.Value :=
  mergeInto ro (mergeInto ro GoMap.empty service.UserCredentials) plan.UserCredentials

/-- The expression `r.ReplaceAllStringFunc(templateString, replaceTemplate)`: one template
string with every placeholder resolved. -/
def resolveCredential (rt : Runtime) (ro : RangeOrder) (kubernetesNodes : List kubectl.Node)
    (helmStatus : helm.Status) (helmValues : GoMap GoString GoString)
    (templateString : GoString) : GoString :=
  regexp.ReplaceAllStringFunc templateString
    (replaceTemplate rt ro kubernetesNodes helmStatus helmValues)

/-- The function `getUserCredentials`. -/
def getUserCredentials (rt : Runtime) (ro : RangeOrder) (service : catalog.CatalogService)
    (plan : catalog.CatalogPlan) (kubernetesNodes : List kubectl.Node)
    (helmStatus : helm.Status) (helmValues : GoMap GoString GoString) :
    GoMap GoString Credential :=
  (ro.order (credentialTemplates ro service plan)).foldl
    (userCredentialStep (resolveCredential rt ro kubernetesNodes helmStatus helmValues))
    GoMap.empty

end release

/-! ## The external commands -/

/-- A Go `error` value, as its message. -/
abbrev GoError := GoString

/-- What `cmd.CombinedOutput()` returns: the output of the command, and its error. -/
structure CommandResult where
  output : GoString
  err : Option GoError
  deriving DecidableEq

/-- The surroundings of the code that runs commands: a `Runtime`, the effect of
`exec.Command(name, args...).CombinedOutput()` on the state `W` of the world outside
(the list is the command name followed by its arguments), and `strings.EqualFold` on
arbitrary text. -/
structure Host (W : Type) extends Runtime where
  CombinedOutput : W → List GoString → CommandResult × W
  EqualFold : GoString → GoString → Bool

namespace strings

/-- The function `strings.Contains`. -/
def Contains (s substr : GoString) : Bool := decide (Index s substr ≥ 0)

end strings

/-! ## Package `yaml` (go-gypsy): the nodes `readYamlProperties` reads -/

namespace yaml

/-- The interface `yaml.Node` with its three implementations.  A map is given by its
entries in the order a `range` loop visits them. -/
inductive Node where
  | Map (entries : List (GoString × Node))
  | List (items : List Node)
  | Scalar (value : GoString)

end yaml

/-! ## Package `helm`: the commands -/

namespace helm

/-- The function `helm.Exists`. -/
def Exists {W : Type} (host : Host W) (w : W) (release : GoString) :
    (Bool × Option GoError) × W :=
  let r := host.CombinedOutput w ["helm".toList, "status".toList, release]
  let output := r.1.output
  let err := r.1.err
  if err = none ∧ output.length > 0 then ((true, none), r.2)
  else if output.length > 0 ∧
      strings.Contains (host.ToLower output) "not found".toList = true then
    ((false, none), r.2)
  else ((false, err), r.2)

/-- The argument list `helm.Install` builds; `values` is the map in the order the
`range` loop visits it. -/
def installArguments (release chart version : GoString) (values : List (GoString × GoString))
    (acceptsIncomplete : Bool) : List GoString :=
  let arguments : List GoString := []
  let arguments := arguments ++ ["install".toList, chart]
  let arguments := arguments ++ ["--name".toList, release]
  let arguments :=
    if version.length > 0 then arguments ++ ["--version".toList, version] else arguments
  let arguments :=
    if acceptsIncomplete = false then arguments ++ ["--wait".toList] else arguments
  values.foldl
    (fun arguments kv => arguments ++
      ["--set".toList, kv.1 ++ "=".toList ++ strings.Replace kv.2 ",".toList "\\,".toList (-1)])
    arguments

/-- The function `helm.Install`. -/
def Install {W : Type} (host : Host W) (ro : RangeOrder) (w : W)
    (release chart version : GoString) (values : GoMap GoString GoString)
    (acceptsIncomplete : Bool) : Option GoError × W :=
  let r := host.CombinedOutput w
    ("helm".toList :: installArguments release chart version (ro.order values) acceptsIncomplete)
  if r.1.err ≠ none then (some r.1.output, r.2) else (none, r.2)

/-- The function `helm.Delete`. -/
def Delete {W : Type} (host : Host W) (w : W) (release : GoString) : Option GoError × W :=
  let r := host.CombinedOutput w
    ["helm".toList, "delete".toList, release, "--purge".toList]
  if r.1.err ≠ none then (some r.1.output, r.2) else (none, r.2)

mutual
/-- The function `readYamlProperties`. -/
def readYamlProperties (ro : RangeOrder) : yaml.Node → GoString → GoMap GoString GoString
  | yaml.Node.Map entries, pre => readYamlEntries ro entries pre GoMap.empty
  | yaml.Node.Scalar value, pre => GoMap.empty.set pre value
  | yaml.Node.List _, _ => GoMap.empty
/-- The loop over the entries of a map node in `readYamlProperties`; `values` is the
map built so far. -/
def readYamlEntries (ro : RangeOrder) :
    List (GoString × yaml.Node) → GoString → GoMap GoString GoString →
      GoMap GoString GoString
  | [], _, values => values
  | (mapKey, mapNode) :: rest, pre, values =>
    let nodeName := pre
    let nodeName := if nodeName.length > 0 then nodeName ++ ".".toList else nodeName
    let nodeName := nodeName ++ mapKey
    readYamlEntries ro rest pre
      ((ro.order (readYamlProperties ro mapNode nodeName)).foldl
        (fun values kv => values.set kv.1 kv.2) values)
end

end helm

/-! ## Package `catalog`: the lookups -/

namespace catalog

/-- The struct `catalog.Catalog`. -/
structure Catalog where
  Services : List CatalogService

/-- The zero value of `CatalogPlan`. -/
def zeroPlan : CatalogPlan where
  Id := []
  Name := []
  Description := []
  Chart := []
  ChartVersion := []
  ChartValues := GoMap.empty
  UserCredentials := GoMap.empty

/-- The zero value of `CatalogService`. -/
def zeroService : CatalogService where
  Id := []
  Name := []
  Description := []
  Chart := []
  ChartVersion := []
  ChartValues := GoMap.empty
  UserCredentials := GoMap.empty
  Plans := []

/-- The method `GetService`: the first service whose id equals `service` up to case, the
zero value when there is none; its error is always nil. -/
def GetService {W : Type} (host : Host W) (c : Catalog) (service : GoString) :
    CatalogService :=
  match c.Services.find? (fun s => host.EqualFold s.Id service) with
  | some s => s
  | none => zeroService

/-- The loops of `GetServicePlan` over a list of services. -/
def findPlan {W : Type} (host : Host W) (service plan : GoString) :
    List CatalogService → Option CatalogPlan
  | [] => none
  | s :: rest =>
    if host.EqualFold s.Id service = true then
      match s.Plans.find? (fun p => host.EqualFold p.Id plan) with
      | some p => some p
      | none => findPlan host service plan rest
    else findPlan host service plan rest

/-- The method `GetServicePlan`: the zero value when no plan is found; its error is
always nil. -/
def GetServicePlan {W : Type} (host : Host W) (c : Catalog) (service plan : GoString) :
    CatalogPlan :=
  (findPlan host service plan c.Services).getD zeroPlan

end catalog

/-! ## Package `release`: charts, and the operations on a release -/

namespace release

/-- The function `getChart`: the chart, and the error. -/
def getChart (service : catalog.CatalogService) (plan : catalog.CatalogPlan) :
    GoString × Option GoError :=
  if plan.Chart.length > 0 then (plan.Chart, none)
  else if service.Chart.length > 0 then (service.Chart, none)
  else ([], some "no helm chart specified".toList)

/-- The function `getChartVersion`: the version, and the error. -/
def getChartVersion (service : catalog.CatalogService) (plan : catalog.CatalogPlan) :
    GoString × Option GoError :=
  if plan.ChartVersion.length > 0 then (plan.ChartVersion, none)
  else if service.ChartVersion.length > 0 then (service.ChartVersion, none)
  else ([], some "no helm chart version specified".toList)

/-- The function `release.Install`; logging is left out.  The result is `none` when
`getName` panics. -/
def Install {W : Type} (host : Host W) (ro : RangeOrder) (w : W) (c : catalog.Catalog)
    (serviceId planId id : GoString) (acceptsIncomplete : Bool) :
    Option (Option GoError × W) :=
  (getName host.toRuntime id).map fun name =>
    let service := catalog.GetService host c serviceId
    let plan := catalog.GetServicePlan host c serviceId planId
    let chart := getChart service plan
    let chartVersion := getChartVersion service plan
    let chartValues := getChartValues host.toRuntime ro service plan
    if chart.2 ≠ none then (chart.2, w)
    else
      let version := if chartVersion.2 ≠ none then [] else chartVersion.1
      helm.Install host ro w name chart.1 version chartValues acceptsIncomplete

/-- The function `release.Exists`; logging is left out. -/
def Exists {W : Type} (host : Host W) (w : W) (id : GoString) :
    Option ((Bool × Option GoError) × W) :=
  (getName host.toRuntime id).map fun name => helm.Exists host w name

/-- The function `release.Delete`; logging is left out. -/
def Delete {W : Type} (host : Host W) (w : W) (id : GoString) :
    Option (Option GoError × W) :=
  (getName host.toRuntime id).map fun name =>
    let deleted := helm.Delete host w name
    if deleted.1 ≠ none then
      let existence := helm.Exists host deleted.2 name
      if existence.1.2 = none ∧ existence.1.1 = false then (none, existence.2)
      else (deleted.1, existence.2)
    else (none, deleted.2)

end release

/-! ## Package `main`: the handler of the provision request -/

namespace app

/-- The struct `requestData` of `createInstance`. -/
structure requestData where
  ServiceId : GoString
  PlanId : GoString

def StatusOK : Nat := 200
def StatusAccepted : Nat := 202
def StatusBadRequest : Nat := 400
def StatusConflict : Nat := 409
def StatusInternalServerError : Nat := 500

/-- The method `createInstance`: the status code it responds with.  The request is given
by the path variable `serviceId`, the query flag, and what decoding the body gave:
`decoderErr` tells whether decoding failed. -/
def createInstance {W : Type} (host : Host W) (ro : RangeOrder) (w : W)
    (c : catalog.Catalog) (serviceId : GoString) (acceptsIncomplete : Bool)
    (decoderErr : Bool) (data : requestData) : Option (Nat × W) :=
  if decoderErr = true ∨ data.ServiceId.length = 0 ∨ data.PlanId.length = 0 then
    some (StatusBadRequest, w)
  else
    (release.Install host ro w c data.ServiceId data.PlanId serviceId acceptsIncomplete).bind
      fun installed =>
        if installed.1 ≠ none then
          (release.Exists host installed.2 serviceId).map fun existence =>
            if existence.1.2 = none ∧ existence.1.1 = true then (StatusConflict, existence.2)
            else (StatusInternalServerError, existence.2)
        else if acceptsIncomplete = true then some (StatusAccepted, installed.2)
        else some (StatusOK, installed.2)

end app

/-! ## Package `main`: the credentials of a request -/

namespace app

def StatusUnauthorized : Nat := 401

/-- The function `checkCredentials`. -/
def checkCredentials (rt : Runtime) (username password : GoString) : Bool :=
  match rt.LookupEnv "USERNAME".toList with
  | some user =>
    if user.length > 0 then
      match rt.LookupEnv "PASSWORD".toList with
      | some pass => if pass ≠ password ∨ user ≠ username then false else true
      | none => true
    else true
  | none => true

/-- The function `auth`: the wrapped handler answers `401` without running `handler` when
the credentials are refused.  `basicAuth` is the pair `r.BasicAuth()` returns, and
`handler` what the handler does with the request. -/
def auth {α : Type} (rt : Runtime) (handler : α) (basicAuth : GoString × GoString) :
    Except Nat α :=
  if checkCredentials rt basicAuth.1 basicAuth.2 = false then Except.error StatusUnauthorized
  else Except.ok handler

end app

/-! ## The status of a release, and the handler of the status request -/

namespace helm

/-- The function `helm.GetStatus` from its first statement: the command, the return of
the initial status with the error of the command, and else the scan of the lines of the
output (`GetStatus`).  `scanLines` gives the lines `bufio.Scanner` yields from the
output; the result is `none` when the scan panics. -/
def GetStatusCmd {W : Type} (host : Host W) (scanLines : GoString → List GoString) (w : W)
    (release : GoString) : Option ((Status × Option GoError) × W) :=
  let r := host.CombinedOutput w ["helm".toList, "status".toList, release]
  let status : Status := {
    Name := [], Namespace := [], IsFailed := false, IsDeployed := false,
    DesiredNodes := 0, AvailableNodes := 0,
    NodePorts := GoMap.empty, ClusterPorts := GoMap.empty }
  if r.1.err ≠ none then some ((status, r.1.err), r.2)
  else (GetStatus host.toRuntime release (scanLines r.1.output)).map fun status =>
    ((status, r.1.err), r.2)

end helm

namespace release

/-- The struct `release.Status`. -/
structure Status where
  IsFailed : Bool
  IsDeployed : Bool
  IsAvailable : Bool
  deriving DecidableEq

/-- The function `release.GetStatus`; logging is left out, so the two branches behind the
existence check differ in nothing.  The result is `none` when `getName` or the scan
panics. -/
def GetStatus {W : Type} (host : Host W) (scanLines : GoString → List GoString) (w : W)
    (id : GoString) : Option ((Status × Option GoError) × W) :=
  (getName host.toRuntime id).bind fun name =>
    (helm.GetStatusCmd host scanLines w name).map fun queried =>
      let status := queried.1.1
      let err := queried.1.2
      if err ≠ none then
        let existence := helm.Exists host queried.2 name
        if existence.1.2 = none ∧ existence.1.1 = false then
          ((⟨false, false, false⟩, err), existence.2)
        else ((⟨false, false, false⟩, err), existence.2)
      else
        ((⟨status.IsFailed, status.IsDeployed,
            decide (status.AvailableNodes ≥ status.DesiredNodes)⟩, none), queried.2)

end release

namespace app

def StatusGone : Nat := 410

/-- The function `respondWithServerError`: the status code and the fields of the JSON
object it writes. -/
def respondWithServerError (error : GoError) : Nat × List (GoString × GoString) :=
  (StatusInternalServerError,
    if error.length > 0 then [("description".toList, error)] else [])

/-- The method `queryInstance`: the status code and the fields of the JSON object it
responds with, for the path variable `serviceId`. -/
def queryInstance {W : Type} (host : Host W) (scanLines : GoString → List GoString) (w : W)
    (serviceId : GoString) : Option ((Nat × List (GoString × GoString)) × W) :=
  (release.GetStatus host scanLines w serviceId).bind fun queried =>
    let status := queried.1.1
    match queried.1.2 with
    | some err =>
      (release.Exists host queried.2 serviceId).map fun existence =>
        if existence.1.2 = none ∧ existence.1.1 = false then ((StatusGone, []), existence.2)
        else (respondWithServerError err, existence.2)
    | none =>
      if status.IsFailed = true then
        some ((StatusOK, [("state".toList, "failed".toList)]), queried.2)
      else if status.IsAvailable = true then
        some ((StatusOK, [("state".toList, "succeeded".toList)]), queried.2)
      else some ((StatusOK, [("state".toList, "in progress".toList)]), queried.2)

end app

/-! ## Reference definitions

The notions the properties below are stated with: what the specification calls
the deployment time of a report, a resource block, a port entry, a placeholder,
the derived name.  None of them is used by the embedding above.
-/

namespace helm

/-- The duration `time.Minute`, in nanoseconds. -/
def Minute : Int := 60 * 1000000000

/-- The deployment time a list of lines leaves behind, starting from `t0`: what the last
line with the prefix `LAST DEPLOYED: ` parses to, the zero time when it does not parse,
and `t0` when there is no such line. -/
def lastDeployedFrom (rt : Runtime) (t0 : Int) (output : List GoString) : Int :=
  match (output.filter fun line => strings.HasPrefix line DeploymentTimePrefix).getLast? with
  | none => t0
  | some line => (rt.ParseInLocation (strings.TrimPrefix line DeploymentTimePrefix)).getD 0

/-- The deployment time of a report, `lastDeployedAt` in the specification. -/
def lastDeployedAt (rt : Runtime) (output : List GoString) : Int :=
  lastDeployedFrom rt 0 output

/-- The rule of the specification for the flag `IsFailed` of the status `st` returned for
a report, with the timeout `d`: the flag is set exactly when some line of the report
starts with `STATUS: FAILED`, or fewer nodes are available than desired and the clock
is past the deployment time plus `d`. -/
def failureRule (rt : Runtime) (output : List GoString) (st : Status) (d : Int) : Prop :=
  st.IsFailed = true ↔
    (∃ line ∈ output, strings.HasPrefix line StatusFailed = true) ∨
    (st.AvailableNodes < st.DesiredNodes ∧ rt.Now > lastDeployedAt rt output + d)

end helm

/-- A runtime for the examples: no environment variable is set, the clock stands one day
after 1 January 2018, "30m" is thirty minutes, one date parses, lower-casing is the
ASCII one, and the identifiers handed out are pairwise different. -/
def sampleRuntime : Runtime where
  LookupEnv := fun _ => none
  Now := 63650448000000000000
  ParseDuration := fun s => if s = "30m".toList then some 1800000000000 else none
  ParseInLocation := fun s =>
    if s = "Mon Jan  1 00:00:00 2018".toList then some 63650361600000000000 else none
  ToLower := strings.ToLower
  NewV4 := fun n i => ⟨(16 * n + i.val + 7) % 256, Nat.mod_lt _ (by decide)⟩

/-- The runtime `sampleRuntime` with `TIMEOUT` set to `48h`, which parses to two days. -/
def patientRuntime : Runtime :=
  { sampleRuntime with
    LookupEnv := fun name => if name = "TIMEOUT".toList then some "48h".toList else none
    ParseDuration := fun s =>
      if s = "48h".toList then some 172800000000000
      else if s = "30m".toList then some 1800000000000 else none }

namespace helm

/-- A report deployed a day before the clock of `sampleRuntime`, with 1 node available of
2 desired and no line `STATUS: FAILED`. -/
def staleReport : List GoString := [
  "LAST DEPLOYED: Mon Jan  1 00:00:00 2018".toList,
  "NAMESPACE: default".toList,
  "STATUS: DEPLOYED".toList,
  "".toList,
  "==> v1beta1/Deployment".toList,
  "NAME  DESIRED  CURRENT  UP-TO-DATE  AVAILABLE  AGE".toList,
  "db    2        2        2           1          1d".toList,
  "".toList]

/-- The status `GetStatus` returns for `staleReport`. -/
def staleStatus : Status where
  Name := "db".toList
  Namespace := "default".toList
  IsFailed := true
  IsDeployed := true
  DesiredNodes := 2
  AvailableNodes := 1
  NodePorts := GoMap.empty
  ClusterPorts := GoMap.empty

/-- A report whose second line ends before the recorded `DESIRED` column. -/
def shortLineReport : List GoString :=
  ["NAME  DESIRED  CURRENT".toList, "db".toList]

/-- A report whose second line has only blanks from the recorded `DESIRED` column on. -/
def blankTailReport : List GoString :=
  ["NAME  DESIRED  CURRENT".toList, "db             ".toList]

/-- A report whose second line ends before the recorded `PORT(S)` column. -/
def shortPortReport : List GoString :=
  ["NAME  CLUSTER-IP  PORT(S)".toList, "db".toList]

end helm

namespace helm

/-- A resource block of a report: its header line and its data lines. -/
structure Block where
  header : GoString
  rows : List GoString

/-- The lines of a block: the header, the data lines, and the blank line that ends it. -/
def Block.lines (b : Block) : List GoString := b.header :: (b.rows ++ [[]])

/-- A header line of a node-count block: it contains both `DESIRED` and `CURRENT`. -/
def isHeader (line : GoString) : Prop :=
  strings.Index line DesiredLabel ≥ 0 ∧ strings.Index line CurrentLabel ≥ 0

instance (line : GoString) : Decidable (isHeader line) := by
  unfold isHeader; infer_instance

/-- The integer written in the field at a column of a line, if there is one. -/
def intAt (line : GoString) (column : Int) : Option Int :=
  (fieldAt line column).bind strconv.Atoi

/-- A well-formed data line under a header: no header itself, and at every column the
header labels it has a field, an integer under `DESIRED`, `CURRENT` and `AVAILABLE`. -/
def wellFormedRow (header row : GoString) : Prop :=
  ¬ isHeader row ∧ strings.Index row PortsLabel < 0 ∧
  (intAt row (strings.Index header DesiredLabel)).isSome ∧
  (intAt row (strings.Index header CurrentLabel)).isSome ∧
  (strings.Index header AvailableLabel ≥ 0 →
    (intAt row (strings.Index header AvailableLabel)).isSome) ∧
  (strings.Index header PortsLabel ≥ 0 →
    (fieldAt row (strings.Index header PortsLabel)).isSome)

instance (header row : GoString) : Decidable (wellFormedRow header row) := by
  unfold wellFormedRow; infer_instance

/-- A well-formed block: a header followed by well-formed data lines. -/
def Block.wellFormed (b : Block) : Prop :=
  isHeader b.header ∧ ∀ row ∈ b.rows, wellFormedRow b.header row

instance (b : Block) : Decidable b.wellFormed := by
  unfold Block.wellFormed; infer_instance

/-- The sum over the data lines of a block of the integer at the `DESIRED` column. -/
def Block.desired (b : Block) : Int :=
  (b.rows.map fun row => (intAt row (strings.Index b.header DesiredLabel)).getD 0).sum

/-- The column that counts as available under a header: `AVAILABLE` when the header has
the label, `CURRENT` otherwise. -/
def availableColumn (header : GoString) : Int :=
  if strings.Index header AvailableLabel ≥ 0 then strings.Index header AvailableLabel
  else strings.Index header CurrentLabel

/-- The sum over the data lines of a block of the integer at the available column. -/
def Block.available (b : Block) : Int :=
  (b.rows.map fun row => (intAt row (availableColumn b.header)).getD 0).sum

/-- No column is recorded. -/
def ScanState.cleared (st : ScanState) : Prop :=
  st.columnDesired = -1 ∧ st.columnCurrent = -1 ∧ st.columnAvailable = -1 ∧ st.columnPort = -1

/-- The columns recorded are those of the header. -/
def ScanState.under (st : ScanState) (header : GoString) : Prop :=
  st.columnDesired = strings.Index header DesiredLabel ∧
  st.columnCurrent = strings.Index header CurrentLabel ∧
  st.columnAvailable = (if strings.Index header AvailableLabel ≥ 0 then
    strings.Index header AvailableLabel else -1) ∧
  st.columnPort = (if strings.Index header PortsLabel ≥ 0 then
    strings.Index header PortsLabel else -1)


/-- A resource block whose `DESIRED` column holds the greatest `int` and 1. -/
def overflowBlock : Block :=
  ⟨"NAME  DESIRED              CURRENT".toList,
   ["a     9223372036854775807  1".toList,
    "b     1                    1".toList]⟩

/-- Two resource blocks: a deployment table with an `AVAILABLE` column, and a table
without one. -/
def twoBlocks : List Block := [
  ⟨"NAME  DESIRED  CURRENT  UP-TO-DATE  AVAILABLE  AGE".toList,
   ["web   3        3        3           2          1d".toList,
    "api   2        2        2           2          1d".toList]⟩,
  ⟨"NAME  DESIRED  CURRENT  AGE".toList,
   ["db    1        1        1d".toList]⟩]


end helm

namespace helm

/-- An entry of a port token: the text of the cluster port, the text of the node port
when the entry has one, and the protocol. -/
structure PortEntry where
  cluster : GoString
  node : Option GoString
  proto : GoString

/-- The text of an entry: `c/proto`, or `c:n/proto`. -/
def PortEntry.text (e : PortEntry) : GoString :=
  match e.node with
  | some n => e.cluster ++ ':' :: (n ++ '/' :: e.proto)
  | none => e.cluster ++ '/' :: e.proto

/-- A well-formed entry: the ports are integers, the protocol is a non-empty name without
separator. -/
def PortEntry.wellFormed (e : PortEntry) : Prop :=
  (strconv.Atoi e.cluster).isSome ∧ (∀ n ∈ e.node, (strconv.Atoi n).isSome) ∧
  e.proto ≠ [] ∧ ∀ c ∈ e.proto, c ≠ ':' ∧ c ≠ '/' ∧ c ≠ ','

instance (e : PortEntry) : Decidable e.wellFormed := by
  unfold PortEntry.wellFormed; infer_instance

/-- What the specification has an entry register: `c:n/proto` sets `NodePorts[c] = n` and
adds `c` to `ClusterPorts`; `c/proto` adds `c` to `ClusterPorts` only. -/
def PortEntry.register (status : Status) (e : PortEntry) : Status :=
  let c := (strconv.Atoi e.cluster).getD 0
  match e.node with
  | some n =>
    { status with
      NodePorts := status.NodePorts.set c ((strconv.Atoi n).getD 0)
      ClusterPorts := status.ClusterPorts.set c c }
  | none => { status with ClusterPorts := status.ClusterPorts.set c c }

/-- The token of a list of entries: their texts, separated by commas. -/
def portToken (entries : List PortEntry) : GoString :=
  List.intercalate [','] (entries.map PortEntry.text)

/-- The state of the scan below the header `NAME  CLUSTER-IP  PORT(S)  AGE` of a service
table: the port column is recorded. -/
def portState : ScanState :=
  { initialState "db".toList with
    columnPort := strings.Index "NAME  CLUSTER-IP  PORT(S)  AGE".toList PortsLabel }

/-- A data line of a service table. -/
def portLine : GoString := "db    10.0.0.1    80:30001/TCP,443/TCP  1d".toList

/-- The entries of the port token of `portLine`. -/
def portEntries : List PortEntry :=
  [⟨"80".toList, some "30001".toList, "TCP".toList⟩, ⟨"443".toList, none, "TCP".toList⟩]

/-- The state of the scan after `portLine`. -/
def portStateAfter : ScanState :=
  { portState with status := { portState.status with
      NodePorts := GoMap.empty.set 80 30001
      ClusterPorts := (GoMap.empty.set 80 80).set 443 443 } }

end helm

namespace release

/-- The sanitized form of an instance id: lower-cased, with every `-` and `_` removed. -/
def sanitize (rt : Runtime) (instanceId : GoString) : GoString :=
  (rt.ToLower instanceId).filter fun c => c ≠ '-' ∧ c ≠ '_'

/-- Counts the characters of a text, as `utf8.RuneCountInString` does: every UTF-8
sequence is one character, and so is every byte that belongs to none.  `skip` bytes of
the sequence just counted are still to be passed. -/
def countRunes : Nat → GoString → Nat
  | _, [] => 0
  | skip + 1, _ :: cs => countRunes skip cs
  | 0, c :: cs => 1 + countRunes ((utf8.DecodeRune (c :: cs)).2 - 1) cs

/-- The bytes of the first `n` characters of a text; `skip` bytes of the character just
entered are still to be copied. -/
def takeRunes : Nat → Nat → GoString → GoString
  | _, _, [] => []
  | n, skip + 1, c :: cs => c :: takeRunes n skip cs
  | 0, 0, _ :: _ => []
  | n + 1, 0, c :: cs => c :: takeRunes n ((utf8.DecodeRune (c :: cs)).2 - 1) cs

/-- The naming rule `deriveName` of the specification: an id that starts with the prefix
is used unchanged, any other gives the prefix and the first 14 characters of its
sanitized form. -/
def deriveName (rt : Runtime) (instanceId : GoString) : GoString :=
  if namePrefix.isPrefixOf instanceId then instanceId
  else namePrefix ++ takeRunes 14 0 (sanitize rt instanceId)

/-- The instance id of the test `Test_GetName`. -/
def longId : GoString := "this_is-a_test_name_which-is_pretty-long".toList

/-- The two bytes of the letter e with an acute accent, U+00E9, in UTF-8. -/
def accentedE : GoString := ['\xc3', '\xa9']

/-- An instance id of 15 characters and 30 bytes: 15 times the letter `accentedE`. -/
def accentedId : GoString := (List.replicate 15 accentedE).flatten

end release

namespace release

/-- The placeholder of the given kind and path, with `gap` between the comma and
the path. -/
def placeholder (gap kind path : GoString) : GoString :=
  "\x7b\x7b lookup(\x27".toList ++ kind ++ "\x27,".toList ++ gap ++ "\x27".toList ++ path ++
    "\x27) \x7d\x7d".toList

end release

namespace release

/-- A generated secret: the canonical form of the `n`-th identifier, its hyphens
removed. -/
def secret (rt : Runtime) (n : Nat) : GoString :=
  (uuid.String (rt.NewV4 n)).filter fun c => c ≠ '-'

/-- A lower-case hexadecimal digit. -/
def isLowerHex (c : Char) : Bool := ('0' ≤ c && c ≤ '9') || ('a' ≤ c && c ≤ 'f')

/-- The cache of a kind: `usernames` for `username`, `passwords` otherwise. -/
def SecretCache.cache (c : SecretCache) (kind : GoString) : GoMap GoString GoString :=
  if kind = lookupUsername then c.usernames else c.passwords

/-- Every cached value is a generated secret, and one identifier was drawn per entry. -/
def SecretCache.valid (rt : Runtime) (c : SecretCache) : Prop :=
  (∀ p v, c.usernames.get? p = some v → ∃ n, n < c.drawn ∧ v = secret rt n) ∧
  (∀ p v, c.passwords.get? p = some v → ∃ n, n < c.drawn ∧ v = secret rt n) ∧
  c.drawn = c.usernames.size + c.passwords.size

/-- The caches `c'` keep every entry of the caches `c`. -/
def SecretCache.keeps (c c' : SecretCache) : Prop :=
  (∀ p v, c.usernames.get? p = some v → c'.usernames.get? p = some v) ∧
  (∀ p v, c.passwords.get? p = some v → c'.passwords.get? p = some v)

/-- From valid caches `c` the code reaches valid caches `c'` that keep every entry. -/
def SecretCache.leads (rt : Runtime) (c c' : SecretCache) : Prop :=
  c.valid rt → c'.valid rt ∧ c.keeps c'

/-- A plan that declares nothing. -/
def emptyPlan : catalog.CatalogPlan where
  Id := []
  Name := []
  Description := []
  Chart := []
  ChartVersion := []
  ChartValues := GoMap.empty
  UserCredentials := GoMap.empty

/-- A service whose chart values ask for a user name and, under two keys, for the
password of the same path. -/
def secretService : catalog.CatalogService where
  Id := "12345".toList
  Name := "test_service".toList
  Description := "service_description".toList
  Chart := "service_chart".toList
  ChartVersion := "1.2.3".toList
  ChartValues :=
    ((GoMap.empty.set "user".toList (placeholder [] lookupUsername "admin".toList)).set
      "password".toList (placeholder [] lookupPassword "p".toList)).set
      "adminPassword".toList (placeholder [] lookupPassword "p".toList)
  UserCredentials := GoMap.empty
  Plans := []

end release

namespace release

/-- What one credential template resolves to, given how a template string resolves: a
non-empty string, a non-empty list of the non-empty results of its string items, or
nothing. -/
def resolvedValue (resolve : GoString → GoString) : catalog.Value → Option Credential
  | catalog.Value.str templateString =>
    if (resolve templateString).length > 0 then some (Credential.str (resolve templateString))
    else none
  | catalog.Value.list items =>
    if (items.filterMap (resolveItem resolve)).length > 0 then
      some (Credential.strs (items.filterMap (resolveItem resolve)))
    else none
  | catalog.Value.other => none

/-- The value a deployed-values map holds under a path, empty when there is none:
the expression `helmValues[lookupPath]`. -/
def deployedValue (helmValues : GoMap GoString GoString) (path : GoString) : GoString :=
  (helmValues.get? path).getD []

/-- The plan `csp` of the tests of the repository. -/
def testPlan : catalog.CatalogPlan where
  Id := "67890".toList
  Name := "test_plan".toList
  Description := "plan_description".toList
  Chart := "plan_chart".toList
  ChartVersion := "1.2.3".toList
  ChartValues := (GoMap.empty.set "foo".toList "bar".toList).set "password".toList
    (placeholder " ".toList lookupPassword "password".toList)
  UserCredentials := GoMap.empty.set "key".toList
    (catalog.Value.str (placeholder " ".toList lookupValue "foo".toList))

/-- The service `cs` of the tests of the repository. -/
def testService : catalog.CatalogService where
  Id := "12345".toList
  Name := "test_service".toList
  Description := "service_description".toList
  Chart := "service_chart".toList
  ChartVersion := "1.2.3".toList
  ChartValues := (GoMap.empty.set "foo".toList "bar".toList).set "password".toList
    (placeholder " ".toList lookupPassword "password".toList)
  UserCredentials :=
    ((GoMap.empty.set "key".toList
        (catalog.Value.str (placeholder " ".toList lookupValue "foo".toList))).set
      "hostname".toList
        (catalog.Value.str (placeholder " ".toList lookupCluster "address".toList))).set
      "port".toList (catalog.Value.str (placeholder " ".toList lookupCluster "port".toList))
  Plans := [testPlan]

/-- The node list `nodes` of the tests of the repository. -/
def testNodes : List kubectl.Node :=
  [⟨"test_node".toList, "test_hostname".toList, "1.1.1.1".toList, "2.2.2.2".toList⟩]

/-- The status `status` of the tests of the repository. -/
def testStatus : helm.Status where
  Name := []
  Namespace := []
  IsFailed := false
  IsDeployed := true
  DesiredNodes := 1
  AvailableNodes := 1
  NodePorts := GoMap.empty.set 80 30001
  ClusterPorts := GoMap.empty

/-- Deployed values with `foo` set to `bar`. -/
def testValues : GoMap GoString GoString := GoMap.empty.set "foo".toList "bar".toList

end release

namespace release

/-- The cluster address of the specification: the domain override when there is one,
else the external address of the first node that has one, else the internal address
of the first node that has one, else the empty string. -/
def clusterAddress (domain : Option GoString) (nodes : List kubectl.Node) : GoString :=
  match domain with
  | some value => value
  | none =>
    match (nodes.filter fun node => node.ExternalIP ≠ []).head? with
    | some node => node.ExternalIP
    | none =>
      match (nodes.filter fun node => node.InternalIP ≠ []).head? with
      | some node => node.InternalIP
      | none => []

/-- Two nodes, the first with an internal address only. -/
def mixedNodes : List kubectl.Node :=
  ⟨"inner".toList, "inner_hostname".toList, "3.3.3.3".toList, []⟩ :: testNodes

/-- A runtime in which `DOMAIN` is set. -/
def domainRuntime : Runtime :=
  { sampleRuntime with
    LookupEnv := fun name =>
      if name = "DOMAIN".toList then some "cluster.example.org".toList else none }

end release

namespace strconv

/-- The value of a run of decimal digits, least significant first. -/
def valueRev : GoString → Nat
  | [] => 0
  | c :: cs => (c.toNat - 48) + 10 * valueRev cs

end strconv

namespace release

/-- The path `port:c` of a cluster port `c`. -/
def portPath (c : Nat) : GoString := "port:".toList ++ strconv.Itoa (c : Int)

/-- The decimal node port a node-port map holds under a cluster port, "0" when the
cluster port is no key of the map. -/
def nodePortText (nodePorts : GoMap Int Int) (c : Int) : GoString :=
  match nodePorts.get? c with
  | some nodePort => strconv.Itoa nodePort
  | none => "0".toList

/-- A status with two node ports. -/
def twoPortStatus : helm.Status :=
  { testStatus with NodePorts := (GoMap.empty.set 80 30001).set 443 30002 }

end release

namespace release

/-- The chart resolution of the specification: the value of the plan when it is not
empty, else that of the service when it is not empty, else the error
`ChartNotSpecified` (`none`). -/
def resolveChart (serviceChart planChart : GoString) : Option GoString :=
  if planChart ≠ [] then some planChart
  else if serviceChart ≠ [] then some serviceChart
  else none

end release

namespace release

/-- The key-by-key merge of the specification: the value of the plan when the plan has
the key, else that of the service. -/
def mergedValue {V : Type} (service plan : GoMap GoString V) (key : GoString) : Option V :=
  match plan.get? key with
  | some value => some value
  | none => service.get? key

/-- A resolved string as an entry of the result: present when it is not empty. -/
def presentValue (value : GoString) : Option GoString :=
  if value.length > 0 then some value else none

/-- A service whose chart values are literal strings. -/
def literalService : catalog.CatalogService :=
  { catalog.zeroService with
    Chart := "service_chart".toList
    ChartValues := (GoMap.empty.set "foo".toList "bar".toList).set "size".toList "small".toList }

/-- A plan whose chart values are literal strings. -/
def literalPlan : catalog.CatalogPlan :=
  { catalog.zeroPlan with
    ChartValues := (GoMap.empty.set "size".toList "large".toList).set "tier".toList "gold".toList }

end release

/-- A deployment tool for the examples.  The world is the list of the names of the
releases that exist: `status` and `delete` fail with a "not found" message on a
release that does not exist, `install` fails on one that does. -/
def sampleTool (w : List GoString) (command : List GoString) :
    CommandResult × List GoString :=
  let release := command.getD 2 []
  if command.getD 1 [] = "status".toList then
    if release ∈ w then (⟨"STATUS: DEPLOYED".toList, none⟩, w)
    else (⟨"Error: release not found".toList, some "exit status 1".toList⟩, w)
  else if command.getD 1 [] = "delete".toList then
    if release ∈ w then (⟨"release deleted".toList, none⟩, w.erase release)
    else (⟨"Error: release not found".toList, some "exit status 1".toList⟩, w)
  else if command.getD 1 [] = "install".toList then
    let name := command.getD 4 []
    if name ∈ w then
      (⟨"Error: a release with this name already exists".toList,
        some "exit status 1".toList⟩, w)
    else (⟨"NAME: installed".toList, none⟩, name :: w)
  else (⟨[], some "exit status 1".toList⟩, w)

/-- A host for the examples: `sampleRuntime` with `sampleTool`. -/
def sampleHost : Host (List GoString) :=
  { sampleRuntime with CombinedOutput := sampleTool, EqualFold := strings.EqualFold }

namespace release

/-- A service with a literal chart value, one that reads an environment variable that is
not set, and one that asks for a password. -/
def partialService : catalog.CatalogService :=
  { catalog.zeroService with
    ChartValues :=
      ((GoMap.empty.set "foo".toList "bar".toList).set "region".toList
        (placeholder " ".toList lookupEnv "REGION".toList)).set "password".toList
        (placeholder " ".toList lookupPassword "password".toList) }

end release

namespace release

/-- The string elements of a list template, in their order. -/
def stringItems : List catalog.Value → List GoString
  | [] => []
  | catalog.Value.str s :: rest => s :: stringItems rest
  | _ :: rest => stringItems rest

/-- The resolved value of a list template in the words of the specification: every
string element resolved on its own, the empty results dropped, the order kept. -/
def resolvedList (resolve : GoString → GoString) (items : List catalog.Value) :
    List GoString :=
  ((stringItems items).map resolve).filter fun value => value ≠ []

/-- A service with a list template of three elements, the second of which reads a
deployed value that is not there, and a string template that reads the same value. -/
def listService : catalog.CatalogService :=
  { catalog.zeroService with
    UserCredentials :=
      (GoMap.empty.set "hosts".toList
        (catalog.Value.list [
          catalog.Value.str (placeholder " ".toList lookupValue "foo".toList),
          catalog.Value.str (placeholder " ".toList lookupValue "missing".toList),
          catalog.Value.str "literal".toList])).set "gone".toList
        (catalog.Value.str (placeholder " ".toList lookupValue "missing".toList)) }

end release

namespace release

/-- A plan that declares nothing but its id. -/
def barePlan : catalog.CatalogPlan := { catalog.zeroPlan with Id := "small".toList }

/-- A service with a chart and no chart version, offering `barePlan`. -/
def versionlessService : catalog.CatalogService :=
  { catalog.zeroService with
    Id := "db".toList
    Chart := "stable/db".toList
    Plans := [barePlan] }

/-- A service without a chart, offering `barePlan`. -/
def chartlessService : catalog.CatalogService :=
  { catalog.zeroService with
    Id := "queue".toList
    Plans := [barePlan] }

/-- A catalog with `versionlessService` and `chartlessService`. -/
def sampleCatalog : catalog.Catalog := ⟨[versionlessService, chartlessService]⟩

end release

namespace app

/-- The body of a provision request for service `db`, plan `small`. -/
def sampleRequest : requestData := ⟨"db".toList, "small".toList⟩

end app

namespace release

/-- A piece of a template: literal text, or a placeholder. -/
inductive Piece where
  | text (s : GoString)
  | lookup (gap kind path : GoString)

/-- The text of a piece. -/
def Piece.render : Piece → GoString
  | Piece.text s => s
  | Piece.lookup gap kind path => placeholder gap kind path

/-- The literal text of a piece: nothing for a placeholder. -/
def Piece.literal : Piece → GoString
  | Piece.text s => s
  | Piece.lookup _ _ _ => []

/-- A piece of a template with placeholders that chart values do not support: literal
text without an opening brace, or a placeholder of kind `value` or `cluster`. -/
def Piece.unsupported : Piece → Prop
  | Piece.text s => '\x7b' ∉ s
  | Piece.lookup gap kind path =>
    (kind = lookupValue ∨ kind = lookupCluster) ∧ (∀ c ∈ gap, regexp.isSpace c = true) ∧
    path ≠ [] ∧ ∀ c ∈ path, regexp.isPathChar c = true

instance (p : Piece) : Decidable p.unsupported := by
  cases p <;> unfold Piece.unsupported <;> infer_instance

/-- The template made of the pieces. -/
def renderPieces (pieces : List Piece) : GoString := (pieces.map Piece.render).flatten

/-- The literal text of the pieces. -/
def literalText (pieces : List Piece) : GoString := (pieces.map Piece.literal).flatten

/-- The pieces of the template `a{{ lookup('value','x') }}b`. -/
def abPieces : List Piece :=
  [Piece.text "a".toList, Piece.lookup [] lookupValue "x".toList, Piece.text "b".toList]

/-- A service whose chart values have the template of `abPieces` and a template that
is a placeholder of kind `cluster` alone. -/
def unsupportedService : catalog.CatalogService :=
  { catalog.zeroService with
    ChartValues := (GoMap.empty.set "ab".toList (renderPieces abPieces)).set "host".toList
      (renderPieces [Piece.lookup " ".toList lookupCluster "address".toList]) }

end release

/-! ### Flattening a tree of values -/

namespace helm

/-- The name `readYamlProperties` gives to the entry `key` under the prefix `pre`: the
three statements that build `nodeName`. -/
def nodeName (pre key : GoString) : GoString :=
  (if pre.length > 0 then pre ++ ".".toList else pre) ++ key

/-- The name of a key path under a prefix. -/
def namePath (pre : GoString) (path : List GoString) : GoString := path.foldl nodeName pre

/-- A key path joined with `.`, as `strings.Join(path, ".")`. -/
def joinPath (path : List GoString) : GoString := List.intercalate ['.'] path

mutual
/-- The scalar leaves of a tree: the key path to each, and its string. -/
def leaves : yaml.Node → List (List GoString × GoString)
  | yaml.Node.Map entries => leavesOfEntries entries
  | yaml.Node.Scalar value => [([], value)]
  | yaml.Node.List _ => []
/-- The scalar leaves below the entries of a map. -/
def leavesOfEntries : List (GoString × yaml.Node) → List (List GoString × GoString)
  | [] => []
  | (key, node) :: rest =>
    (leaves node).map (fun leaf => (key :: leaf.1, leaf.2)) ++ leavesOfEntries rest
end

mutual
/-- A tree built from maps and scalars, in which the keys of a map are pairwise
different, and every key satisfies `good`. -/
def plain (good : GoString → Bool) : yaml.Node → Bool
  | yaml.Node.Map entries =>
    plainEntries good entries && decide ((entries.map Prod.fst).Nodup)
  | yaml.Node.Scalar _ => true
  | yaml.Node.List _ => false
/-- The entries of a map of a plain tree. -/
def plainEntries (good : GoString → Bool) : List (GoString × yaml.Node) → Bool
  | [] => true
  | (key, node) :: rest => good key && plain good node && plainEntries good rest
end

/-- A key without `.`. -/
def dotFree (key : GoString) : Bool := decide ('.' ∉ key)

/-- The keys of the top-level map are not empty. -/
def rootKeyed : yaml.Node → Bool
  | yaml.Node.Map entries => entries.all fun entry => decide (entry.1 ≠ [])
  | _ => true

/-- A tree of nested configuration. -/
def nestedTree : yaml.Node :=
  yaml.Node.Map [
    ("a".toList, yaml.Node.Map [("b".toList, yaml.Node.Scalar "1".toList),
      ("c".toList, yaml.Node.Scalar "2".toList)]),
    ("d".toList, yaml.Node.Scalar "3".toList)]

/-- A tree with an empty key: the leaf below it and the leaf beside it get the same
name. -/
def emptyKeyTree : yaml.Node :=
  yaml.Node.Map [
    ("".toList, yaml.Node.Map [("a".toList, yaml.Node.Scalar "1".toList)]),
    ("a".toList, yaml.Node.Scalar "2".toList)]

/-- The value the assignments `values[key] = value`, made in the order of the list, leave
under `key`, starting from `init`. -/
def lastValue (key : GoString) (l : List (GoString × GoString)) (init : Option GoString) :
    Option GoString :=
  l.foldl (fun acc kv => if kv.1 = key then some kv.2 else acc) init

mutual
/-- The leaves of a tree with the names `readYamlProperties` gives them under a prefix. -/
def namedLeaves : yaml.Node → GoString → List (GoString × GoString)
  | yaml.Node.Map entries, pre => namedEntries entries pre
  | yaml.Node.Scalar value, pre => [(pre, value)]
  | yaml.Node.List _, _ => []
/-- The named leaves below the entries of a map. -/
def namedEntries : List (GoString × yaml.Node) → GoString → List (GoString × GoString)
  | [], _ => []
  | (key, node) :: rest, pre => namedLeaves node (nodeName pre key) ++ namedEntries rest pre
end

end helm

/-! ### The credentials of the broker -/

/-- A runtime in which `USERNAME` is `admin` and `PASSWORD` is `secret`. -/
def authRuntime : Runtime :=
  { sampleRuntime with
    LookupEnv := fun name =>
      if name = "USERNAME".toList then some "admin".toList
      else if name = "PASSWORD".toList then some "secret".toList else none }

/-- A runtime in which `USERNAME` is `admin` and `PASSWORD` is set to the empty string. -/
def emptyPasswordRuntime : Runtime :=
  { sampleRuntime with
    LookupEnv := fun name =>
      if name = "USERNAME".toList then some "admin".toList
      else if name = "PASSWORD".toList then some [] else none }

/-! ### Reports without a deployment time -/

namespace helm

/-- The report `staleReport` without its line `LAST DEPLOYED`. -/
def undatedReport : List GoString := [
  "NAMESPACE: default".toList,
  "STATUS: DEPLOYED".toList,
  "".toList,
  "==> v1beta1/Deployment".toList,
  "NAME  DESIRED  CURRENT  UP-TO-DATE  AVAILABLE  AGE".toList,
  "db    2        2        2           1          1d".toList,
  "".toList]

/-- The report `undatedReport` after a deployment time that parses and one that does
not. -/
def misdatedReport : List GoString :=
  "LAST DEPLOYED: Mon Jan  1 00:00:00 2018".toList :: "LAST DEPLOYED: yesterday".toList ::
    undatedReport

end helm

/-! ### Deployed values under a dotted key -/

namespace release

/-- The credential template `\x7b\x7b lookup(\x27value\x27, \x27a.b\x27) \x7d\x7d`. -/
def dottedTemplate : GoString := placeholder " ".toList lookupValue "a.b".toList

/-- A service whose credential `key` is `dottedTemplate`. -/
def dottedService : catalog.CatalogService :=
  { catalog.zeroService with
    UserCredentials := GoMap.empty.set "key".toList (catalog.Value.str dottedTemplate) }

/-- Deployed values that hold `v` under the key `a.b`. -/
def dottedValues : GoMap GoString GoString := GoMap.empty.set "a.b".toList "v".toList

end release

/-! ### A plan with an empty chart value -/

namespace release

/-- A plan whose chart value `size` is the empty string. -/
def blankPlan : catalog.CatalogPlan :=
  { catalog.zeroPlan with ChartValues := GoMap.empty.set "size".toList [] }

end release

/-! ### A failed status query -/

/-- The command `helm status` of a release. -/
def statusCommand (release : GoString) : List GoString :=
  ["helm".toList, "status".toList, release]

/-- A deployment tool that answers from a script.  The world is the list of the results
still to come: every command takes the next one, and fails when none is left. -/
def scriptedTool (w : List CommandResult) (_ : List GoString) :
    CommandResult × List CommandResult :=
  match w with
  | [] => (⟨[], some "exit status 1".toList⟩, [])
  | result :: rest => (result, rest)

/-- A host for the examples: `sampleRuntime` with `scriptedTool`. -/
def scriptedHost : Host (List CommandResult) :=
  { sampleRuntime with CombinedOutput := scriptedTool, EqualFold := strings.EqualFold }

/-- The lines of an output that has no carriage return and no final line feed. -/
def sampleLines (output : GoString) : List GoString := strings.Split output "\n".toList

/-- The release of the script is absent: every command fails with `not found`. -/
def absentScript : List CommandResult :=
  List.replicate 3 ⟨"Error: release not found".toList, some "exit status 1".toList⟩

/-- The release of the script exists: the first command fails with the error of
`absentScript`, the commands after it succeed. -/
def presentScript : List CommandResult := [
  ⟨"Error: transport is closing".toList, some "exit status 1".toList⟩,
  ⟨"STATUS: DEPLOYED".toList, none⟩,
  ⟨"STATUS: DEPLOYED".toList, none⟩]

/-! ### Lines behind a blank line -/

namespace helm

/-- A line that records a column: a header of a node table, with both `DESIRED` and
`CURRENT`, or a header with `PORT(S)`. -/
def recordsColumn (line : GoString) : Prop :=
  isHeader line ∨ strings.Index line PortsLabel ≥ 0

instance (line : GoString) : Decidable (recordsColumn line) := by
  unfold recordsColumn; infer_instance

/-- The state of the scan below the header `NAME  DESIRED  CURRENT  PORT(S)`, with 2
nodes desired and 1 available counted so far. -/
def tableState : ScanState :=
  { initialState "db".toList with
    status := { (initialState "db".toList).status with DesiredNodes := 2, AvailableNodes := 1 }
    columnDesired := 6
    columnCurrent := 15
    columnPort := 24 }

/-- Lines without a header behind a blank line; under the header of `tableState` they
would count 5 nodes and register the port 80. -/
def strayLines : List GoString :=
  ["web   5        5        80:30001/TCP".toList, "==> v1/Pod".toList]

end helm

/-! ## Properties -/

namespace helm

/-! ### What each part of the loop body leaves unchanged -/

theorem scanNodes_keeps (st st' : ScanState) (line : GoString)
    (h : scanNodes st line = some st') :
    st'.status.IsFailed = st.status.IsFailed ∧ st'.status.IsDeployed = st.status.IsDeployed ∧
    st'.lastDeploymentTime = st.lastDeploymentTime ∧
    st'.status.NodePorts = st.status.NodePorts ∧
    st'.status.ClusterPorts = st.status.ClusterPorts ∧ st'.columnPort = st.columnPort := by
  unfold scanNodes at h
  simp only [] at h
  split at h
  · cases h; simp
  · split at h
    · obtain ⟨n, -, rfl⟩ := Option.map_eq_some'.mp h
      simp
    · cases h; simp

theorem registerPort_keeps (status : Status) (portPair : GoString) :
    (registerPort status portPair).IsFailed = status.IsFailed ∧
    (registerPort status portPair).IsDeployed = status.IsDeployed ∧
    (registerPort status portPair).DesiredNodes = status.DesiredNodes ∧
    (registerPort status portPair).AvailableNodes = status.AvailableNodes := by
  unfold registerPort
  simp only []
  split <;> split <;> (try split) <;> (try split) <;> simp

theorem foldl_registerPort_keeps (l : List GoString) (status : Status) :
    (l.foldl registerPort status).IsFailed = status.IsFailed ∧
    (l.foldl registerPort status).IsDeployed = status.IsDeployed ∧
    (l.foldl registerPort status).DesiredNodes = status.DesiredNodes ∧
    (l.foldl registerPort status).AvailableNodes = status.AvailableNodes := by
  induction l generalizing status with
  | nil => simp
  | cons p r ih =>
    obtain ⟨h1, h2, h3, h4⟩ := ih (registerPort status p)
    obtain ⟨g1, g2, g3, g4⟩ := registerPort_keeps status p
    simp only [List.foldl_cons]
    exact ⟨h1.trans g1, h2.trans g2, h3.trans g3, h4.trans g4⟩

theorem scanPorts_keeps (st st' : ScanState) (line : GoString)
    (h : scanPorts st line = some st') :
    st'.status.IsFailed = st.status.IsFailed ∧ st'.status.IsDeployed = st.status.IsDeployed ∧
    st'.status.DesiredNodes = st.status.DesiredNodes ∧
    st'.status.AvailableNodes = st.status.AvailableNodes ∧
    st'.lastDeploymentTime = st.lastDeploymentTime ∧
    st'.columnDesired = st.columnDesired ∧ st'.columnCurrent = st.columnCurrent ∧
    st'.columnAvailable = st.columnAvailable := by
  unfold scanPorts at h
  simp only [] at h
  split at h
  · cases h; simp
  · split at h
    · obtain ⟨n, -, rfl⟩ := Option.map_eq_some'.mp h
      obtain ⟨g1, g2, g3, g4⟩ := foldl_registerPort_keeps (strings.Split n ",".toList) st.status
      exact ⟨g1, g2, g3, g4, rfl, rfl, rfl, rfl⟩
    · cases h; simp

theorem scanMarkers_failed (rt : Runtime) (st : ScanState) (line : GoString) :
    (scanMarkers rt st line).status.IsFailed =
      (st.status.IsFailed || strings.HasPrefix line StatusFailed) := by
  unfold scanMarkers
  simp only []
  repeat' split
  all_goals simp_all

theorem scanMarkers_time (rt : Runtime) (st : ScanState) (line : GoString) :
    (scanMarkers rt st line).lastDeploymentTime =
      if strings.HasPrefix line DeploymentTimePrefix then
        (rt.ParseInLocation (strings.TrimPrefix line DeploymentTimePrefix)).getD 0
      else st.lastDeploymentTime := by
  unfold scanMarkers
  simp only []
  repeat' split
  all_goals simp_all

theorem scanLine_failed (rt : Runtime) (st st' : ScanState) (line : GoString)
    (h : scanLine rt st line = some st') :
    st'.status.IsFailed = (st.status.IsFailed || strings.HasPrefix line StatusFailed) ∧
    st'.lastDeploymentTime = lastDeployedFrom rt st.lastDeploymentTime [line] := by
  unfold scanLine at h
  obtain ⟨s1, h1, h2⟩ := Option.bind_eq_some.mp h
  have k1 := scanNodes_keeps _ _ _ h1
  have k2 := scanPorts_keeps _ _ _ h2
  refine ⟨by rw [k2.1, k1.1, scanMarkers_failed], ?_⟩
  rw [k2.2.2.2.2.1, k1.2.2.1, scanMarkers_time]
  unfold lastDeployedFrom
  by_cases hp : strings.HasPrefix line DeploymentTimePrefix = true <;> simp [hp]

theorem lastDeployedFrom_cons (rt : Runtime) (t0 : Int) (line : GoString)
    (rest : List GoString) :
    lastDeployedFrom rt t0 (line :: rest) =
      lastDeployedFrom rt (lastDeployedFrom rt t0 [line]) rest := by
  unfold lastDeployedFrom
  by_cases hp : strings.HasPrefix line DeploymentTimePrefix = true
  · simp only [List.filter_cons, hp, if_true, List.filter_nil, List.getLast?_singleton]
    cases hr : List.filter (fun line => strings.HasPrefix line DeploymentTimePrefix) rest with
    | nil => simp
    | cons a l => simp [List.getLast?_eq_getLast _ (List.cons_ne_nil a l)]
  · simp [List.filter_cons, hp]

theorem scan_failed (rt : Runtime) (output : List GoString) (st st' : ScanState)
    (h : scan rt st output = some st') :
    st'.status.IsFailed =
      (st.status.IsFailed || output.any fun line => strings.HasPrefix line StatusFailed) ∧
    st'.lastDeploymentTime = lastDeployedFrom rt st.lastDeploymentTime output := by
  induction output generalizing st with
  | nil =>
    simp only [scan, Option.some.injEq] at h
    subst h
    simp [lastDeployedFrom]
  | cons line rest ih =>
    simp only [scan] at h
    obtain ⟨s1, h1, h2⟩ := Option.bind_eq_some.mp h
    obtain ⟨a1, a2⟩ := scanLine_failed rt st s1 line h1
    obtain ⟨b1, b2⟩ := ih s1 h2
    refine ⟨?_, ?_⟩
    · rw [b1, a1, List.any_cons, Bool.or_assoc]
    · rw [b2, a2, ← lastDeployedFrom_cons]

end helm

namespace helm

/-! ### C1, C2: the failure flag, and the lines that stop the scan -/

theorem timeout_default (rt : Runtime) (hunset : rt.LookupEnv "TIMEOUT".toList = none)
    (hparse : rt.ParseDuration "30m".toList = some (30 * Minute)) :
    timeout rt = 30 * Minute := by
  unfold timeout
  rw [hunset, Option.getD_none, hparse, Option.getD_some]

theorem GetStatus_failureRule (rt : Runtime) (release : GoString) (output : List GoString)
    (st : Status) (h : GetStatus rt release output = some st) :
    failureRule rt output st (timeout rt) := by
  unfold failureRule
  unfold GetStatus at h
  obtain ⟨s, hs, rfl⟩ := Option.map_eq_some'.mp h
  obtain ⟨hf, ht⟩ := scan_failed rt output _ s hs
  have hf' : s.status.IsFailed = output.any fun line => strings.HasPrefix line StatusFailed := by
    rw [hf]; rfl
  have ht' : s.lastDeploymentTime = lastDeployedAt rt output := ht
  have hany : s.status.IsFailed = true ↔
      ∃ line ∈ output, strings.HasPrefix line StatusFailed = true := by
    rw [hf', List.any_eq_true]
  unfold finish
  rw [ht']
  by_cases hstale : rt.Now > lastDeployedAt rt output + timeout rt ∧
      s.status.AvailableNodes < s.status.DesiredNodes
  · rw [if_pos hstale]
    simp only [true_iff]
    exact Or.inr ⟨hstale.2, hstale.1⟩
  · rw [if_neg hstale, hany]
    constructor
    · exact Or.inl
    · rintro (hl | hr)
      · exact hl
      · exact absurd ⟨hr.2, hr.1⟩ hstale

theorem timeout_set (rt : Runtime) (text : GoString)
    (hset : rt.LookupEnv "TIMEOUT".toList = some text) :
    timeout rt = (rt.ParseDuration text).getD 0 := by
  unfold timeout
  rw [hset, Option.getD_some]

theorem timeout_unset (rt : Runtime) (hunset : rt.LookupEnv "TIMEOUT".toList = none) :
    timeout rt = (rt.ParseDuration "30m".toList).getD 0 := by
  unfold timeout
  rw [hunset, Option.getD_none]

/-- C1: whenever `GetStatus` returns a status for a report, its `IsFailed` is true
exactly when some line of the report starts with `STATUS: FAILED`, or fewer nodes are
available than desired and the clock is past the deployment time plus the timeout
(`failureRule`).  The timeout is the duration the text of `TIMEOUT` parses to when
`TIMEOUT` is set, the duration `30m` parses to when it is not, and 0 when the text does
not parse; so it is thirty minutes when `TIMEOUT` is not set. -/
theorem GetStatus_IsFailed (rt : Runtime) (release : GoString) (output : List GoString)
    (st : Status) (h : GetStatus rt release output = some st) :
    (∀ text, rt.LookupEnv "TIMEOUT".toList = some text →
      failureRule rt output st ((rt.ParseDuration text).getD 0)) ∧
    (rt.LookupEnv "TIMEOUT".toList = none →
      failureRule rt output st ((rt.ParseDuration "30m".toList).getD 0)) ∧
    (rt.LookupEnv "TIMEOUT".toList = none →
      rt.ParseDuration "30m".toList = some (30 * Minute) →
      failureRule rt output st (30 * Minute)) := by
  have hrule := GetStatus_failureRule rt release output st h
  refine ⟨fun text hset => ?_, fun hunset => ?_, fun hunset hparse => ?_⟩
  · rw [← timeout_set rt text hset]; exact hrule
  · rw [← timeout_unset rt hunset]; exact hrule
  · rw [← timeout_default rt hunset hparse]; exact hrule

/-- C1, witness: `staleReport` has no line `STATUS: FAILED`, 1 node available of 2
desired, and is a day old.  With `TIMEOUT` not set the timeout is thirty minutes and the
status returned has `IsFailed` set; with `TIMEOUT` set to `48h` it has not. -/
theorem GetStatus_IsFailed_witness :
    GetStatus sampleRuntime "db".toList staleReport = some staleStatus ∧
    ((∀ text, sampleRuntime.LookupEnv "TIMEOUT".toList = some text →
        failureRule sampleRuntime staleReport staleStatus
          ((sampleRuntime.ParseDuration text).getD 0)) ∧
      (sampleRuntime.LookupEnv "TIMEOUT".toList = none →
        failureRule sampleRuntime staleReport staleStatus
          ((sampleRuntime.ParseDuration "30m".toList).getD 0)) ∧
      (sampleRuntime.LookupEnv "TIMEOUT".toList = none →
        sampleRuntime.ParseDuration "30m".toList = some (30 * Minute) →
        failureRule sampleRuntime staleReport staleStatus (30 * Minute))) ∧
    (sampleRuntime.LookupEnv "TIMEOUT".toList = none ∧
      sampleRuntime.ParseDuration "30m".toList = some (30 * Minute) ∧
      staleStatus.IsFailed = true ∧
      sampleRuntime.Now > lastDeployedAt sampleRuntime staleReport + 30 * Minute) ∧
    (patientRuntime.LookupEnv "TIMEOUT".toList = some "48h".toList ∧
      patientRuntime.ParseDuration "48h".toList = some (48 * 60 * Minute) ∧
      GetStatus patientRuntime "db".toList staleReport =
        some { staleStatus with IsFailed := false } ∧
      ¬ patientRuntime.Now > lastDeployedAt patientRuntime staleReport + 48 * 60 * Minute) :=
  ⟨by decide, GetStatus_IsFailed sampleRuntime "db".toList staleReport staleStatus (by decide),
    ⟨by decide, by decide, by decide, by decide⟩,
    ⟨by decide, by decide, by decide, by decide⟩⟩

/-- C2: the scan does not complete on every report.  A line that ends before a recorded
column, or has only blanks from it on, makes `GetStatus` panic instead of being
ignored. -/
theorem GetStatus_panics (rt : Runtime) (release : GoString) :
    GetStatus rt release shortLineReport = none ∧
    GetStatus rt release blankTailReport = none ∧
    GetStatus rt release shortPortReport = none :=
  ⟨rfl, rfl, rfl⟩

end helm

namespace helm

/-! ### C3: the totals over resource blocks -/

theorem scanMarkers_counts (rt : Runtime) (st : ScanState) (line : GoString) :
    (scanMarkers rt st line).status.DesiredNodes = st.status.DesiredNodes ∧
    (scanMarkers rt st line).status.AvailableNodes = st.status.AvailableNodes ∧
    (scanMarkers rt st line).status.NodePorts = st.status.NodePorts ∧
    (scanMarkers rt st line).status.ClusterPorts = st.status.ClusterPorts := by
  unfold scanMarkers
  simp only []
  repeat' split
  all_goals simp_all

theorem scanMarkers_columns (rt : Runtime) (st : ScanState) (line : GoString)
    (h : line ≠ []) :
    (scanMarkers rt st line).columnDesired = st.columnDesired ∧
    (scanMarkers rt st line).columnCurrent = st.columnCurrent ∧
    (scanMarkers rt st line).columnAvailable = st.columnAvailable ∧
    (scanMarkers rt st line).columnPort = st.columnPort := by
  have h0 : ¬ line.length = 0 := by simpa using h
  unfold scanMarkers
  simp only [h0, if_false]
  repeat' split
  all_goals simp_all

theorem scanMarkers_blank (rt : Runtime) (st : ScanState) :
    (scanMarkers rt st []).cleared := by
  unfold ScanState.cleared scanMarkers
  simp [strings.HasPrefix, StatusFailed, StatusDeployed, ResourcePrefix, NamespacePrefix,
    DeploymentTimePrefix]

theorem scanMarkers_cleared (rt : Runtime) (st : ScanState) (line : GoString)
    (h : st.cleared) : (scanMarkers rt st line).cleared := by
  by_cases hl : line = []
  · subst hl; exact scanMarkers_blank rt st
  · obtain ⟨a, b, c, d⟩ := scanMarkers_columns rt st line hl
    obtain ⟨h1, h2, h3, h4⟩ := h
    exact ⟨a.trans h1, b.trans h2, c.trans h3, d.trans h4⟩

theorem fieldAt_nil (column : Int) : fieldAt [] column = none := by
  unfold fieldAt sliceFrom
  split <;> simp [strings.Fields, strings.FieldsFunc, strings.fieldsAux]

theorem ne_nil_of_fieldAt {line : GoString} {column : Int}
    (h : (fieldAt line column).isSome) : line ≠ [] := by
  rintro rfl
  rw [fieldAt_nil] at h
  exact absurd h (by simp)

theorem isSome_fieldAt_of_intAt {line : GoString} {column : Int}
    (h : (intAt line column).isSome) : (fieldAt line column).isSome := by
  unfold intAt at h
  cases hf : fieldAt line column with
  | none => rw [hf] at h; exact absurd h (by simp)
  | some f => rfl

theorem countNodes_wellFormed (st : ScanState) (header row : GoString)
    (hu : st.under header) (hw : wellFormedRow header row) :
    countNodes st row =
      some ((intAt row (strings.Index header DesiredLabel)).getD 0,
            (intAt row (availableColumn header)).getD 0) := by
  obtain ⟨u1, u2, u3, -⟩ := hu
  obtain ⟨-, -, w1, w2, w3, -⟩ := hw
  unfold countNodes
  rw [u1, u2, u3]
  unfold intAt at w1 w2 w3 ⊢
  unfold availableColumn
  cases hd : fieldAt row (strings.Index header DesiredLabel) with
  | none => rw [hd] at w1; exact absurd w1 (by simp)
  | some fd =>
    cases hc : fieldAt row (strings.Index header CurrentLabel) with
    | none => rw [hc] at w2; exact absurd w2 (by simp)
    | some fc =>
      by_cases ha : strings.Index header AvailableLabel ≥ 0
      · have w3' := w3 ha
        cases hf : fieldAt row (strings.Index header AvailableLabel) with
        | none => rw [hf] at w3'; exact absurd w3' (by simp)
        | some fa =>
          rw [hf] at w3'
          simp only [Option.some_bind] at w3'
          obtain ⟨v, hv⟩ := Option.isSome_iff_exists.mp w3'
          simp [ha, hf, hv]
      · have ha' : ¬ (-1 : Int) ≥ 0 := by decide
        simp [ha, ha', hc]

theorem wrapInt_of_range (v : Int)
    (h : -strconv.intLimit ≤ v ∧ v < strconv.intLimit) : wrapInt v = v := by
  unfold strconv.intLimit at h
  unfold wrapInt
  omega

theorem wrapInt_range (v : Int) :
    -strconv.intLimit ≤ wrapInt v ∧ wrapInt v < strconv.intLimit := by
  unfold strconv.intLimit wrapInt
  omega

theorem wrapInt_wrapInt (v : Int) : wrapInt (wrapInt v) = wrapInt v :=
  wrapInt_of_range _ (wrapInt_range v)

theorem wrapInt_add (a b : Int) : wrapInt (wrapInt a + b) = wrapInt (a + b) := by
  unfold wrapInt
  omega

theorem scanLine_row (rt : Runtime) (st : ScanState) (header row : GoString)
    (hu : st.under header) (hh : isHeader header) (hw : wellFormedRow header row) :
    ∃ st', scanLine rt st row = some st' ∧ st'.under header ∧
      st'.status.DesiredNodes = wrapInt (st.status.DesiredNodes +
        (intAt row (strings.Index header DesiredLabel)).getD 0) ∧
      st'.status.AvailableNodes = wrapInt (st.status.AvailableNodes +
        (intAt row (availableColumn header)).getD 0) := by
  have hne : row ≠ [] := ne_nil_of_fieldAt (isSome_fieldAt_of_intAt hw.2.2.1)
  obtain ⟨c1, c2, c3, c4⟩ := scanMarkers_columns rt st row hne
  obtain ⟨n1, n2, -, -⟩ := scanMarkers_counts rt st row
  have hu1 : (scanMarkers rt st row).under header :=
    ⟨c1.trans hu.1, c2.trans hu.2.1, c3.trans hu.2.2.1, c4.trans hu.2.2.2⟩
  have hcount := countNodes_wellFormed _ header row hu1 hw
  have hcols : (scanMarkers rt st row).columnDesired ≥ 0 ∧
      (scanMarkers rt st row).columnCurrent ≥ 0 := by
    rw [hu1.1, hu1.2.1]; exact hh
  have hnodes : ∃ s2, scanNodes (scanMarkers rt st row) row = some s2 ∧ s2.under header ∧
      s2.status.DesiredNodes = wrapInt (st.status.DesiredNodes +
        (intAt row (strings.Index header DesiredLabel)).getD 0) ∧
      s2.status.AvailableNodes = wrapInt (st.status.AvailableNodes +
        (intAt row (availableColumn header)).getD 0) := by
    have hnh : ¬ (strings.Index row DesiredLabel ≥ 0 ∧ strings.Index row CurrentLabel ≥ 0) :=
      hw.1
    unfold scanNodes
    simp only []
    rw [if_neg hnh, if_pos hcols, hcount]
    refine ⟨_, rfl, ?_, ?_, ?_⟩
    · exact hu1
    · simp [n1]
    · simp [n2]
  obtain ⟨s2, e2, hu2, d2, a2⟩ := hnodes
  have hports : ∃ s3, scanPorts s2 row = some s3 := by
    unfold scanPorts
    simp only []
    have hp : ¬ strings.Index row PortsLabel ≥ 0 := not_le.mpr hw.2.1
    rw [if_neg hp]
    by_cases hc : s2.columnPort ≥ 0
    · rw [if_pos hc]
      have hidx : strings.Index header PortsLabel ≥ 0 := by
        by_contra hneg
        have := hu2.2.2.2
        rw [if_neg hneg] at this
        rw [this] at hc
        exact absurd hc (by decide)
      have hf := hw.2.2.2.2.2 hidx
      have hcol : s2.columnPort = strings.Index header PortsLabel := by
        rw [hu2.2.2.2, if_pos hidx]
      rw [hcol]
      obtain ⟨f, hf'⟩ := Option.isSome_iff_exists.mp hf
      rw [hf']
      exact ⟨_, rfl⟩
    · rw [if_neg hc]; exact ⟨_, rfl⟩
  obtain ⟨s3, e3⟩ := hports
  obtain ⟨-, -, k3, k4, -, k6, k7, k8⟩ := scanPorts_keeps s2 s3 row e3
  have hcp : s3.columnPort = s2.columnPort := by
    unfold scanPorts at e3
    simp only [] at e3
    rw [if_neg (not_le.mpr hw.2.1)] at e3
    split at e3
    · obtain ⟨n, -, rfl⟩ := Option.map_eq_some'.mp e3; rfl
    · cases e3; rfl
  refine ⟨s3, ?_, ⟨k6.trans hu2.1, k7.trans hu2.2.1, k8.trans hu2.2.2.1, hcp.trans hu2.2.2.2⟩,
    k3.trans d2, k4.trans a2⟩
  unfold scanLine
  rw [e2]
  exact e3

theorem index_nil (label : GoString) (h : label ≠ []) : strings.Index [] label = -1 := by
  simp [strings.Index, strings.indexFrom, h]

theorem scanLine_blank (rt : Runtime) (st : ScanState) :
    ∃ st', scanLine rt st [] = some st' ∧ st'.cleared ∧
      st'.status.DesiredNodes = st.status.DesiredNodes ∧
      st'.status.AvailableNodes = st.status.AvailableNodes := by
  have hc := scanMarkers_blank rt st
  obtain ⟨n1, n2, -, -⟩ := scanMarkers_counts rt st []
  have e2 : scanNodes (scanMarkers rt st []) [] = some (scanMarkers rt st []) := by
    unfold scanNodes
    simp only []
    have h1 : ¬ (strings.Index [] DesiredLabel ≥ 0 ∧ strings.Index [] CurrentLabel ≥ 0) := by
      decide
    have h2 : ¬ ((scanMarkers rt st []).columnDesired ≥ 0 ∧
        (scanMarkers rt st []).columnCurrent ≥ 0) := by
      rw [hc.1]; exact fun h => absurd h.1 (by decide)
    rw [if_neg h1, if_neg h2]
  have e3 : scanPorts (scanMarkers rt st []) [] = some (scanMarkers rt st []) := by
    unfold scanPorts
    simp only []
    have h1 : ¬ (strings.Index [] PortsLabel ≥ 0) := by decide
    have h2 : ¬ ((scanMarkers rt st []).columnPort ≥ 0) := by
      rw [hc.2.2.2]; decide
    rw [if_neg h1, if_neg h2]
  refine ⟨scanMarkers rt st [], ?_, hc, n1, n2⟩
  unfold scanLine
  rw [e2]
  exact e3

theorem scanLine_header (rt : Runtime) (st : ScanState) (header : GoString)
    (hc : st.cleared) (hh : isHeader header) :
    ∃ st', scanLine rt st header = some st' ∧ st'.under header ∧
      st'.status.DesiredNodes = st.status.DesiredNodes ∧
      st'.status.AvailableNodes = st.status.AvailableNodes := by
  have hc1 := scanMarkers_cleared rt st header hc
  obtain ⟨n1, n2, -, -⟩ := scanMarkers_counts rt st header
  have hh' : strings.Index header DesiredLabel ≥ 0 ∧ strings.Index header CurrentLabel ≥ 0 := hh
  have e2 : ∃ s2, scanNodes (scanMarkers rt st header) header = some s2 ∧
      s2.columnDesired = strings.Index header DesiredLabel ∧
      s2.columnCurrent = strings.Index header CurrentLabel ∧
      s2.columnAvailable = (if strings.Index header AvailableLabel ≥ 0 then
        strings.Index header AvailableLabel else -1) ∧
      s2.columnPort = -1 ∧
      s2.status.DesiredNodes = st.status.DesiredNodes ∧
      s2.status.AvailableNodes = st.status.AvailableNodes := by
    unfold scanNodes
    simp only []
    rw [if_pos hh']
    refine ⟨_, rfl, rfl, rfl, ?_, hc1.2.2.2, n1, n2⟩
    simp only [hc1.2.2.1]
  obtain ⟨s2, e2, a1, a2, a3, a4, a5, a6⟩ := e2
  have e3 : ∃ s3, scanPorts s2 header = some s3 ∧
      s3.columnPort = (if strings.Index header PortsLabel ≥ 0 then
        strings.Index header PortsLabel else -1) := by
    unfold scanPorts
    simp only []
    by_cases hp : strings.Index header PortsLabel ≥ 0
    · rw [if_pos hp]; exact ⟨_, rfl, by simp [hp]⟩
    · have h2 : ¬ (s2.columnPort ≥ 0) := by rw [a4]; decide
      rw [if_neg hp, if_neg h2]
      exact ⟨_, rfl, by simp [hp, a4]⟩
  obtain ⟨s3, e3, hp3⟩ := e3
  obtain ⟨-, -, k3, k4, -, k6, k7, k8⟩ := scanPorts_keeps s2 s3 header e3
  refine ⟨s3, ?_, ⟨k6.trans a1, k7.trans a2, k8.trans a3, hp3⟩, k3.trans a5, k4.trans a6⟩
  unfold scanLine
  rw [e2]
  exact e3

theorem scan_append (rt : Runtime) (st : ScanState) (a b : List GoString) :
    scan rt st (a ++ b) = (scan rt st a).bind fun s => scan rt s b := by
  induction a generalizing st with
  | nil => simp [scan]
  | cons line rest ih =>
    simp only [List.cons_append, scan]
    cases scanLine rt st line with
    | none => rfl
    | some s => simp only [Option.some_bind]; exact ih s

theorem scan_rows (rt : Runtime) (header : GoString) (hh : isHeader header)
    (rows : List GoString) (st : ScanState) (hu : st.under header)
    (hw : ∀ row ∈ rows, wellFormedRow header row)
    (hD : wrapInt st.status.DesiredNodes = st.status.DesiredNodes)
    (hA : wrapInt st.status.AvailableNodes = st.status.AvailableNodes) :
    ∃ st', scan rt st rows = some st' ∧ st'.under header ∧
      st'.status.DesiredNodes = wrapInt (st.status.DesiredNodes +
        (rows.map fun row => (intAt row (strings.Index header DesiredLabel)).getD 0).sum) ∧
      st'.status.AvailableNodes = wrapInt (st.status.AvailableNodes +
        (rows.map fun row => (intAt row (availableColumn header)).getD 0).sum) := by
  induction rows generalizing st with
  | nil =>
    exact ⟨st, rfl, hu, by rw [List.map_nil, List.sum_nil, add_zero, hD],
      by rw [List.map_nil, List.sum_nil, add_zero, hA]⟩
  | cons row rest ih =>
    obtain ⟨s1, e1, u1, d1, a1⟩ :=
      scanLine_row rt st header row hu hh (hw row (List.mem_cons_self _ _))
    obtain ⟨s2, e2, u2, d2, a2⟩ :=
      ih s1 u1 (fun r hr => hw r (List.mem_cons_of_mem _ hr))
        (by rw [d1, wrapInt_wrapInt]) (by rw [a1, wrapInt_wrapInt])
    refine ⟨s2, ?_, u2, ?_, ?_⟩
    · simp only [scan, e1, Option.some_bind]; exact e2
    · rw [d2, d1, wrapInt_add, List.map_cons, List.sum_cons, add_assoc]
    · rw [a2, a1, wrapInt_add, List.map_cons, List.sum_cons, add_assoc]

theorem scan_block (rt : Runtime) (b : Block) (hb : b.wellFormed) (st : ScanState)
    (hc : st.cleared)
    (hD : wrapInt st.status.DesiredNodes = st.status.DesiredNodes)
    (hA : wrapInt st.status.AvailableNodes = st.status.AvailableNodes) :
    ∃ st', scan rt st b.lines = some st' ∧ st'.cleared ∧
      st'.status.DesiredNodes = wrapInt (st.status.DesiredNodes + b.desired) ∧
      st'.status.AvailableNodes = wrapInt (st.status.AvailableNodes + b.available) := by
  obtain ⟨s1, e1, u1, d1, a1⟩ := scanLine_header rt st b.header hc hb.1
  obtain ⟨s2, e2, u2, d2, a2⟩ := scan_rows rt b.header hb.1 b.rows s1 u1 hb.2
    (by rw [d1, hD]) (by rw [a1, hA])
  obtain ⟨s3, e3, c3, d3, a3⟩ := scanLine_blank rt s2
  refine ⟨s3, ?_, c3, ?_, ?_⟩
  · unfold Block.lines
    simp only [scan, e1, Option.some_bind]
    rw [scan_append, e2]
    simp only [Option.some_bind, scan, e3]
  · rw [d3, d2, d1]; rfl
  · rw [a3, a2, a1]; rfl

theorem scan_blocks (rt : Runtime) (blocks : List Block) (hb : ∀ b ∈ blocks, b.wellFormed)
    (st : ScanState) (hc : st.cleared)
    (hD : wrapInt st.status.DesiredNodes = st.status.DesiredNodes)
    (hA : wrapInt st.status.AvailableNodes = st.status.AvailableNodes) :
    ∃ st', scan rt st (blocks.flatMap Block.lines) = some st' ∧ st'.cleared ∧
      st'.status.DesiredNodes =
        wrapInt (st.status.DesiredNodes + (blocks.map Block.desired).sum) ∧
      st'.status.AvailableNodes =
        wrapInt (st.status.AvailableNodes + (blocks.map Block.available).sum) := by
  induction blocks generalizing st with
  | nil =>
    exact ⟨st, rfl, hc, by rw [List.map_nil, List.sum_nil, add_zero, hD],
      by rw [List.map_nil, List.sum_nil, add_zero, hA]⟩
  | cons b rest ih =>
    obtain ⟨s1, e1, c1, d1, a1⟩ :=
      scan_block rt b (hb b (List.mem_cons_self _ _)) st hc hD hA
    obtain ⟨s2, e2, c2, d2, a2⟩ := ih (fun x hx => hb x (List.mem_cons_of_mem _ hx)) s1 c1
      (by rw [d1, wrapInt_wrapInt]) (by rw [a1, wrapInt_wrapInt])
    refine ⟨s2, ?_, c2, ?_, ?_⟩
    · rw [List.flatMap_cons, scan_append, e1]; exact e2
    · rw [d2, d1, wrapInt_add, List.map_cons, List.sum_cons, add_assoc]
    · rw [a2, a1, wrapInt_add, List.map_cons, List.sum_cons, add_assoc]

theorem finish_counts (rt : Runtime) (st : ScanState) :
    (finish rt st).DesiredNodes = st.status.DesiredNodes ∧
    (finish rt st).AvailableNodes = st.status.AvailableNodes ∧
    (finish rt st).NodePorts = st.status.NodePorts ∧
    (finish rt st).ClusterPorts = st.status.ClusterPorts := by
  unfold finish
  split <;> simp

/-- C3 (amended): on a report made of well-formed resource blocks `GetStatus` returns a
status; its `DesiredNodes` is the sum, over all data lines of all blocks, of the integer
at the `DESIRED` column, and its `AvailableNodes` the sum of the integer at the
`AVAILABLE` column where the header of the block has that label, at the `CURRENT`
column where it has not, each sum reduced to the range of a 64-bit `int`; so they are
the sums themselves whenever these lie in that range. -/
theorem GetStatus_sums (rt : Runtime) (release : GoString) (blocks : List Block)
    (hb : ∀ b ∈ blocks, b.wellFormed) :
    (GetStatus rt release (blocks.flatMap Block.lines)).map
        (fun st => (st.DesiredNodes, st.AvailableNodes)) =
      some (wrapInt (blocks.map Block.desired).sum,
        wrapInt (blocks.map Block.available).sum) ∧
    (-strconv.intLimit ≤ (blocks.map Block.desired).sum ∧
        (blocks.map Block.desired).sum < strconv.intLimit →
      -strconv.intLimit ≤ (blocks.map Block.available).sum ∧
        (blocks.map Block.available).sum < strconv.intLimit →
      (GetStatus rt release (blocks.flatMap Block.lines)).map
          (fun st => (st.DesiredNodes, st.AvailableNodes)) =
        some ((blocks.map Block.desired).sum, (blocks.map Block.available).sum)) := by
  have hinit : (initialState release).cleared := ⟨rfl, rfl, rfl, rfl⟩
  obtain ⟨s, e, -, d, a⟩ := scan_blocks rt blocks hb (initialState release) hinit rfl rfl
  obtain ⟨f1, f2, -, -⟩ := finish_counts rt s
  have hmain : (GetStatus rt release (blocks.flatMap Block.lines)).map
      (fun st => (st.DesiredNodes, st.AvailableNodes)) =
      some (wrapInt (blocks.map Block.desired).sum,
        wrapInt (blocks.map Block.available).sum) := by
    unfold GetStatus
    rw [e, Option.map_some', Option.map_some', f1, f2, d, a]
    simp [initialState]
  refine ⟨hmain, fun hd ha => ?_⟩
  rw [hmain, wrapInt_of_range _ hd, wrapInt_of_range _ ha]

/-- C3, witness: two blocks, the first with an `AVAILABLE` column and the second without:
6 nodes desired, and 2 + 2 + 1 = 5 available. -/
theorem GetStatus_sums_witness :
    (∀ b ∈ twoBlocks, b.wellFormed) ∧
    (GetStatus sampleRuntime "db".toList (twoBlocks.flatMap Block.lines)).map
        (fun st => (st.DesiredNodes, st.AvailableNodes)) =
      some ((twoBlocks.map Block.desired).sum, (twoBlocks.map Block.available).sum) ∧
    ((twoBlocks.map Block.desired).sum, (twoBlocks.map Block.available).sum) = (6, 5) :=
  ⟨by decide,
    (GetStatus_sums sampleRuntime "db".toList twoBlocks (by decide)).2 (by decide) (by decide),
    by decide⟩

/-- C3 as stated fails: in the well-formed block `overflowBlock` the integers at the
`DESIRED` column are 9223372036854775807 and 1, their sum is 9223372036854775808, and
the `DesiredNodes` that `GetStatus` returns is -9223372036854775808. -/
theorem GetStatus_sums_overflow :
    overflowBlock.wellFormed ∧
      overflowBlock.rows.map (fun row => intAt row (strings.Index overflowBlock.header
        DesiredLabel)) = [some 9223372036854775807, some 1] ∧
      ([overflowBlock].map Block.desired).sum = 9223372036854775808 ∧
      (GetStatus sampleRuntime "db".toList ([overflowBlock].flatMap Block.lines)).map
        (fun st => st.DesiredNodes) = some (-9223372036854775808) :=
  ⟨by decide, by decide, by decide, by decide⟩

end helm

/-! ### C4: port entries -/

namespace strconv

theorem Atoi_chars {s : GoString} (h : (Atoi s).isSome) :
    s ≠ [] ∧ ∀ c ∈ s, c.isDigit = true ∨ c = '-' ∨ c = '+' := by
  by_cases hds : unsigned s = [] ∨ ¬ (unsigned s).all Char.isDigit
  · rw [Atoi, if_pos hds] at h
    exact absurd h (by simp)
  · rw [not_or, not_not] at hds
    obtain ⟨hne, hall⟩ := hds
    unfold unsigned at hne hall
    cases s with
    | nil => simp at hne
    | cons a r =>
      refine ⟨List.cons_ne_nil _ _, ?_⟩
      by_cases hs : (a :: r).head? = some '-' ∨ (a :: r).head? = some '+'
      · rw [if_pos hs] at hall
        intro c hc
        rcases List.mem_cons.mp hc with rfl | hr
        · simp only [List.head?_cons, Option.some.injEq] at hs
          rcases hs with h1 | h1
          · exact Or.inr (Or.inl h1)
          · exact Or.inr (Or.inr h1)
        · exact Or.inl (List.all_eq_true.mp hall c hr)
      · rw [if_neg hs] at hall
        intro c hc
        exact Or.inl (List.all_eq_true.mp hall c hc)

theorem Atoi_no_separator {s : GoString} (h : (Atoi s).isSome) :
    s ≠ [] ∧ ∀ c ∈ s, c ≠ ':' ∧ c ≠ '/' ∧ c ≠ ',' := by
  obtain ⟨hne, hc⟩ := Atoi_chars h
  refine ⟨hne, fun c hmem => ?_⟩
  rcases hc c hmem with hd | rfl | rfl
  · refine ⟨?_, ?_, ?_⟩ <;> (rintro rfl; exact absurd hd (by decide))
  · decide
  · decide

end strconv

namespace strings

theorem splitAux_single (c : Char) (s acc : GoString) :
    splitAux [c] 0 s acc = List.splitOnP.go (fun x => x == c) s acc := by
  induction s generalizing acc with
  | nil => rfl
  | cons x xs ih =>
    have hp : [c].isPrefixOf (x :: xs) = (x == c) := by
      simp [List.isPrefixOf, eq_comm]
    simp only [splitAux, List.splitOnP.go, hp, List.length_singleton, Nat.sub_self]
    by_cases hx : (x == c) = true
    · simp only [hx, if_true]; rw [ih]
    · simp only [hx]; exact ih _

theorem Split_single (c : Char) (s : GoString) : Split s [c] = s.splitOn c := by
  unfold Split
  rw [if_neg (List.cons_ne_nil _ _), splitAux_single]
  rfl

end strings

namespace utf8

theorem DecodeRune_ascii (c : Char) (cs : GoString) (h : c.toNat < 128) :
    DecodeRune (c :: cs) = (c.toNat, 1) := by
  unfold DecodeRune
  simp only [h, if_true]

theorem acceptLo_ge (b0 : Nat) : 128 ≤ acceptLo b0 := by
  unfold acceptLo
  split
  · decide
  · split <;> decide

theorem DecodeRune_high (c : Char) (cs : GoString) (h : 128 ≤ c.toNat) :
    128 ≤ (DecodeRune (c :: cs)).1 ∧
      ((cs.take ((DecodeRune (c :: cs)).2 - 1)).length = (DecodeRune (c :: cs)).2 - 1) ∧
      ∀ x ∈ cs.take ((DecodeRune (c :: cs)).2 - 1), 128 ≤ x.toNat := by
  have h0 : ¬ c.toNat < 128 := by omega
  have herr : ∀ t : GoString, 128 ≤ ((RuneError, 1) : Nat × Nat).1 ∧
      ((t.take (((RuneError, 1) : Nat × Nat).2 - 1)).length =
        ((RuneError, 1) : Nat × Nat).2 - 1) ∧
      ∀ x ∈ t.take (((RuneError, 1) : Nat × Nat).2 - 1), 128 ≤ x.toNat := by
    intro t
    refine ⟨by decide, by simp, ?_⟩
    intro x hx
    simp at hx
  by_cases hr : c.toNat < 0xC2 ∨ 0xF4 < c.toNat
  · have e : DecodeRune (c :: cs) = (RuneError, 1) := by
      unfold DecodeRune
      simp only [h0, hr, if_true, if_false]
    rw [e]; exact herr cs
  cases cs with
  | nil =>
    have e : DecodeRune [c] = (RuneError, 1) := by
      unfold DecodeRune
      simp only [h0, hr, if_false]
    rw [e]; exact herr []
  | cons p1 r1 =>
    by_cases h1 : p1.toNat < acceptLo c.toNat ∨ acceptHi c.toNat < p1.toNat
    · have e : DecodeRune (c :: p1 :: r1) = (RuneError, 1) := by
        unfold DecodeRune
        simp only [h0, hr, h1, if_true, if_false]
      rw [e]; exact herr _
    have hb1 : 128 ≤ p1.toNat := by
      have := acceptLo_ge c.toNat
      rw [not_or, not_lt, not_lt] at h1
      omega
    have hlo : c.toNat = 0xE0 → 0xA0 ≤ p1.toNat := by
      intro hc
      rw [not_or, not_lt, not_lt] at h1
      have := h1.1
      unfold acceptLo at this
      rw [if_pos hc] at this
      exact this
    have hlo4 : c.toNat = 0xF0 → 0x90 ≤ p1.toNat := by
      intro hc
      rw [not_or, not_lt, not_lt] at h1
      have := h1.1
      unfold acceptLo at this
      rw [if_neg (by omega), if_pos hc] at this
      exact this
    by_cases h2 : c.toNat < 0xE0
    · have e : DecodeRune (c :: p1 :: r1) =
          ((c.toNat - 0xC0) * 64 + (p1.toNat - 0x80), 2) := by
        unfold DecodeRune
        simp only [h0, hr, h1, h2, if_true, if_false]
      rw [e]
      refine ⟨?_, by simp, ?_⟩
      · show 128 ≤ (c.toNat - 0xC0) * 64 + (p1.toNat - 0x80)
        rw [not_or, not_lt, not_lt] at hr
        omega
      · intro x hx
        simp at hx
        rw [hx]; exact hb1
    cases r1 with
    | nil =>
      have e : DecodeRune [c, p1] = (RuneError, 1) := by
        unfold DecodeRune
        simp only [h0, hr, h1, h2, if_false]
      rw [e]; exact herr _
    | cons p2 r2 =>
      by_cases h3 : p2.toNat < 0x80 ∨ 0xBF < p2.toNat
      · have e : DecodeRune (c :: p1 :: p2 :: r2) = (RuneError, 1) := by
          unfold DecodeRune
          simp only [h0, hr, h1, h2, h3, if_true, if_false]
        rw [e]; exact herr _
      have hb2 : 128 ≤ p2.toNat := by omega
      by_cases h4 : c.toNat < 0xF0
      · have e : DecodeRune (c :: p1 :: p2 :: r2) =
            ((c.toNat - 0xE0) * 4096 + (p1.toNat - 0x80) * 64 + (p2.toNat - 0x80), 3) := by
          unfold DecodeRune
          simp only [h0, hr, h1, h2, h3, h4, if_true, if_false]
        rw [e]
        refine ⟨?_, by simp, ?_⟩
        · show 128 ≤ (c.toNat - 0xE0) * 4096 + (p1.toNat - 0x80) * 64 + (p2.toNat - 0x80)
          by_cases hc : c.toNat = 0xE0
          · have := hlo hc
            omega
          · omega
        · intro x hx
          simp at hx
          rcases hx with rfl | rfl
          · exact hb1
          · exact hb2
      cases r2 with
      | nil =>
        have e : DecodeRune [c, p1, p2] = (RuneError, 1) := by
          unfold DecodeRune
          simp only [h0, hr, h1, h2, h3, h4, if_false]
        rw [e]; exact herr _
      | cons p3 r3 =>
        by_cases h5 : p3.toNat < 0x80 ∨ 0xBF < p3.toNat
        · have e : DecodeRune (c :: p1 :: p2 :: p3 :: r3) = (RuneError, 1) := by
            unfold DecodeRune
            simp only [h0, hr, h1, h2, h3, h4, h5, if_true, if_false]
          rw [e]; exact herr _
        have hb3 : 128 ≤ p3.toNat := by omega
        have e : DecodeRune (c :: p1 :: p2 :: p3 :: r3) =
            ((c.toNat - 0xF0) * 262144 + (p1.toNat - 0x80) * 4096 + (p2.toNat - 0x80) * 64 +
              (p3.toNat - 0x80), 4) := by
          unfold DecodeRune
          simp only [h0, hr, h1, h2, h3, h4, h5, if_false]
        rw [e]
        refine ⟨?_, by simp, ?_⟩
        · show 128 ≤ (c.toNat - 0xF0) * 262144 + (p1.toNat - 0x80) * 4096 +
            (p2.toNat - 0x80) * 64 + (p3.toNat - 0x80)
          by_cases hc : c.toNat = 0xF0
          · have := hlo4 hc
            omega
          · omega
        · intro x hx
          simp at hx
          rcases hx with rfl | rfl | rfl
          · exact hb1
          · exact hb2
          · exact hb3

end utf8

namespace strings

theorem fieldsAux_zero (f : Nat → Bool) (s acc : GoString) :
    fieldsAux f 0 false s acc = fieldsAux f 0 true s acc := by
  cases s with
  | nil => simp only [fieldsAux]
  | cons c cs => simp only [fieldsAux]

theorem fieldsAux_sep (f : Nat → Bool) (hf : ∀ r, f r = true → r < 128) (sep : Char)
    (rest : GoString) (hsep : f sep.toNat = true) :
    ∀ (xs : GoString) (k : Nat) (acc : GoString), k ≤ xs.length →
      (∀ x ∈ xs, ¬ f x.toNat = true) → (acc ≠ [] ∨ xs ≠ []) →
      fieldsAux f k true (xs ++ sep :: rest) acc =
        (acc.reverse ++ xs) :: fieldsAux f 0 true rest [] := by
  have hs := hf _ hsep
  intro xs
  induction xs with
  | nil =>
    intro k acc hk _ hne
    have hk0 : k = 0 := by simpa using hk
    subst hk0
    have hacc : acc ≠ [] := by
      rcases hne with h | h
      · exact h
      · exact absurd rfl h
    rw [List.nil_append, fieldsAux]
    simp only [utf8.DecodeRune_ascii sep rest hs, hsep, if_true, hacc, if_false, Nat.sub_self,
      List.append_nil, fieldsAux_zero]
  | cons c cs ih =>
    intro k acc hk hxs _
    have hcs : ∀ x ∈ cs, ¬ f x.toNat = true := fun x hx => hxs x (List.mem_cons_of_mem _ hx)
    have hc : ¬ f c.toNat = true := hxs c (List.mem_cons_self _ _)
    cases k with
    | succ j =>
      rw [List.cons_append, fieldsAux]
      simp only [if_true]
      rw [ih j (c :: acc) (by simpa using hk) hcs (Or.inl (List.cons_ne_nil _ _))]
      simp
    | zero =>
      rw [List.cons_append, fieldsAux]
      by_cases ha : c.toNat < 128
      · simp only [utf8.DecodeRune_ascii c _ ha, hc, if_false, Nat.sub_self]
        rw [ih 0 (c :: acc) (Nat.zero_le _) hcs (Or.inl (List.cons_ne_nil _ _))]
        simp
      · obtain ⟨d1, d2, d3⟩ := utf8.DecodeRune_high c (cs ++ sep :: rest) (by omega)
        have hfd : ¬ f (utf8.DecodeRune (c :: (cs ++ sep :: rest))).1 = true := by
          intro h
          have := hf _ h
          omega
        have hm : (utf8.DecodeRune (c :: (cs ++ sep :: rest))).2 - 1 ≤ cs.length := by
          by_contra hlt
          rw [not_le] at hlt
          have hmem : sep ∈ (cs ++ sep :: rest).take
              ((utf8.DecodeRune (c :: (cs ++ sep :: rest))).2 - 1) := by
            rw [List.take_append_eq_append_take]
            apply List.mem_append_right
            obtain ⟨n, hn⟩ : ∃ n, (utf8.DecodeRune (c :: (cs ++ sep :: rest))).2 - 1 -
                cs.length = n + 1 := ⟨_, (Nat.succ_pred_eq_of_pos (by omega)).symm⟩
            rw [hn, List.take_succ_cons]
            exact List.mem_cons_self _ _
          have := d3 sep hmem
          omega
        simp only [hfd, if_false]
        rw [ih _ (c :: acc) hm hcs (Or.inl (List.cons_ne_nil _ _))]
        simp

theorem fieldsAux_end (f : Nat → Bool) (hf : ∀ r, f r = true → r < 128) :
    ∀ (xs : GoString) (k : Nat) (acc : GoString), k ≤ xs.length →
      (∀ x ∈ xs, ¬ f x.toNat = true) → (acc ≠ [] ∨ xs ≠ []) →
      fieldsAux f k true xs acc = [acc.reverse ++ xs] := by
  intro xs
  induction xs with
  | nil =>
    intro k acc _ _ hne
    have hacc : acc ≠ [] := by
      rcases hne with h | h
      · exact h
      · exact absurd rfl h
    rw [fieldsAux]
    simp only [hacc, if_false, List.append_nil]
  | cons c cs ih =>
    intro k acc hk hxs _
    have hcs : ∀ x ∈ cs, ¬ f x.toNat = true := fun x hx => hxs x (List.mem_cons_of_mem _ hx)
    have hc : ¬ f c.toNat = true := hxs c (List.mem_cons_self _ _)
    cases k with
    | succ j =>
      rw [fieldsAux]
      simp only [if_true]
      rw [ih j (c :: acc) (by simpa using hk) hcs (Or.inl (List.cons_ne_nil _ _))]
      simp
    | zero =>
      rw [fieldsAux]
      by_cases ha : c.toNat < 128
      · simp only [utf8.DecodeRune_ascii c _ ha, hc, if_false, Nat.sub_self]
        rw [ih 0 (c :: acc) (Nat.zero_le _) hcs (Or.inl (List.cons_ne_nil _ _))]
        simp
      · obtain ⟨d1, d2, -⟩ := utf8.DecodeRune_high c cs (by omega)
        have hfd : ¬ f (utf8.DecodeRune (c :: cs)).1 = true := by
          intro h
          have := hf _ h
          omega
        have hm : (utf8.DecodeRune (c :: cs)).2 - 1 ≤ cs.length := by
          rw [← d2, List.length_take]
          exact Nat.min_le_right _ _
        simp only [hfd, if_false]
        rw [ih _ (c :: acc) hm hcs (Or.inl (List.cons_ne_nil _ _))]
        simp

theorem FieldsFunc_nil (f : Nat → Bool) : FieldsFunc [] f = [] := rfl

theorem FieldsFunc_sep (f : Nat → Bool) (hf : ∀ r, f r = true → r < 128) (xs : GoString)
    (sep : Char) (rest : GoString) (hxs : ∀ x ∈ xs, ¬ f x.toNat = true) (hne : xs ≠ [])
    (hsep : f sep.toNat = true) :
    FieldsFunc (xs ++ sep :: rest) f = xs :: FieldsFunc rest f := by
  unfold FieldsFunc
  rw [fieldsAux_sep f hf sep rest hsep xs 0 [] (Nat.zero_le _) hxs (Or.inr hne)]
  rfl

theorem FieldsFunc_single (f : Nat → Bool) (hf : ∀ r, f r = true → r < 128) (xs : GoString)
    (hxs : ∀ x ∈ xs, ¬ f x.toNat = true) (hne : xs ≠ []) :
    FieldsFunc xs f = [xs] := by
  unfold FieldsFunc
  rw [fieldsAux_end f hf xs 0 [] (Nat.zero_le _) hxs (Or.inr hne)]
  rfl

end strings

namespace helm

theorem portSeparator_ascii (r : Nat) (h : (r == ':'.toNat || r == '/'.toNat) = true) :
    r < 128 := by
  simp only [Bool.or_eq_true, beq_iff_eq] at h
  rcases h with rfl | rfl <;> decide

theorem not_portSeparator {s : GoString} (h : ∀ c ∈ s, c ≠ ':' ∧ c ≠ '/' ∧ c ≠ ',') :
    ∀ x ∈ s, ¬ (x.toNat == ':'.toNat || x.toNat == '/'.toNat) = true := by
  intro x hx
  obtain ⟨h1, h2, -⟩ := h x hx
  have e1 : x.toNat ≠ ':'.toNat := fun e => h1 (by rw [← Char.ofNat_toNat x, e]; rfl)
  have e2 : x.toNat ≠ '/'.toNat := fun e => h2 (by rw [← Char.ofNat_toNat x, e]; rfl)
  simp only [Bool.or_eq_true, beq_iff_eq, not_or]
  exact ⟨e1, e2⟩

theorem registerPort_text (status : Status) (e : PortEntry) (hw : e.wellFormed) :
    registerPort status e.text = e.register status := by
  obtain ⟨hc, hn, hp, hpc⟩ := hw
  obtain ⟨cne, cch⟩ := strconv.Atoi_no_separator hc
  obtain ⟨c, hcv⟩ := Option.isSome_iff_exists.mp hc
  have hproto := strings.FieldsFunc_single (fun c => c == ':'.toNat || c == '/'.toNat)
    portSeparator_ascii e.proto (not_portSeparator hpc) hp
  unfold PortEntry.text PortEntry.register registerPort
  cases hnode : e.node with
  | none =>
    have hf : strings.FieldsFunc (e.cluster ++ '/' :: e.proto)
        (fun c => c == ':'.toNat || c == '/'.toNat) = [e.cluster, e.proto] := by
      rw [strings.FieldsFunc_sep _ portSeparator_ascii _ _ _ (not_portSeparator cch) cne
        (by rfl), hproto]
    simp only [hf, hcv]
    simp
    rw [hcv]
  | some n =>
    have hnv := hn n hnode
    obtain ⟨nne, nch⟩ := strconv.Atoi_no_separator hnv
    obtain ⟨v, hv⟩ := Option.isSome_iff_exists.mp hnv
    have hf : strings.FieldsFunc (e.cluster ++ ':' :: (n ++ '/' :: e.proto))
        (fun c => c == ':'.toNat || c == '/'.toNat) = [e.cluster, n, e.proto] := by
      rw [strings.FieldsFunc_sep _ portSeparator_ascii _ _ _ (not_portSeparator cch) cne
          (by rfl),
        strings.FieldsFunc_sep _ portSeparator_ascii _ _ _ (not_portSeparator nch) nne
          (by rfl), hproto]
    simp only [hf, hcv, hv]
    simp
    rw [hcv, hv]

theorem foldl_registerPort_text (entries : List PortEntry)
    (hw : ∀ e ∈ entries, e.wellFormed) (status : Status) :
    (entries.map PortEntry.text).foldl registerPort status =
      entries.foldl PortEntry.register status := by
  induction entries generalizing status with
  | nil => rfl
  | cons e r ih =>
    simp only [List.map_cons, List.foldl_cons]
    rw [registerPort_text status e (hw e (List.mem_cons_self _ _))]
    exact ih (fun x hx => hw x (List.mem_cons_of_mem _ hx)) _

theorem text_no_comma (e : PortEntry) (hw : e.wellFormed) : ',' ∉ e.text := by
  obtain ⟨hc, hn, -, hpc⟩ := hw
  obtain ⟨-, cch⟩ := strconv.Atoi_no_separator hc
  unfold PortEntry.text
  cases hnode : e.node with
  | none =>
    simp only [List.mem_append, List.mem_cons, not_or]
    exact ⟨fun h => (cch _ h).2.2 rfl, by decide, fun h => (hpc _ h).2.2 rfl⟩
  | some n =>
    obtain ⟨-, nch⟩ := strconv.Atoi_no_separator (hn n hnode)
    simp only [List.mem_append, List.mem_cons, not_or]
    exact ⟨fun h => (cch _ h).2.2 rfl, by decide, fun h => (nch _ h).2.2 rfl, by decide,
      fun h => (hpc _ h).2.2 rfl⟩

theorem Split_portToken (entries : List PortEntry) (hw : ∀ e ∈ entries, e.wellFormed)
    (hne : entries ≠ []) :
    strings.Split (portToken entries) ",".toList = entries.map PortEntry.text := by
  have : ",".toList = [','] := rfl
  rw [this, strings.Split_single]
  unfold portToken
  apply List.splitOn_intercalate
  · intro l hl
    obtain ⟨e, he, rfl⟩ := List.mem_map.mp hl
    exact text_no_comma e (hw e he)
  · simpa using hne

end helm

namespace helm

theorem registerPort_nil (status : Status) : registerPort status [] = status := by
  simp [registerPort, strings.FieldsFunc_nil]

theorem register_ports (e : PortEntry) (s t : Status)
    (h1 : s.NodePorts = t.NodePorts) (h2 : s.ClusterPorts = t.ClusterPorts) :
    (e.register s).NodePorts = (e.register t).NodePorts ∧
    (e.register s).ClusterPorts = (e.register t).ClusterPorts := by
  unfold PortEntry.register
  cases e.node <;> simp [h1, h2]

theorem foldl_register_ports (entries : List PortEntry) (s t : Status)
    (h1 : s.NodePorts = t.NodePorts) (h2 : s.ClusterPorts = t.ClusterPorts) :
    (entries.foldl PortEntry.register s).NodePorts =
      (entries.foldl PortEntry.register t).NodePorts ∧
    (entries.foldl PortEntry.register s).ClusterPorts =
      (entries.foldl PortEntry.register t).ClusterPorts := by
  induction entries generalizing s t with
  | nil => exact ⟨h1, h2⟩
  | cons e r ih =>
    obtain ⟨g1, g2⟩ := register_ports e s t h1 h2
    exact ih _ _ g1 g2

/-- C4: a data line read below a header that recorded the `PORT(S)` column, whose token at
that column is a comma-separated list of well-formed entries, registers every entry in
turn: `c:n/proto` sets `NodePorts[c] = n` and puts `c` into `ClusterPorts`, `c/proto`
puts `c` into `ClusterPorts` and leaves `NodePorts` as it is. -/
theorem scanLine_ports (rt : Runtime) (st st' : ScanState) (line : GoString)
    (entries : List PortEntry) (hcol : st.columnPort ≥ 0)
    (hlabel : strings.Index line PortsLabel < 0)
    (htoken : fieldAt line st.columnPort = some (portToken entries))
    (hw : ∀ e ∈ entries, e.wellFormed) (h : scanLine rt st line = some st') :
    st'.status.NodePorts = (entries.foldl PortEntry.register st.status).NodePorts ∧
    st'.status.ClusterPorts = (entries.foldl PortEntry.register st.status).ClusterPorts := by
  have hne : line ≠ [] := ne_nil_of_fieldAt (by rw [htoken]; rfl)
  obtain ⟨-, -, -, c4⟩ := scanMarkers_columns rt st line hne
  obtain ⟨-, -, n3, n4⟩ := scanMarkers_counts rt st line
  unfold scanLine at h
  obtain ⟨s2, e2, e3⟩ := Option.bind_eq_some.mp h
  obtain ⟨-, -, -, k4, k5, k6⟩ := scanNodes_keeps _ _ _ e2
  have hcol2 : s2.columnPort = st.columnPort := k6.trans c4
  unfold scanPorts at e3
  simp only [] at e3
  rw [if_neg (not_le.mpr hlabel), if_pos (by rw [hcol2]; exact hcol), hcol2, htoken,
    Option.map_some', Option.some.injEq] at e3
  subst e3
  have hfold : (strings.Split (portToken entries) ",".toList).foldl registerPort s2.status =
      entries.foldl PortEntry.register s2.status := by
    by_cases hnil : entries = []
    · subst hnil
      have : strings.Split (portToken []) ",".toList = [[]] := by decide
      rw [this]
      simp [registerPort_nil]
    · rw [Split_portToken entries hw hnil, foldl_registerPort_text entries hw]
  simp only [hfold]
  exact foldl_register_ports entries _ _ (k4.trans n3) (k5.trans n4)

/-- C4, witness: the token `80:30001/TCP,443/TCP` gives `NodePorts[80] = 30001` and puts
80 and 443 into `ClusterPorts`. -/
theorem scanLine_ports_witness :
    (portState.columnPort ≥ 0 ∧ strings.Index portLine PortsLabel < 0 ∧
      fieldAt portLine portState.columnPort = some (portToken portEntries) ∧
      (∀ e ∈ portEntries, e.wellFormed) ∧
      scanLine sampleRuntime portState portLine = some portStateAfter) ∧
    (portStateAfter.status.NodePorts =
        (portEntries.foldl PortEntry.register portState.status).NodePorts ∧
      portStateAfter.status.ClusterPorts =
        (portEntries.foldl PortEntry.register portState.status).ClusterPorts) ∧
    portStateAfter.status.NodePorts.get? 80 = some 30001 ∧
    portStateAfter.status.ClusterPorts.get? 80 = some 80 ∧
    portStateAfter.status.NodePorts.get? 443 = none :=
  ⟨by decide,
   scanLine_ports sampleRuntime portState portStateAfter portLine portEntries
     (by decide) (by decide) (by decide) (by decide) (by decide),
   by decide, by decide, by decide⟩

end helm

/-! ### C5: the naming rule -/

namespace strings

theorem replaceAux_single (c : Char) (s : GoString) (left : Int) (h : left < 0) :
    replaceAux [c] [] 0 left s = s.filter fun x => x ≠ c := by
  induction s generalizing left with
  | nil => rfl
  | cons x xs ih =>
    have hp : [c].isPrefixOf (x :: xs) = (x == c) := by
      simp [List.isPrefixOf, eq_comm]
    have hl : left ≠ 0 := by omega
    simp only [replaceAux, hp, List.length_singleton, Nat.sub_self, List.nil_append]
    by_cases hx : x = c
    · subst hx
      simp only [beq_self_eq_true, ne_eq, hl, not_false_eq_true, and_self, if_true]
      rw [ih (left - 1) (by omega)]
      simp
    · have : ¬ (left ≠ 0 ∧ (x == c) = true) := by simp [hx]
      rw [if_neg this, ih left h]
      simp [hx]

theorem Replace_remove (c : Char) (s : GoString) :
    Replace s [c] [] (-1) = s.filter fun x => x ≠ c := by
  unfold Replace
  rw [if_neg (List.cons_ne_nil _ _)]
  exact replaceAux_single c s (-1) (by decide)

end strings

namespace release

theorem sanitize_eq (rt : Runtime) (value : GoString) :
    strings.Replace (strings.Replace (rt.ToLower value) "-".toList [] (-1)) "_".toList []
      (-1) = sanitize rt value := by
  have h1 : "-".toList = ['-'] := rfl
  have h2 : "_".toList = ['_'] := rfl
  rw [h1, h2, strings.Replace_remove, strings.Replace_remove, List.filter_filter]
  unfold sanitize
  congr 1
  funext c
  simp [Bool.and_comm]

theorem takeRunes_ascii (s : GoString) (h : ∀ c ∈ s, c.toNat < 128) (n : Nat) :
    takeRunes n 0 s = s.take n := by
  induction s generalizing n with
  | nil => cases n <;> rfl
  | cons c cs ih =>
    cases n with
    | zero => rfl
    | succ m =>
      rw [takeRunes, utf8.DecodeRune_ascii c cs (h c (List.mem_cons_self _ _)),
        List.take_succ_cons]
      exact congrArg (c :: ·) (ih (fun x hx => h x (List.mem_cons_of_mem _ hx)) m)

theorem countRunes_ascii (s : GoString) (h : ∀ c ∈ s, c.toNat < 128) :
    countRunes 0 s = s.length := by
  induction s with
  | nil => rfl
  | cons c cs ih =>
    rw [countRunes, utf8.DecodeRune_ascii c cs (h c (List.mem_cons_self _ _)),
      List.length_cons, Nat.add_comm]
    exact congrArg (· + 1) (ih (fun x hx => h x (List.mem_cons_of_mem _ hx)))

/-- C5 (amended): `getName` counts and cuts bytes.  An id that starts with `helmi` is
returned as it is, which is the naming rule of the specification; any other id whose
sanitized form has at least 14 bytes gives `helmi` followed by the first 14 bytes of
that form, 19 bytes in all; and when the sanitized form is ASCII these are its first 14
characters, so that `getName` is the naming rule of the specification. -/
theorem getName_eq_deriveName (rt : Runtime) (value : GoString) :
    (strings.HasPrefix value namePrefix = true →
      getName rt value = some value ∧ getName rt value = some (deriveName rt value)) ∧
    (strings.HasPrefix value namePrefix = false → 14 ≤ (sanitize rt value).length →
      getName rt value = some (namePrefix ++ (sanitize rt value).take 14) ∧
      (namePrefix ++ (sanitize rt value).take 14).length = 19) ∧
    (strings.HasPrefix value namePrefix = false → 14 ≤ (sanitize rt value).length →
      (∀ c ∈ sanitize rt value, c.toNat < 128) →
      countRunes 0 (sanitize rt value) = (sanitize rt value).length ∧
      getName rt value = some (deriveName rt value)) := by
  have hget : getName rt value =
      if strings.HasPrefix value namePrefix = true then some value
      else if 14 ≤ (sanitize rt value).length then
        some (namePrefix ++ (sanitize rt value).take 14) else none := by
    unfold getName
    simp only [sanitize_eq]
  refine ⟨fun hp => ⟨?_, ?_⟩, fun hp hlen => ⟨?_, ?_⟩, fun hp hlen hascii => ⟨?_, ?_⟩⟩
  · rw [hget, if_pos hp]
  · have hp' : namePrefix.isPrefixOf value = true := hp
    unfold deriveName
    rw [hget, if_pos hp, if_pos hp']
  · rw [hget, if_neg (by simp [hp]), if_pos hlen]
  · rw [List.length_append, List.length_take, Nat.min_eq_left hlen]; rfl
  · exact countRunes_ascii _ hascii
  · have hp' : ¬ namePrefix.isPrefixOf value = true := by
      intro h
      have h' : strings.HasPrefix value namePrefix = true := h
      rw [hp] at h'
      exact absurd h' (by decide)
    unfold deriveName
    rw [hget, if_neg (by simp [hp]), if_pos hlen, if_neg hp', takeRunes_ascii _ hascii]

/-- C5, witness: the id of the test in the repository, and an id with the prefix. -/
theorem getName_eq_deriveName_witness :
    (strings.HasPrefix longId namePrefix = false ∧
      14 ≤ (sanitize sampleRuntime longId).length ∧
      ∀ c ∈ sanitize sampleRuntime longId, c.toNat < 128) ∧
    getName sampleRuntime longId = some "helmithisisatestnam".toList ∧
    getName sampleRuntime longId = some (deriveName sampleRuntime longId) ∧
    (strings.HasPrefix "helmi-42".toList namePrefix = true ∧
      getName sampleRuntime "helmi-42".toList = some "helmi-42".toList) :=
  ⟨by decide,
   ((getName_eq_deriveName sampleRuntime longId).2.1 (by decide) (by decide)).1,
   ((getName_eq_deriveName sampleRuntime longId).2.2 (by decide) (by decide) (by decide)).2,
   by decide,
   ((getName_eq_deriveName sampleRuntime "helmi-42".toList).1 (by decide)).1⟩

/-- C5 as stated fails: the id `accentedId` does not start with `helmi`, its sanitized
form has 15 characters, and `getName` returns `helmi` followed by 7 of them, a name of
12 characters, where the naming rule of the specification gives `helmi` followed by
14. -/
theorem getName_accented :
    strings.HasPrefix accentedId namePrefix = false ∧
      sanitize sampleRuntime accentedId = accentedId ∧
      countRunes 0 (sanitize sampleRuntime accentedId) = 15 ∧
      getName sampleRuntime accentedId =
        some (namePrefix ++ (List.replicate 7 accentedE).flatten) ∧
      deriveName sampleRuntime accentedId =
        namePrefix ++ (List.replicate 14 accentedE).flatten ∧
      getName sampleRuntime accentedId ≠ some (deriveName sampleRuntime accentedId) ∧
      countRunes 0 (namePrefix ++ (List.replicate 7 accentedE).flatten) = 12 :=
  ⟨by decide, by decide, by decide, by decide, by decide, by decide, by decide⟩

end release

/-! ### The lookup placeholder -/

namespace regexp

theorem takeWhile_run (p : Char → Bool) (xs : GoString) (y : Char) (ys : GoString)
    (hx : ∀ x ∈ xs, p x = true) (hy : p y = false) :
    (xs ++ y :: ys).takeWhile p = xs ∧ (xs ++ y :: ys).dropWhile p = y :: ys := by
  induction xs with
  | nil => simp [List.takeWhile, List.dropWhile, hy]
  | cons a r ih =>
    have ha := hx a (List.mem_cons_self _ _)
    obtain ⟨i1, i2⟩ := ih (fun x h => hx x (List.mem_cons_of_mem _ h))
    simp [List.takeWhile, List.dropWhile, ha, i1, i2]

theorem plus_run (cls : Char → Bool) (xs : GoString) (y : Char) (ys : GoString)
    (hne : xs ≠ []) (hx : ∀ x ∈ xs, cls x = true) (hy : cls y = false) :
    plus cls (xs ++ y :: ys) = some (xs, y :: ys) := by
  obtain ⟨h1, h2⟩ := takeWhile_run cls xs y ys hx hy
  unfold plus
  rw [h1, h2, if_neg hne]

theorem dropWhile_run (xs : GoString) (y : Char) (ys : GoString)
    (hx : ∀ x ∈ xs, isSpace x = true) (hy : isSpace y = false) :
    (xs ++ y :: ys).dropWhile isSpace = y :: ys :=
  (takeWhile_run isSpace xs y ys hx hy).2

theorem matchHere_placeholder (gap kind path rest : GoString)
    (hgap : ∀ c ∈ gap, isSpace c = true)
    (hkind : kind ≠ [] ∧ ∀ c ∈ kind, isWord c = true)
    (hpath : path ≠ [] ∧ ∀ c ∈ path, isPathChar c = true) :
    matchHere (release.placeholder gap kind path ++ rest) = some (kind, path, rest) := by
  have a1 : isSpace '\x27' = false := rfl
  have a2 : isWord '\x27' = false := rfl
  have a3 : isPathChar '\x27' = false := rfl
  have a4 : isSpace 'l' = false := rfl
  have a5 : isSpace '(' = false := rfl
  have a6 : isSpace ',' = false := rfl
  have a7 : isSpace ')' = false := rfl
  have a8 : isSpace '\x7d' = false := rfl
  have a9 : isSpace ' ' = true := rfl
  have hshape : release.placeholder gap kind path ++ rest =
      '\x7b' :: '\x7b' :: ' ' :: 'l' :: 'o' :: 'o' :: 'k' :: 'u' :: 'p' :: '(' :: '\x27' ::
        (kind ++ '\x27' :: ',' :: (gap ++ '\x27' :: (path ++
          '\x27' :: ')' :: ' ' :: '\x7d' :: '\x7d' :: rest))) := by
    simp [release.placeholder]
  rw [hshape]
  unfold matchHere
  simp only [String.toList, lit,
    List.isPrefixOf, beq_self_eq_true, Bool.and_self, Bool.true_and, if_true, List.drop,
    List.length, Option.bind_eq_bind, Option.some_bind, List.dropWhile, a1, a4, a5, a6, a7, a8, a9,
    plus_run isWord kind _ _ hkind.1 hkind.2 a2, plus_run isPathChar path _ _ hpath.1 hpath.2 a3,
    dropWhile_run gap _ _ hgap a1, Option.pure_def]

end regexp

/-! ### Maps, iteration orders and the replacement of one placeholder -/

namespace GoMap

variable {K V : Type} [DecidableEq K]

theorem lookup_setEntries_self (k : K) (v : V) (l : List (K × V)) :
    lookupEntries k (setEntries k v l) = some v := by
  induction l with
  | nil => simp [setEntries, lookupEntries]
  | cons e r ih =>
    obtain ⟨k', v'⟩ := e
    by_cases h : k' = k
    · simp [setEntries, lookupEntries, h]
    · simp [setEntries, lookupEntries, h, ih]

theorem lookup_setEntries_ne (k k' : K) (v : V) (l : List (K × V)) (hne : k' ≠ k) :
    lookupEntries k' (setEntries k v l) = lookupEntries k' l := by
  induction l with
  | nil => simp [setEntries, lookupEntries, hne.symm]
  | cons e r ih =>
    obtain ⟨k0, v0⟩ := e
    by_cases h : k0 = k
    · subst h
      simp [setEntries, lookupEntries, hne.symm]
    · by_cases h' : k0 = k'
      · subst h'
        simp [setEntries, lookupEntries, h]
      · simp [setEntries, lookupEntries, h, h', ih]

theorem get?_set_self (m : GoMap K V) (k : K) (v : V) : (m.set k v).get? k = some v :=
  lookup_setEntries_self k v m.entries

theorem get?_set_ne (m : GoMap K V) (k k' : K) (v : V) (hne : k' ≠ k) :
    (m.set k v).get? k' = m.get? k' :=
  lookup_setEntries_ne k k' v m.entries hne

theorem get?_empty (k : K) : (empty : GoMap K V).get? k = none := rfl

theorem lookup_eq_none_iff (k : K) (l : List (K × V)) :
    lookupEntries k l = none ↔ k ∉ l.map Prod.fst := by
  induction l with
  | nil => simp [lookupEntries]
  | cons e r ih =>
    obtain ⟨k', v'⟩ := e
    by_cases h : k' = k
    · simp [lookupEntries, h]
    · have h' : ¬ k = k' := fun e => h e.symm
      simp only [lookupEntries, h, if_false, ih, List.map_cons, List.mem_cons, h', false_or]

theorem lookup_eq_some_iff (k : K) (v : V) (l : List (K × V))
    (hnd : (l.map Prod.fst).Nodup) : lookupEntries k l = some v ↔ (k, v) ∈ l := by
  induction l with
  | nil => simp [lookupEntries]
  | cons e r ih =>
    obtain ⟨k', v'⟩ := e
    rw [List.map_cons, List.nodup_cons] at hnd
    by_cases h : k' = k
    · subst h
      have hnot : ∀ w, (k', w) ∉ r := fun w hw => hnd.1 (List.mem_map.mpr ⟨(k', w), hw, rfl⟩)
      simp [lookupEntries, hnot, eq_comm]
    · have h' : ¬ k = k' := fun e => h e.symm
      simp [lookupEntries, h, h', ih hnd.2]

theorem get?_eq_some_iff (m : GoMap K V) (k : K) (v : V) :
    m.get? k = some v ↔ (k, v) ∈ m.entries :=
  lookup_eq_some_iff k v m.entries m.nodup

theorem size_set_of_get?_none (m : GoMap K V) (k : K) (v : V) (h : m.get? k = none) :
    (m.set k v).size = m.size + 1 := by
  have hk : k ∉ m.entries.map Prod.fst := (lookup_eq_none_iff k m.entries).mp h
  have : ∀ l : List (K × V), k ∉ l.map Prod.fst → (setEntries k v l).length = l.length + 1 := by
    intro l
    induction l with
    | nil => simp [setEntries]
    | cons e r ih =>
      obtain ⟨k', v'⟩ := e
      intro hk
      simp only [List.map_cons, List.mem_cons, not_or] at hk
      have h' : ¬ k' = k := fun e => hk.1 e.symm
      simp [setEntries, h', ih hk.2]
  exact this m.entries hk

end GoMap

theorem RangeOrder.mem_order {K V : Type} [DecidableEq K] (ro : RangeOrder) (m : GoMap K V)
    (k : K) (v : V) : (k, v) ∈ ro.order m ↔ m.get? k = some v := by
  rw [GoMap.get?_eq_some_iff]
  exact (ro.perm m).mem_iff

theorem RangeOrder.nodup_order {K V : Type} [DecidableEq K] (ro : RangeOrder) (m : GoMap K V) :
    ((ro.order m).map Prod.fst).Nodup :=
  ((ro.perm m).map Prod.fst).nodup_iff.mpr m.nodup

namespace regexp

theorem replaceAllAux_skip {σ : Type} (repl : σ → GoString → GoString × σ) (xs : GoString)
    (k : Nat) (st : σ) (rest : GoString) (h : xs.length = k) :
    replaceAllAux repl k st (xs ++ rest) = replaceAllAux repl 0 st rest := by
  induction xs generalizing k with
  | nil => simp at h; subst h; rfl
  | cons x r ih =>
    cases k with
    | zero => simp at h
    | succ k' =>
      simp only [List.cons_append, replaceAllAux]
      exact ih k' (by simpa using h)

theorem placeholder_cons (gap kind path : GoString) :
    ∃ c cs, release.placeholder gap kind path = c :: cs :=
  ⟨'\x7b', _, rfl⟩

theorem replaceAll_placeholder_append {σ : Type} (repl : σ → GoString → GoString × σ)
    (st : σ) (gap kind path rest : GoString)
    (hgap : ∀ c ∈ gap, isSpace c = true)
    (hkind : kind ≠ [] ∧ ∀ c ∈ kind, isWord c = true)
    (hpath : path ≠ [] ∧ ∀ c ∈ path, isPathChar c = true) :
    ReplaceAllStringFuncM (release.placeholder gap kind path ++ rest) repl st =
      ((repl st (release.placeholder gap kind path)).1 ++
        (ReplaceAllStringFuncM rest repl (repl st (release.placeholder gap kind path)).2).1,
       (ReplaceAllStringFuncM rest repl (repl st (release.placeholder gap kind path)).2).2) := by
  have hm := matchHere_placeholder gap kind path rest hgap hkind hpath
  obtain ⟨c, cs, hc⟩ := placeholder_cons gap kind path
  rw [hc] at hm ⊢
  unfold ReplaceAllStringFuncM
  have hlen : (c :: cs ++ rest).length - rest.length = (c :: cs).length := by
    simp only [List.length_append, List.length_cons]; omega
  rw [List.cons_append, replaceAllAux]
  rw [List.cons_append] at hm hlen
  simp only [hm, hlen]
  have htake : List.take (c :: cs).length (c :: (cs ++ rest)) = c :: cs := by
    rw [← List.cons_append, List.take_left']
    rfl
  rw [htake]
  have hskip := fun s => replaceAllAux_skip repl cs ((c :: cs).length - 1) s rest (by simp)
  rw [hskip]

theorem FindStringSubmatch_placeholder (gap kind path : GoString)
    (hgap : ∀ c ∈ gap, isSpace c = true)
    (hkind : kind ≠ [] ∧ ∀ c ∈ kind, isWord c = true)
    (hpath : path ≠ [] ∧ ∀ c ∈ path, isPathChar c = true) :
    FindStringSubmatch (release.placeholder gap kind path) =
      [release.placeholder gap kind path, kind, path] := by
  have hm := matchHere_placeholder gap kind path [] hgap hkind hpath
  rw [List.append_nil] at hm
  obtain ⟨c, cs, hc⟩ := placeholder_cons gap kind path
  rw [hc] at hm ⊢
  rw [FindStringSubmatch]
  simp only [hm]
  simp

end regexp

namespace release

theorem lookupGroups_match (whole kind path : GoString) :
    lookupGroups [whole, kind, path] = (kind, path) := rfl

theorem lookupGroups_nil : lookupGroups [] = ([], []) := rfl

end release

/-! ### C6: generated secrets are shared within a call -/

namespace uuid

theorem digitChar_hex (d : Nat) (h : d < 16) :
    release.isLowerHex (Nat.digitChar d) = true ∧ Nat.digitChar d ≠ '-' := by
  interval_cases d <;> decide

theorem hexByte_hex (b : Fin 256) :
    ∀ c ∈ hexByte b, release.isLowerHex c = true ∧ c ≠ '-' := by
  intro c hc
  unfold hexByte at hc
  have h1 : b.val / 16 < 16 := by omega
  have h2 : b.val % 16 < 16 := Nat.mod_lt _ (by decide)
  simp only [List.mem_cons, List.mem_singleton, List.not_mem_nil, or_false] at hc
  rcases hc with rfl | rfl
  · exact digitChar_hex _ h1
  · exact digitChar_hex _ h2

theorem hexRange_hex (u : Fin 16 → Fin 256) (i n : Nat) :
    ∀ c ∈ hexRange u i n, release.isLowerHex c = true ∧ c ≠ '-' := by
  intro c hc
  unfold hexRange at hc
  obtain ⟨l, hl, hcl⟩ := List.mem_flatten.mp hc
  obtain ⟨j, -, rfl⟩ := List.mem_map.mp hl
  exact hexByte_hex _ c hcl

theorem hexRange_length (u : Fin 16 → Fin 256) (i n : Nat) :
    (hexRange u i n).length = 2 * n := by
  unfold hexRange
  induction n with
  | zero => rfl
  | succ k ih =>
    rw [List.range_succ, List.map_append, List.flatten_append, List.length_append, ih]
    simp [hexByte]
    omega

theorem filter_hexRange (u : Fin 16 → Fin 256) (i n : Nat) :
    (hexRange u i n).filter (fun c => c ≠ '-') = hexRange u i n := by
  apply List.filter_eq_self.mpr
  intro c hc
  simpa using (hexRange_hex u i n c hc).2

end uuid

namespace release

theorem secret_eq (rt : Runtime) (n : Nat) :
    secret rt n = uuid.hexRange (rt.NewV4 n) 0 4 ++ uuid.hexRange (rt.NewV4 n) 4 2 ++
      uuid.hexRange (rt.NewV4 n) 6 2 ++ uuid.hexRange (rt.NewV4 n) 8 2 ++
      uuid.hexRange (rt.NewV4 n) 10 6 := by
  unfold secret uuid.String
  simp only [List.filter_append, List.filter_cons, uuid.filter_hexRange]
  simp

theorem secret_length (rt : Runtime) (n : Nat) : (secret rt n).length = 32 := by
  rw [secret_eq]
  simp only [List.length_append, uuid.hexRange_length]

theorem secret_hex (rt : Runtime) (n : Nat) : ∀ c ∈ secret rt n, isLowerHex c = true := by
  intro c hc
  rw [secret_eq] at hc
  simp only [List.mem_append] at hc
  rcases hc with (((h | h) | h) | h) | h <;> exact (uuid.hexRange_hex _ _ _ c h).1

theorem secret_replace (rt : Runtime) (n : Nat) :
    strings.Replace (uuid.String (rt.NewV4 n)) "-".toList [] (-1) = secret rt n := by
  have : "-".toList = ['-'] := rfl
  rw [this, strings.Replace_remove]
  rfl

end release

namespace regexp

theorem replaceAllAux_rel {σ : Type} (repl : σ → GoString → GoString × σ)
    (R : σ → σ → Prop) (hrefl : ∀ s, R s s) (htrans : ∀ a b c, R a b → R b c → R a c)
    (hstep : ∀ s m, R s (repl s m).2) (src : GoString) (k : Nat) (st : σ) :
    R st (replaceAllAux repl k st src).2 := by
  induction src generalizing k st with
  | nil => cases k <;> exact hrefl st
  | cons c cs ih =>
    cases k with
    | succ k' => rw [replaceAllAux]; exact ih k' st
    | zero =>
      rw [replaceAllAux]
      cases hm : matchHere (c :: cs) with
      | none => exact ih 0 st
      | some m =>
        obtain ⟨type, path, rest⟩ := m
        exact htrans _ _ _ (hstep st _) (ih _ _)

theorem ReplaceAllStringFuncM_nil {σ : Type} (repl : σ → GoString → GoString × σ) (st : σ) :
    ReplaceAllStringFuncM [] repl st = ([], st) := rfl

theorem ReplaceAllStringFuncM_placeholder {σ : Type} (repl : σ → GoString → GoString × σ)
    (st : σ) (gap kind path : GoString)
    (hgap : ∀ c ∈ gap, isSpace c = true)
    (hkind : kind ≠ [] ∧ ∀ c ∈ kind, isWord c = true)
    (hpath : path ≠ [] ∧ ∀ c ∈ path, isPathChar c = true) :
    ReplaceAllStringFuncM (release.placeholder gap kind path) repl st =
      repl st (release.placeholder gap kind path) := by
  have h := replaceAll_placeholder_append repl st gap kind path [] hgap hkind hpath
  rw [List.append_nil] at h
  rw [h, ReplaceAllStringFuncM_nil, List.append_nil]

end regexp

namespace release

theorem leads_refl (rt : Runtime) (c : SecretCache) : c.leads rt c :=
  fun h => ⟨h, fun _ _ h => h, fun _ _ h => h⟩

theorem leads_trans (rt : Runtime) (a b c : SecretCache) (h1 : a.leads rt b)
    (h2 : b.leads rt c) : a.leads rt c := by
  intro ha
  obtain ⟨hb, k1⟩ := h1 ha
  obtain ⟨hc, k2⟩ := h2 hb
  exact ⟨hc, fun p v h => k2.1 p v (k1.1 p v h), fun p v h => k2.2 p v (k1.2 p v h)⟩

theorem valid_nonempty {rt : Runtime} {n : Nat} {v : GoString} (h : v = secret rt n) :
    ¬ v.length = 0 := by
  rw [h, secret_length]; decide

theorem get?_none_of_length {m : GoMap GoString GoString} {p : GoString}
    (hv : ∀ v, m.get? p = some v → ¬ v.length = 0)
    (h : ((m.get? p).getD []).length = 0) : m.get? p = none := by
  cases hg : m.get? p with
  | none => rfl
  | some v =>
    rw [hg] at h
    exact absurd h (hv v hg)

theorem chartValueLookup_leads (rt : Runtime) (st : SecretCache) (m : GoString) :
    st.leads rt (chartValueLookup rt st m).2 := by
  intro hv
  obtain ⟨hu, hp, hd⟩ := hv
  unfold chartValueLookup
  simp only []
  split
  · split
    · rename_i hlen
      have hnone := get?_none_of_length (fun v h => by
        obtain ⟨n, -, e⟩ := hu _ v h; exact valid_nonempty e) hlen
      refine ⟨⟨?_, ?_, ?_⟩, ?_, ?_⟩
      · intro p v hget
        by_cases hpe : p = (lookupGroups (regexp.FindStringSubmatch m)).2
        · subst hpe
          rw [GoMap.get?_set_self, Option.some.injEq] at hget
          exact ⟨st.drawn, Nat.lt_succ_self _, by rw [← hget, secret_replace]⟩
        · rw [GoMap.get?_set_ne _ _ _ _ hpe] at hget
          obtain ⟨n, hn, e⟩ := hu p v hget
          exact ⟨n, Nat.lt_succ_of_lt hn, e⟩
      · intro p v hget
        obtain ⟨n, hn, e⟩ := hp p v hget
        exact ⟨n, Nat.lt_succ_of_lt hn, e⟩
      · simp only [GoMap.size_set_of_get?_none _ _ _ hnone, hd]; omega
      · intro p v hget
        by_cases hpe : p = (lookupGroups (regexp.FindStringSubmatch m)).2
        · subst hpe; rw [hnone] at hget; exact absurd hget (by simp)
        · rw [GoMap.get?_set_ne _ _ _ _ hpe]; exact hget
      · exact fun p v h => h
    · exact ⟨⟨hu, hp, hd⟩, fun _ _ h => h, fun _ _ h => h⟩
  · split
    · split
      · rename_i hlen
        have hnone := get?_none_of_length (fun v h => by
          obtain ⟨n, -, e⟩ := hp _ v h; exact valid_nonempty e) hlen
        refine ⟨⟨?_, ?_, ?_⟩, ?_, ?_⟩
        · intro p v hget
          obtain ⟨n, hn, e⟩ := hu p v hget
          exact ⟨n, Nat.lt_succ_of_lt hn, e⟩
        · intro p v hget
          by_cases hpe : p = (lookupGroups (regexp.FindStringSubmatch m)).2
          · subst hpe
            rw [GoMap.get?_set_self, Option.some.injEq] at hget
            exact ⟨st.drawn, Nat.lt_succ_self _, by rw [← hget, secret_replace]⟩
          · rw [GoMap.get?_set_ne _ _ _ _ hpe] at hget
            obtain ⟨n, hn, e⟩ := hp p v hget
            exact ⟨n, Nat.lt_succ_of_lt hn, e⟩
        · simp only [GoMap.size_set_of_get?_none _ _ _ hnone, hd]; omega
        · exact fun p v h => h
        · intro p v hget
          by_cases hpe : p = (lookupGroups (regexp.FindStringSubmatch m)).2
          · subst hpe; rw [hnone] at hget; exact absurd hget (by simp)
          · rw [GoMap.get?_set_ne _ _ _ _ hpe]; exact hget
      · exact ⟨⟨hu, hp, hd⟩, fun _ _ h => h, fun _ _ h => h⟩
    · split <;> exact ⟨⟨hu, hp, hd⟩, fun _ _ h => h, fun _ _ h => h⟩

theorem chartValueStep_leads (rt : Runtime) (acc : GoMap GoString GoString × SecretCache)
    (kv : GoString × GoString) : acc.2.leads rt (chartValueStep rt acc kv).2 := by
  unfold chartValueStep regexp.ReplaceAllStringFuncM
  exact regexp.replaceAllAux_rel (chartValueLookup rt) (SecretCache.leads rt) (leads_refl rt)
    (leads_trans rt) (chartValueLookup_leads rt) kv.2 0 acc.2

end release

namespace release

theorem kind_isWord {kind : GoString} (hkind : kind = lookupUsername ∨ kind = lookupPassword) :
    kind ≠ [] ∧ ∀ c ∈ kind, regexp.isWord c = true := by
  rcases hkind with rfl | rfl <;> decide

theorem keeps_cache {c c' : SecretCache} (h : c.keeps c') (kind p v : GoString)
    (hg : (c.cache kind).get? p = some v) : (c'.cache kind).get? p = some v := by
  unfold SecretCache.cache at hg ⊢
  split
  · rename_i hk; rw [if_pos hk] at hg; exact h.1 p v hg
  · rename_i hk; rw [if_neg hk] at hg; exact h.2 p v hg

theorem valid_cache {rt : Runtime} {c : SecretCache} (h : c.valid rt) (kind p v : GoString)
    (hg : (c.cache kind).get? p = some v) : ∃ n, v = secret rt n := by
  unfold SecretCache.cache at hg
  split at hg
  · obtain ⟨n, -, e⟩ := h.1 p v hg; exact ⟨n, e⟩
  · obtain ⟨n, -, e⟩ := h.2.1 p v hg; exact ⟨n, e⟩

theorem chartValueLookup_secret (rt : Runtime) (st : SecretCache) (gap kind path : GoString)
    (hkind : kind = lookupUsername ∨ kind = lookupPassword)
    (hgap : ∀ c ∈ gap, regexp.isSpace c = true)
    (hpath : path ≠ [] ∧ ∀ c ∈ path, regexp.isPathChar c = true) :
    (((chartValueLookup rt st (placeholder gap kind path)).2).cache kind).get? path =
      some (chartValueLookup rt st (placeholder gap kind path)).1 := by
  have hf := regexp.FindStringSubmatch_placeholder gap kind path hgap (kind_isWord hkind) hpath
  unfold chartValueLookup
  simp only [hf, lookupGroups_match]
  rcases hkind with rfl | rfl
  · have e1 : strings.EqualFold lookupUsername lookupUsername = true := by decide
    simp only [e1, if_true, SecretCache.cache]
    split
    · simp [GoMap.get?_set_self]
    · rename_i hlen
      cases hg : st.usernames.get? path with
      | none => rw [hg] at hlen; exact absurd rfl hlen
      | some v => simp
  · have e1 : strings.EqualFold lookupPassword lookupUsername = false := by decide
    have e2 : strings.EqualFold lookupPassword lookupPassword = true := by decide
    have e3 : ¬ lookupPassword = lookupUsername := by decide
    simp only [e1, e2, if_true, SecretCache.cache, e3, if_false, Bool.false_eq_true]
    split
    · simp [GoMap.get?_set_self]
    · rename_i hlen
      cases hg : st.passwords.get? path with
      | none => rw [hg] at hlen; exact absurd rfl hlen
      | some v => simp

end release

namespace release

theorem chartValueStep_placeholder (rt : Runtime) (acc : GoMap GoString GoString × SecretCache)
    (key gap kind path : GoString)
    (hkind : kind = lookupUsername ∨ kind = lookupPassword)
    (hgap : ∀ c ∈ gap, regexp.isSpace c = true)
    (hpath : path ≠ [] ∧ ∀ c ∈ path, regexp.isPathChar c = true)
    (hv : acc.2.valid rt) :
    ∃ v, (chartValueStep rt acc (key, placeholder gap kind path)).1.get? key = some v ∧
      ((chartValueStep rt acc (key, placeholder gap kind path)).2.cache kind).get? path =
        some v := by
  have hl := chartValueLookup_secret rt acc.2 gap kind path hkind hgap hpath
  have hleads := chartValueLookup_leads rt acc.2 (placeholder gap kind path) hv
  obtain ⟨n, hn⟩ := valid_cache hleads.1 kind path _ hl
  have hlen : (chartValueLookup rt acc.2 (placeholder gap kind path)).1.length > 0 := by
    rw [hn, secret_length]; decide
  refine ⟨(chartValueLookup rt acc.2 (placeholder gap kind path)).1, ?_, ?_⟩
  · unfold chartValueStep
    simp only [regexp.ReplaceAllStringFuncM_placeholder _ _ gap kind path hgap
      (kind_isWord hkind) hpath, if_pos hlen, GoMap.get?_set_self]
  · unfold chartValueStep
    simp only [regexp.ReplaceAllStringFuncM_placeholder _ _ gap kind path hgap
      (kind_isWord hkind) hpath]
    exact hl

theorem chartValueStep_other (rt : Runtime) (acc : GoMap GoString GoString × SecretCache)
    (kv : GoString × GoString) (key : GoString) (hne : key ≠ kv.1) :
    (chartValueStep rt acc kv).1.get? key = acc.1.get? key := by
  unfold chartValueStep
  simp only []
  split
  · exact GoMap.get?_set_ne _ _ _ _ hne
  · rfl

theorem foldl_chartValueStep_leads (rt : Runtime) (ts : List (GoString × GoString))
    (acc : GoMap GoString GoString × SecretCache) :
    acc.2.leads rt (ts.foldl (chartValueStep rt) acc).2 := by
  induction ts generalizing acc with
  | nil => exact leads_refl rt _
  | cons kv r ih =>
    exact leads_trans rt _ _ _ (chartValueStep_leads rt acc kv) (ih _)

theorem foldl_chartValueStep_other (rt : Runtime) (ts : List (GoString × GoString))
    (acc : GoMap GoString GoString × SecretCache) (key : GoString)
    (hk : key ∉ ts.map Prod.fst) :
    (ts.foldl (chartValueStep rt) acc).1.get? key = acc.1.get? key := by
  induction ts generalizing acc with
  | nil => rfl
  | cons kv r ih =>
    simp only [List.map_cons, List.mem_cons, not_or] at hk
    rw [List.foldl_cons, ih _ hk.2, chartValueStep_other rt acc kv key hk.1]

theorem foldl_chartValueStep_placeholder (rt : Runtime) (ts : List (GoString × GoString))
    (acc : GoMap GoString GoString × SecretCache) (key gap kind path : GoString)
    (hkind : kind = lookupUsername ∨ kind = lookupPassword)
    (hgap : ∀ c ∈ gap, regexp.isSpace c = true)
    (hpath : path ≠ [] ∧ ∀ c ∈ path, regexp.isPathChar c = true)
    (hnd : (ts.map Prod.fst).Nodup) (hmem : (key, placeholder gap kind path) ∈ ts)
    (hv : acc.2.valid rt) :
    ∃ v, (ts.foldl (chartValueStep rt) acc).1.get? key = some v ∧
      ((ts.foldl (chartValueStep rt) acc).2.cache kind).get? path = some v := by
  induction ts generalizing acc with
  | nil => exact absurd hmem (List.not_mem_nil _)
  | cons kv r ih =>
    rw [List.map_cons, List.nodup_cons] at hnd
    have hv' := (chartValueStep_leads rt acc kv hv).1
    rcases List.mem_cons.mp hmem with hhead | htail
    · subst hhead
      obtain ⟨v, h1, h2⟩ := chartValueStep_placeholder rt acc key gap kind path hkind hgap hpath hv
      refine ⟨v, ?_, ?_⟩
      · rw [List.foldl_cons, foldl_chartValueStep_other rt r _ key hnd.1]; exact h1
      · rw [List.foldl_cons]
        exact keeps_cache (foldl_chartValueStep_leads rt r _ hv').2 kind path v h2
    · rw [List.foldl_cons]
      exact ih _ hnd.2 htail hv'

theorem valid_initial (rt : Runtime) :
    SecretCache.valid rt ⟨GoMap.empty, GoMap.empty, 0⟩ :=
  ⟨fun p v h => absurd h (by simp [GoMap.get?_empty]),
   fun p v h => absurd h (by simp [GoMap.get?_empty]), rfl⟩

end release

namespace release

/-- C6: two keys whose template is the placeholder of the same kind, `username` or
`password`, and the same path resolve to the same value within one call of
`getChartValues`: a generated identifier without its hyphens, 32 lower-case hexadecimal
digits.  One identifier is drawn per kind and path: at the end of the call the number
drawn is the number of entries of the two caches. -/
theorem getChartValues_shared_secret (rt : Runtime) (ro : RangeOrder)
    (service : catalog.CatalogService) (plan : catalog.CatalogPlan)
    (gap kind path key₁ key₂ : GoString)
    (hkind : kind = lookupUsername ∨ kind = lookupPassword)
    (hgap : ∀ c ∈ gap, regexp.isSpace c = true)
    (hpath : path ≠ [] ∧ ∀ c ∈ path, regexp.isPathChar c = true)
    (h₁ : (chartTemplates ro service plan).get? key₁ = some (placeholder gap kind path))
    (h₂ : (chartTemplates ro service plan).get? key₂ = some (placeholder gap kind path)) :
    (∃ n, (getChartValues rt ro service plan).get? key₁ = some (secret rt n) ∧
      (getChartValues rt ro service plan).get? key₂ = some (secret rt n) ∧
      (secret rt n).length = 32 ∧ ∀ c ∈ secret rt n, isLowerHex c = true) ∧
    (resolveChartValues rt (ro.order (chartTemplates ro service plan))).2.drawn =
      (resolveChartValues rt (ro.order (chartTemplates ro service plan))).2.usernames.size +
      (resolveChartValues rt (ro.order (chartTemplates ro service plan))).2.passwords.size := by
  have hnd := ro.nodup_order (chartTemplates ro service plan)
  have m₁ := (ro.mem_order _ _ _).mpr h₁
  have m₂ := (ro.mem_order _ _ _).mpr h₂
  have hvalid := (foldl_chartValueStep_leads rt (ro.order (chartTemplates ro service plan))
    (GoMap.empty, ⟨GoMap.empty, GoMap.empty, 0⟩) (valid_initial rt)).1
  obtain ⟨v₁, a₁, b₁⟩ := foldl_chartValueStep_placeholder rt _
    (GoMap.empty, ⟨GoMap.empty, GoMap.empty, 0⟩) key₁ gap kind path hkind hgap
    hpath hnd m₁ (valid_initial rt)
  obtain ⟨v₂, a₂, b₂⟩ := foldl_chartValueStep_placeholder rt _
    (GoMap.empty, ⟨GoMap.empty, GoMap.empty, 0⟩) key₂ gap kind path hkind hgap
    hpath hnd m₂ (valid_initial rt)
  have hv : v₂ = v₁ := Option.some.inj (b₂.symm.trans b₁)
  subst hv
  obtain ⟨n, hn⟩ := valid_cache hvalid kind path v₂ b₁
  subst hn
  exact ⟨⟨n, a₁, a₂, secret_length rt n, secret_hex rt n⟩, hvalid.2.2⟩

/-- C6, witness: the keys `password` and `adminPassword` of `secretService` get the same
32 digits, the key `user` other ones, and two identifiers are drawn for the three
placeholders. -/
theorem getChartValues_shared_secret_witness :
    ((lookupPassword = lookupUsername ∨ lookupPassword = lookupPassword) ∧
      (∀ c ∈ ([] : GoString), regexp.isSpace c = true) ∧
      ("p".toList ≠ [] ∧ ∀ c ∈ "p".toList, regexp.isPathChar c = true) ∧
      (chartTemplates RangeOrder.stored secretService emptyPlan).get? "password".toList =
        some (placeholder [] lookupPassword "p".toList) ∧
      (chartTemplates RangeOrder.stored secretService emptyPlan).get? "adminPassword".toList =
        some (placeholder [] lookupPassword "p".toList)) ∧
    ((∃ n, (getChartValues sampleRuntime RangeOrder.stored secretService emptyPlan).get?
          "password".toList = some (secret sampleRuntime n) ∧
        (getChartValues sampleRuntime RangeOrder.stored secretService emptyPlan).get?
          "adminPassword".toList = some (secret sampleRuntime n) ∧
        (secret sampleRuntime n).length = 32 ∧
        ∀ c ∈ secret sampleRuntime n, isLowerHex c = true) ∧
      (resolveChartValues sampleRuntime (RangeOrder.stored.order
          (chartTemplates RangeOrder.stored secretService emptyPlan))).2.drawn =
        (resolveChartValues sampleRuntime (RangeOrder.stored.order
          (chartTemplates RangeOrder.stored secretService emptyPlan))).2.usernames.size +
        (resolveChartValues sampleRuntime (RangeOrder.stored.order
          (chartTemplates RangeOrder.stored secretService emptyPlan))).2.passwords.size) ∧
    (getChartValues sampleRuntime RangeOrder.stored secretService emptyPlan).entries =
      [("user".toList, "0708090a0b0c0d0e0f10111213141516".toList),
       ("password".toList, "1718191a1b1c1d1e1f20212223242526".toList),
       ("adminPassword".toList, "1718191a1b1c1d1e1f20212223242526".toList)] :=
  ⟨⟨Or.inr rfl, by decide, by decide, by decide, by decide⟩,
   getChartValues_shared_secret sampleRuntime RangeOrder.stored secretService emptyPlan
     [] lookupPassword "p".toList "password".toList "adminPassword".toList
     (Or.inr rfl) (by decide) (by decide) (by decide) (by decide),
   by decide⟩

end release

/-! ### C7: placeholders that read the deployed values -/

namespace regexp

theorem ReplaceAllStringFunc_placeholder (repl : GoString → GoString)
    (gap kind path : GoString)
    (hgap : ∀ c ∈ gap, isSpace c = true)
    (hkind : kind ≠ [] ∧ ∀ c ∈ kind, isWord c = true)
    (hpath : path ≠ [] ∧ ∀ c ∈ path, isPathChar c = true) :
    ReplaceAllStringFunc (release.placeholder gap kind path) repl =
      repl (release.placeholder gap kind path) := by
  unfold ReplaceAllStringFunc
  rw [ReplaceAllStringFuncM_placeholder _ _ gap kind path hgap hkind hpath]

end regexp

namespace release

theorem userCredentialStep_get? (resolve : GoString → GoString)
    (values : GoMap GoString Credential) (key : GoString) (template : catalog.Value) :
    (userCredentialStep resolve values (key, template)).get? key =
      ((resolvedValue resolve template).orElse fun _ => values.get? key) := by
  unfold userCredentialStep resolvedValue
  cases template with
  | str s =>
    simp only []
    split
    · rw [GoMap.get?_set_self]; rfl
    · rfl
  | list items =>
    simp only []
    split
    · rw [GoMap.get?_set_self]; rfl
    · rfl
  | other => rfl

theorem userCredentialStep_other (resolve : GoString → GoString)
    (values : GoMap GoString Credential) (kv : GoString × catalog.Value) (key : GoString)
    (hne : key ≠ kv.1) :
    (userCredentialStep resolve values kv).get? key = values.get? key := by
  unfold userCredentialStep
  split
  · simp only []; split
    · exact GoMap.get?_set_ne _ _ _ _ hne
    · rfl
  · simp only []; split
    · exact GoMap.get?_set_ne _ _ _ _ hne
    · rfl
  · rfl

theorem foldl_userCredentialStep_other (resolve : GoString → GoString)
    (ts : List (GoString × catalog.Value)) (values : GoMap GoString Credential)
    (key : GoString) (hk : key ∉ ts.map Prod.fst) :
    (ts.foldl (userCredentialStep resolve) values).get? key = values.get? key := by
  induction ts generalizing values with
  | nil => rfl
  | cons kv r ih =>
    simp only [List.map_cons, List.mem_cons, not_or] at hk
    rw [List.foldl_cons, ih _ hk.2, userCredentialStep_other resolve values kv key hk.1]

theorem foldl_userCredentialStep_get? (resolve : GoString → GoString)
    (ts : List (GoString × catalog.Value)) (values : GoMap GoString Credential)
    (key : GoString) (template : catalog.Value)
    (hnd : (ts.map Prod.fst).Nodup) (hmem : (key, template) ∈ ts) :
    (ts.foldl (userCredentialStep resolve) values).get? key =
      ((resolvedValue resolve template).orElse fun _ => values.get? key) := by
  induction ts generalizing values with
  | nil => exact absurd hmem (List.not_mem_nil _)
  | cons kv r ih =>
    rw [List.map_cons, List.nodup_cons] at hnd
    rcases List.mem_cons.mp hmem with hhead | htail
    · subst hhead
      rw [List.foldl_cons, foldl_userCredentialStep_other resolve r _ key hnd.1,
        userCredentialStep_get?]
    · have hne : key ≠ kv.1 := by
        rintro rfl
        exact hnd.1 (List.mem_map.mpr ⟨_, htail, rfl⟩)
      rw [List.foldl_cons, ih _ hnd.2 htail, userCredentialStep_other resolve values kv key hne]

theorem getUserCredentials_get? (rt : Runtime) (ro : RangeOrder)
    (service : catalog.CatalogService) (plan : catalog.CatalogPlan)
    (kubernetesNodes : List kubectl.Node) (helmStatus : helm.Status)
    (helmValues : GoMap GoString GoString) (key : GoString) (template : catalog.Value)
    (h : (credentialTemplates ro service plan).get? key = some template) :
    (getUserCredentials rt ro service plan kubernetesNodes helmStatus helmValues).get? key =
      resolvedValue (resolveCredential rt ro kubernetesNodes helmStatus helmValues) template := by
  unfold getUserCredentials
  rw [foldl_userCredentialStep_get? _ _ _ key template (ro.nodup_order _)
    ((ro.mem_order _ _ _).mpr h)]
  simp [GoMap.get?_empty]

theorem replaceTemplate_value (rt : Runtime) (ro : RangeOrder)
    (kubernetesNodes : List kubectl.Node) (helmStatus : helm.Status)
    (helmValues : GoMap GoString GoString) (gap kind path : GoString)
    (hkind : kind = lookupValue ∨ kind = lookupUsername ∨ kind = lookupPassword)
    (hgap : ∀ c ∈ gap, regexp.isSpace c = true)
    (hpath : path ≠ [] ∧ ∀ c ∈ path, regexp.isPathChar c = true) :
    resolveCredential rt ro kubernetesNodes helmStatus helmValues (placeholder gap kind path) =
      deployedValue helmValues path := by
  have hw : kind ≠ [] ∧ ∀ c ∈ kind, regexp.isWord c = true := by
    rcases hkind with rfl | rfl | rfl <;> decide
  unfold resolveCredential
  rw [regexp.ReplaceAllStringFunc_placeholder _ gap kind path hgap hw hpath]
  unfold replaceTemplate
  simp only [regexp.FindStringSubmatch_placeholder gap kind path hgap hw hpath,
    lookupGroups_match]
  rcases hkind with rfl | rfl | rfl
  · have e1 : strings.EqualFold lookupValue lookupUsername = false := by decide
    have e2 : strings.EqualFold lookupValue lookupPassword = false := by decide
    have e3 : strings.EqualFold lookupValue lookupValue = true := by decide
    simp only [e1, e2, e3, if_true, Bool.false_eq_true, if_false]
    rfl
  · have e1 : strings.EqualFold lookupUsername lookupUsername = true := by decide
    simp only [e1, if_true]
    rfl
  · have e1 : strings.EqualFold lookupPassword lookupUsername = false := by decide
    have e2 : strings.EqualFold lookupPassword lookupPassword = true := by decide
    simp only [e1, e2, if_true, Bool.false_eq_true, if_false]
    rfl

end release

namespace release

/-- C7: in `getUserCredentials` a template that is the single placeholder of kind `value`,
`username` or `password` with a path of word characters, `/` and `:` resolves to
the deployed value of the path, and its key is left out when that value is absent or
empty. -/
theorem getUserCredentials_deployedValue (rt : Runtime) (ro : RangeOrder)
    (service : catalog.CatalogService) (plan : catalog.CatalogPlan)
    (kubernetesNodes : List kubectl.Node) (helmStatus : helm.Status)
    (helmValues : GoMap GoString GoString) (gap kind path key : GoString)
    (hkind : kind = lookupValue ∨ kind = lookupUsername ∨ kind = lookupPassword)
    (hgap : ∀ c ∈ gap, regexp.isSpace c = true)
    (hpath : path ≠ [] ∧ ∀ c ∈ path, regexp.isPathChar c = true)
    (h : (credentialTemplates ro service plan).get? key =
      some (catalog.Value.str (placeholder gap kind path))) :
    resolveCredential rt ro kubernetesNodes helmStatus helmValues (placeholder gap kind path) =
      deployedValue helmValues path ∧
    (getUserCredentials rt ro service plan kubernetesNodes helmStatus helmValues).get? key =
      if deployedValue helmValues path = [] then none
      else some (Credential.str (deployedValue helmValues path)) := by
  have hr := replaceTemplate_value rt ro kubernetesNodes helmStatus helmValues gap kind path
    hkind hgap hpath
  refine ⟨hr, ?_⟩
  rw [getUserCredentials_get? rt ro service plan kubernetesNodes helmStatus helmValues key _ h]
  simp only [resolvedValue, hr]
  by_cases he : deployedValue helmValues path = []
  · rw [he]; rfl
  · have hlen : (deployedValue helmValues path).length > 0 := List.length_pos.mpr he
    rw [if_pos hlen, if_neg he]

/-- C7, witness: the template of the key `key` in the tests of the repository, with the
deployed value `foo` = `bar`, gives `bar`. -/
theorem getUserCredentials_deployedValue_witness :
    ((lookupValue = lookupValue ∨ lookupValue = lookupUsername ∨
        lookupValue = lookupPassword) ∧
      (∀ c ∈ " ".toList, regexp.isSpace c = true) ∧
      ("foo".toList ≠ [] ∧ ∀ c ∈ "foo".toList, regexp.isPathChar c = true) ∧
      (credentialTemplates RangeOrder.stored testService testPlan).get? "key".toList =
        some (catalog.Value.str (placeholder " ".toList lookupValue "foo".toList))) ∧
    (resolveCredential sampleRuntime RangeOrder.stored testNodes testStatus testValues
        (placeholder " ".toList lookupValue "foo".toList) = deployedValue testValues "foo".toList ∧
      (getUserCredentials sampleRuntime RangeOrder.stored testService testPlan testNodes
          testStatus testValues).get? "key".toList =
        if deployedValue testValues "foo".toList = [] then none
        else some (Credential.str (deployedValue testValues "foo".toList))) ∧
    deployedValue testValues "foo".toList = "bar".toList :=
  ⟨⟨Or.inl rfl, by decide, by decide, rfl⟩,
   getUserCredentials_deployedValue sampleRuntime RangeOrder.stored testService testPlan
     testNodes testStatus testValues " ".toList lookupValue "foo".toList "key".toList
     (Or.inl rfl) (by decide) (by decide) rfl,
   by decide⟩

end release

/-! ### C8: the cluster address -/

namespace release

theorem nodeAddress_eq (nodes : List kubectl.Node) :
    (nodeAddress nodes).getD [] = clusterAddress none nodes := by
  have e1 : (fun node : kubectl.Node => decide (node.ExternalIP.length > 0)) =
      fun node => decide (node.ExternalIP ≠ []) := by
    funext node; simp [List.length_pos]
  have e2 : (fun node : kubectl.Node => decide (node.InternalIP.length > 0)) =
      fun node => decide (node.InternalIP ≠ []) := by
    funext node; simp [List.length_pos]
  unfold nodeAddress clusterAddress
  simp only [List.filter_head?, e1, e2]
  cases List.find? (fun node : kubectl.Node => decide (node.ExternalIP ≠ [])) nodes with
  | some node => rfl
  | none =>
    simp only []
    cases List.find? (fun node : kubectl.Node => decide (node.InternalIP ≠ [])) nodes with
    | some node => rfl
    | none => rfl

theorem replaceTemplate_cluster_of (rt : Runtime) (ro : RangeOrder)
    (kubernetesNodes : List kubectl.Node) (helmStatus : helm.Status)
    (helmValues : GoMap GoString GoString) (gap kind path : GoString)
    (hgap : ∀ c ∈ gap, regexp.isSpace c = true)
    (hkind : kind ≠ [] ∧ ∀ c ∈ kind, regexp.isWord c = true)
    (hpath : path ≠ [] ∧ ∀ c ∈ path, regexp.isPathChar c = true)
    (e1 : strings.EqualFold kind lookupUsername = false)
    (e2 : strings.EqualFold kind lookupPassword = false)
    (e3 : strings.EqualFold kind lookupValue = false)
    (e4 : strings.EqualFold kind lookupCluster = true) :
    resolveCredential rt ro kubernetesNodes helmStatus helmValues
        (placeholder gap kind path) =
      if strings.HasPrefix (strings.ToLower path) "port".toList = true then
        clusterPort ro helmStatus path
      else if strings.EqualFold path "address".toList = true then
        clusterAddress (rt.LookupEnv "DOMAIN".toList) kubernetesNodes
      else if strings.EqualFold path "hostname".toList = true then
        match kubernetesNodes.find? (fun node => node.Hostname.length > 0) with
        | some node => node.Hostname
        | none => []
      else [] := by
  unfold resolveCredential
  rw [regexp.ReplaceAllStringFunc_placeholder _ gap _ _ hgap hkind hpath]
  unfold replaceTemplate
  simp only [regexp.FindStringSubmatch_placeholder gap _ _ hgap hkind hpath, lookupGroups_match]
  simp only [e1, e2, e3, e4, if_true, Bool.false_eq_true, if_false]
  by_cases hport : strings.HasPrefix (strings.ToLower path) "port".toList = true
  · rw [if_pos hport, if_pos hport]
  · rw [if_neg hport, if_neg hport]
    by_cases haddr : strings.EqualFold path "address".toList = true
    · have hhost : ¬ strings.EqualFold path "hostname".toList = true := by
        unfold strings.EqualFold at haddr ⊢
        rw [beq_iff_eq] at haddr
        rw [haddr]
        decide
      rw [if_pos haddr, if_pos haddr]
      cases hd : rt.LookupEnv "DOMAIN".toList with
      | some value => rfl
      | none =>
        simp only []
        rw [← nodeAddress_eq]
        cases nodeAddress kubernetesNodes with
        | some a => rfl
        | none => simp only [if_neg hhost]; rfl
    · rw [if_neg haddr, if_neg haddr]

theorem replaceTemplate_cluster (rt : Runtime) (ro : RangeOrder)
    (kubernetesNodes : List kubectl.Node) (helmStatus : helm.Status)
    (helmValues : GoMap GoString GoString) (gap path : GoString)
    (hgap : ∀ c ∈ gap, regexp.isSpace c = true)
    (hpath : path ≠ [] ∧ ∀ c ∈ path, regexp.isPathChar c = true) :
    resolveCredential rt ro kubernetesNodes helmStatus helmValues
        (placeholder gap lookupCluster path) =
      if strings.HasPrefix (strings.ToLower path) "port".toList = true then
        clusterPort ro helmStatus path
      else if strings.EqualFold path "address".toList = true then
        clusterAddress (rt.LookupEnv "DOMAIN".toList) kubernetesNodes
      else if strings.EqualFold path "hostname".toList = true then
        match kubernetesNodes.find? (fun node => node.Hostname.length > 0) with
        | some node => node.Hostname
        | none => []
      else [] :=
  replaceTemplate_cluster_of rt ro kubernetesNodes helmStatus helmValues gap lookupCluster path
    hgap (by decide) hpath (by decide) (by decide) (by decide) (by decide)

/-- C8: the placeholder of kind `cluster` and path `address` resolves to the `DOMAIN`
override when it is set, else to the external address of the first node that has one,
also behind nodes without one, else to the internal address of the first node that has
one, else to the empty string. -/
theorem resolveCredential_address (rt : Runtime) (ro : RangeOrder)
    (kubernetesNodes : List kubectl.Node) (helmStatus : helm.Status)
    (helmValues : GoMap GoString GoString) (gap : GoString)
    (hgap : ∀ c ∈ gap, regexp.isSpace c = true) :
    resolveCredential rt ro kubernetesNodes helmStatus helmValues
        (placeholder gap lookupCluster "address".toList) =
      clusterAddress (rt.LookupEnv "DOMAIN".toList) kubernetesNodes := by
  rw [replaceTemplate_cluster rt ro kubernetesNodes helmStatus helmValues gap _ hgap
    (by decide)]
  rfl

/-- C8, witness: the node of the tests of the repository, internal 1.1.1.1 and external
2.2.2.2, gives 2.2.2.2 without an override, also behind a node that has an internal
address only; with `DOMAIN` set the override is the answer. -/
theorem resolveCredential_address_witness :
    (∀ c ∈ " ".toList, regexp.isSpace c = true) ∧
    resolveCredential sampleRuntime RangeOrder.stored testNodes testStatus testValues
        (placeholder " ".toList lookupCluster "address".toList) =
      clusterAddress (sampleRuntime.LookupEnv "DOMAIN".toList) testNodes ∧
    clusterAddress (sampleRuntime.LookupEnv "DOMAIN".toList) testNodes = "2.2.2.2".toList ∧
    clusterAddress (sampleRuntime.LookupEnv "DOMAIN".toList) mixedNodes = "2.2.2.2".toList ∧
    clusterAddress (domainRuntime.LookupEnv "DOMAIN".toList) mixedNodes =
      "cluster.example.org".toList :=
  ⟨by decide,
   resolveCredential_address sampleRuntime RangeOrder.stored testNodes testStatus testValues
     " ".toList (by decide),
   by decide, by decide, by decide⟩

end release

/-! ### C9, C10: node ports -/

namespace strconv

theorem digitChar_props (d : Nat) (h : d < 10) :
    (Nat.digitChar d).toLower = Nat.digitChar d ∧ regexp.isWord (Nat.digitChar d) = true ∧
    Nat.digitChar d ≠ ':' ∧ Nat.digitChar d ≠ '-' ∧ (Nat.digitChar d).toNat - 48 = d := by
  interval_cases d <;> decide

theorem digitsRev_mem (fuel n : Nat) :
    ∀ ch ∈ digitsRev fuel n, ∃ d, d < 10 ∧ ch = Nat.digitChar d := by
  induction fuel generalizing n with
  | zero => intro ch h; exact absurd h (List.not_mem_nil _)
  | succ f ih =>
    intro ch h
    rw [digitsRev] at h
    rcases List.mem_cons.mp h with rfl | h'
    · exact ⟨n % 10, Nat.mod_lt _ (by decide), rfl⟩
    · split at h'
      · exact absurd h' (List.not_mem_nil _)
      · exact ih _ ch h'

theorem valueRev_digitsRev (fuel n : Nat) (h : n < fuel) : valueRev (digitsRev fuel n) = n := by
  induction fuel generalizing n with
  | zero => exact absurd h (Nat.not_lt_zero _)
  | succ f ih =>
    rw [digitsRev, valueRev, (digitChar_props (n % 10) (Nat.mod_lt _ (by decide))).2.2.2.2]
    by_cases h0 : n / 10 = 0
    · rw [if_pos h0, valueRev]; omega
    · rw [if_neg h0, ih (n / 10) (by omega)]; omega

theorem formatNat_injective (a b : Nat) (h : formatNat a = formatNat b) : a = b := by
  unfold formatNat at h
  have h' := List.reverse_injective h
  have := congrArg valueRev h'
  rwa [valueRev_digitsRev _ _ (Nat.lt_succ_self a), valueRev_digitsRev _ _ (Nat.lt_succ_self b)]
    at this

theorem formatNat_mem (n : Nat) : ∀ ch ∈ formatNat n, ∃ d, d < 10 ∧ ch = Nat.digitChar d := by
  intro ch h
  unfold formatNat at h
  exact digitsRev_mem _ _ ch (List.mem_reverse.mp h)

theorem formatNat_ne_nil (n : Nat) : formatNat n ≠ [] := by
  unfold formatNat
  rw [digitsRev]
  simp

theorem Itoa_mem (i : Int) : ∀ ch ∈ Itoa i, ch = '-' ∨ ∃ d, d < 10 ∧ ch = Nat.digitChar d := by
  intro ch h
  unfold Itoa at h
  split at h
  · rcases List.mem_cons.mp h with rfl | h'
    · exact Or.inl rfl
    · exact Or.inr (formatNat_mem _ ch h')
  · exact Or.inr (formatNat_mem _ ch h)

theorem Itoa_injective (i j : Int) (h : Itoa i = Itoa j) : i = j := by
  have hhead : ∀ n : Nat, ∀ r, formatNat n ≠ '-' :: r := by
    intro n r hn
    have hm : '-' ∈ formatNat n := by rw [hn]; exact List.mem_cons_self _ _
    obtain ⟨d, hd, e⟩ := formatNat_mem n _ hm
    exact (digitChar_props d hd).2.2.2.1 e.symm
  unfold Itoa at h
  by_cases hi : i < 0 <;> by_cases hj : j < 0
  · rw [if_pos hi, if_pos hj] at h
    have := formatNat_injective _ _ (List.cons.inj h).2
    omega
  · rw [if_pos hi, if_neg hj] at h
    exact absurd h.symm (hhead _ _)
  · rw [if_neg hi, if_pos hj] at h
    exact absurd h (hhead _ _)
  · rw [if_neg hi, if_neg hj] at h
    have := formatNat_injective _ _ h
    omega

theorem Itoa_toLower (i : Int) : (Itoa i).map Char.toLower = Itoa i := by
  conv_rhs => rw [← List.map_id (Itoa i)]
  apply List.map_congr_left
  intro ch h
  rcases Itoa_mem i ch h with rfl | ⟨d, hd, rfl⟩
  · rfl
  · exact (digitChar_props d hd).1

theorem EqualFold_Itoa (i j : Int) : strings.EqualFold (Itoa i) (Itoa j) = decide (i = j) := by
  unfold strings.EqualFold
  rw [Itoa_toLower, Itoa_toLower]
  by_cases h : i = j
  · subst h; simp
  · have : Itoa i ≠ Itoa j := fun e => h (Itoa_injective i j e)
    simp [h, this]

theorem Itoa_natCast_mem (c : Nat) :
    ∀ ch ∈ Itoa (c : Int), ∃ d, d < 10 ∧ ch = Nat.digitChar d := by
  intro ch h
  unfold Itoa at h
  rw [if_neg (by omega)] at h
  exact formatNat_mem _ ch h

theorem Itoa_natCast_ne_nil (c : Nat) : Itoa (c : Int) ≠ [] := by
  unfold Itoa
  rw [if_neg (by omega)]
  exact formatNat_ne_nil _

end strconv

namespace GoMap

variable {K V : Type} [DecidableEq K]

theorem find?_key (c : K) (l : List (K × V)) :
    (l.find? fun e => decide (e.1 = c)).map Prod.snd = lookupEntries c l := by
  induction l with
  | nil => rfl
  | cons e r ih =>
    obtain ⟨k, v⟩ := e
    by_cases h : k = c
    · simp [List.find?, lookupEntries, h]
    · simp only [List.find?, lookupEntries, h, decide_False, if_false]
      exact ih

theorem lookup_perm (c : K) (l l' : List (K × V)) (hp : l.Perm l')
    (hnd : (l'.map Prod.fst).Nodup) : lookupEntries c l = lookupEntries c l' := by
  have hnd' : (l.map Prod.fst).Nodup := (hp.map Prod.fst).nodup_iff.mpr hnd
  cases h : lookupEntries c l' with
  | none =>
    rw [lookup_eq_none_iff] at h ⊢
    exact fun hm => h ((hp.map Prod.fst).mem_iff.mp hm)
  | some v =>
    rw [lookup_eq_some_iff c v l' hnd] at h
    rw [lookup_eq_some_iff c v l hnd']
    exact hp.mem_iff.mpr h

end GoMap

theorem RangeOrder.find?_order {V : Type} (ro : RangeOrder) (m : GoMap Int V) (c : Int) :
    ((ro.order m).find? fun e => decide (e.1 = c)).map Prod.snd = m.get? c := by
  rw [GoMap.find?_key]
  exact GoMap.lookup_perm c _ _ (ro.perm m) m.nodup

namespace release

theorem portPath_isPathChar (c : Nat) :
    portPath c ≠ [] ∧ ∀ ch ∈ portPath c, regexp.isPathChar ch = true := by
  refine ⟨by simp [portPath], ?_⟩
  intro ch h
  unfold portPath at h
  rcases List.mem_append.mp h with h | h
  · exact (by decide : ∀ x ∈ "port:".toList, regexp.isPathChar x = true) ch h
  · obtain ⟨d, hd, rfl⟩ := strconv.Itoa_natCast_mem c ch h
    unfold regexp.isPathChar
    rw [(strconv.digitChar_props d hd).2.1]
    rfl

theorem Split_portPath (c : Nat) :
    strings.Split (portPath c) ":".toList = ["port".toList, strconv.Itoa (c : Int)] := by
  have h1 : ":".toList = [':'] := rfl
  have h2 : portPath c = "port".toList ++ ':' :: strconv.Itoa (c : Int) := by
    simp [portPath]
  rw [h1, strings.Split_single, h2]
  have hno : ∀ x ∈ strconv.Itoa (c : Int), ¬ (x == ':') = true := by
    intro x hx
    obtain ⟨d, hd, rfl⟩ := strconv.Itoa_natCast_mem c x hx
    simpa using (strconv.digitChar_props d hd).2.2.1
  unfold List.splitOn
  rw [List.splitOnP_first _ _ (by decide) ':' (by rfl), List.splitOnP_eq_single _ _ hno]

theorem HasPrefix_portPath (c : Nat) :
    strings.HasPrefix (strings.ToLower (portPath c)) "port".toList = true := by
  simp [portPath, strings.ToLower, strings.HasPrefix, List.isPrefixOf]

theorem clusterPort_portPath (ro : RangeOrder) (helmStatus : helm.Status) (c : Nat) :
    clusterPort ro helmStatus (portPath c) = nodePortText helmStatus.NodePorts (c : Int) := by
  unfold clusterPort nodePortText
  simp only [Split_portPath]
  have hpred : (fun e : Int × Int =>
      ["port".toList, strconv.Itoa (c : Int)].length == 1 ||
        strings.EqualFold (strconv.Itoa e.1)
          (["port".toList, strconv.Itoa (c : Int)].getD 1 [])) =
      fun e => decide (e.1 = (c : Int)) := by
    funext e
    simp [strconv.EqualFold_Itoa]
  rw [hpred, ← ro.find?_order helmStatus.NodePorts (c : Int)]
  cases List.find? (fun e : Int × Int => decide (e.1 = (c : Int)))
    (ro.order helmStatus.NodePorts) <;> rfl

/-- C9: the placeholder of kind `cluster` and path `port:c`, `c` a cluster port in
decimal, resolves to the decimal node port stored under `c` when `c` is a key of the
node-port map and to "0" when it is not, whatever the order in which the map is
visited. -/
theorem resolveCredential_port (rt : Runtime) (ro : RangeOrder)
    (kubernetesNodes : List kubectl.Node) (helmStatus : helm.Status)
    (helmValues : GoMap GoString GoString) (gap : GoString) (c : Nat)
    (hgap : ∀ ch ∈ gap, regexp.isSpace ch = true) :
    resolveCredential rt ro kubernetesNodes helmStatus helmValues
        (placeholder gap lookupCluster (portPath c)) =
      nodePortText helmStatus.NodePorts (c : Int) := by
  rw [replaceTemplate_cluster rt ro kubernetesNodes helmStatus helmValues gap _ hgap
    (portPath_isPathChar c), if_pos (HasPrefix_portPath c), clusterPort_portPath]

/-- C9, witness: with the node ports 80 to 30001 and 443 to 30002, `port:443` gives
30002 in either order of visit, and `port:81` gives 0. -/
theorem resolveCredential_port_witness :
    (∀ ch ∈ " ".toList, regexp.isSpace ch = true) ∧
    resolveCredential sampleRuntime RangeOrder.reversed testNodes twoPortStatus testValues
        (placeholder " ".toList lookupCluster (portPath 443)) =
      nodePortText twoPortStatus.NodePorts (443 : Nat) ∧
    nodePortText twoPortStatus.NodePorts (443 : Nat) = "30002".toList ∧
    nodePortText twoPortStatus.NodePorts (81 : Nat) = "0".toList ∧
    portPath 443 = "port:443".toList :=
  ⟨by decide,
   resolveCredential_port sampleRuntime RangeOrder.reversed testNodes twoPortStatus testValues
     " ".toList 443 (by decide),
   by decide, by decide, by decide⟩

theorem clusterPort_port (ro : RangeOrder) (helmStatus : helm.Status) :
    clusterPort ro helmStatus "port".toList =
      match (ro.order helmStatus.NodePorts).head? with
      | some e => strconv.Itoa e.2
      | none => "0".toList := by
  have hs : strings.Split "port".toList ":".toList = ["port".toList] := by decide
  unfold clusterPort
  simp only [hs]
  have hpred : (fun e : Int × Int =>
      ["port".toList].length == 1 ||
        strings.EqualFold (strconv.Itoa e.1) (["port".toList].getD 1 [])) =
      fun _ => true := by
    funext e
    rfl
  rw [hpred]
  cases ro.order helmStatus.NodePorts with
  | nil => rfl
  | cons e r => rfl

/-- C10: the placeholder of kind `cluster` and path `port` resolves to the decimal node
port of an entry of the node-port map when the map is not empty, to that of its one
entry when it has exactly one, and to "0" when it is empty. -/
theorem resolveCredential_anyPort (rt : Runtime) (ro : RangeOrder)
    (kubernetesNodes : List kubectl.Node) (helmStatus : helm.Status)
    (helmValues : GoMap GoString GoString) (gap : GoString)
    (hgap : ∀ ch ∈ gap, regexp.isSpace ch = true) :
    (helmStatus.NodePorts.entries ≠ [] → ∃ e ∈ helmStatus.NodePorts.entries,
      resolveCredential rt ro kubernetesNodes helmStatus helmValues
        (placeholder gap lookupCluster "port".toList) = strconv.Itoa e.2) ∧
    (∀ k v, helmStatus.NodePorts.entries = [(k, v)] →
      resolveCredential rt ro kubernetesNodes helmStatus helmValues
        (placeholder gap lookupCluster "port".toList) = strconv.Itoa v) ∧
    (helmStatus.NodePorts.entries = [] →
      resolveCredential rt ro kubernetesNodes helmStatus helmValues
        (placeholder gap lookupCluster "port".toList) = "0".toList) := by
  have hr : resolveCredential rt ro kubernetesNodes helmStatus helmValues
      (placeholder gap lookupCluster "port".toList) =
      match (ro.order helmStatus.NodePorts).head? with
      | some e => strconv.Itoa e.2
      | none => "0".toList := by
    rw [replaceTemplate_cluster rt ro kubernetesNodes helmStatus helmValues gap _ hgap
      (by decide), if_pos (by decide), clusterPort_port]
  have hperm := ro.perm helmStatus.NodePorts
  refine ⟨fun hne => ?_, fun k v hkv => ?_, fun hnil => ?_⟩
  · cases ho : ro.order helmStatus.NodePorts with
    | nil =>
      rw [ho] at hperm
      exact absurd hperm.nil_eq.symm hne
    | cons e r =>
      refine ⟨e, hperm.mem_iff.mp (by rw [ho]; exact List.mem_cons_self _ _), ?_⟩
      rw [hr, ho]
      rfl
  · rw [hkv] at hperm
    rw [hr, List.perm_singleton.mp hperm]
    rfl
  · rw [hnil] at hperm
    rw [hr, List.perm_nil.mp hperm]
    rfl

/-- C10, witness: the node ports of the tests of the repository, 80 to 30001 alone,
give 30001. -/
theorem resolveCredential_anyPort_witness :
    (∀ ch ∈ " ".toList, regexp.isSpace ch = true) ∧
    testStatus.NodePorts.entries = [(80, 30001)] ∧
    resolveCredential sampleRuntime RangeOrder.stored testNodes testStatus testValues
        (placeholder " ".toList lookupCluster "port".toList) = strconv.Itoa 30001 ∧
    strconv.Itoa 30001 = "30001".toList :=
  ⟨by decide, by decide,
   (resolveCredential_anyPort sampleRuntime RangeOrder.stored testNodes testStatus testValues
     " ".toList (by decide)).2.1 80 30001 (by decide),
   by decide⟩

end release

/-! ### C11: the chart of a service and plan -/

namespace release

/-- C11: `getChart` returns the chart of the plan when it is not empty, else the chart of
the service when it is not empty, and an error exactly when both are empty. -/
theorem getChart_resolves (service : catalog.CatalogService) (plan : catalog.CatalogPlan) :
    (plan.Chart ≠ [] → getChart service plan = (plan.Chart, none)) ∧
    (plan.Chart = [] → service.Chart ≠ [] → getChart service plan = (service.Chart, none)) ∧
    ((getChart service plan).2 ≠ none ↔ plan.Chart = [] ∧ service.Chart = []) ∧
    ((getChart service plan).2 = none →
      resolveChart service.Chart plan.Chart = some (getChart service plan).1) := by
  unfold getChart resolveChart
  by_cases hp : plan.Chart = []
  · by_cases hs : service.Chart = []
    · simp [hp, hs]
    · have hl : service.Chart.length > 0 := List.length_pos.mpr hs
      simp [hp, hs, hl]
  · have hl : plan.Chart.length > 0 := List.length_pos.mpr hp
    simp [hp, hl]

/-- C11, witness: the three cases of the test `Test_GetChart`, and a service and plan
without a chart. -/
theorem getChart_resolves_witness :
    (testPlan.Chart ≠ [] ∧ getChart testService testPlan = (testPlan.Chart, none)) ∧
    (emptyPlan.Chart = [] ∧ testService.Chart ≠ [] ∧
      getChart testService emptyPlan = ("service_chart".toList, none)) ∧
    getChart catalog.zeroService emptyPlan = ([], some "no helm chart specified".toList) :=
  ⟨⟨by decide, (getChart_resolves testService testPlan).1 (by decide)⟩,
   ⟨by decide, by decide,
    (getChart_resolves testService emptyPlan).2.1 (by decide) (by decide)⟩,
   by decide⟩

end release

/-! ### C12: the merge of service and plan -/

namespace GoMap

theorem foldl_set_lookup {V : Type} (l : List (GoString × V)) (dst : GoMap GoString V)
    (key : GoString) (hnd : (l.map Prod.fst).Nodup) :
    (l.foldl (fun t kv => t.set kv.1 kv.2) dst).get? key =
      match lookupEntries key l with
      | some value => some value
      | none => dst.get? key := by
  induction l generalizing dst with
  | nil => rfl
  | cons e r ih =>
    obtain ⟨k, v⟩ := e
    rw [List.map_cons, List.nodup_cons] at hnd
    rw [List.foldl_cons, ih _ hnd.2]
    by_cases h : k = key
    · subst h
      have hnone : lookupEntries k r = none := (lookup_eq_none_iff k r).mpr hnd.1
      simp [lookupEntries, hnone, get?_set_self]
    · have h' : key ≠ k := fun e => h e.symm
      simp only [lookupEntries, h, if_false, get?_set_ne _ _ _ _ h']

end GoMap

namespace release

theorem mergeInto_get? {V : Type} (ro : RangeOrder) (dst src : GoMap GoString V)
    (key : GoString) : (mergeInto ro dst src).get? key = mergedValue dst src key := by
  unfold mergeInto mergedValue
  rw [GoMap.foldl_set_lookup _ _ _ (ro.nodup_order src),
    GoMap.lookup_perm key _ _ (ro.perm src) src.nodup]
  rfl

theorem chartTemplates_get? (ro : RangeOrder) (service : catalog.CatalogService)
    (plan : catalog.CatalogPlan) (key : GoString) :
    (chartTemplates ro service plan).get? key =
      mergedValue service.ChartValues plan.ChartValues key := by
  unfold chartTemplates
  rw [mergeInto_get?]
  unfold mergedValue
  rw [mergeInto_get?]
  unfold mergedValue
  cases service.ChartValues.get? key <;> rfl

theorem credentialTemplates_get? (ro : RangeOrder) (service : catalog.CatalogService)
    (plan : catalog.CatalogPlan) (key : GoString) :
    (credentialTemplates ro service plan).get? key =
      mergedValue service.UserCredentials plan.UserCredentials key := by
  unfold credentialTemplates
  rw [mergeInto_get?]
  unfold mergedValue
  rw [mergeInto_get?]
  unfold mergedValue
  cases service.UserCredentials.get? key <;> rfl

end release

namespace regexp

theorem replaceAllAux_literal {σ : Type} (repl : σ → GoString → GoString × σ) (st : σ)
    (src : GoString) (h : FindStringSubmatch src = []) :
    replaceAllAux repl 0 st src = (src, st) := by
  induction src with
  | nil => rfl
  | cons c cs ih =>
    rw [FindStringSubmatch] at h
    cases hm : matchHere (c :: cs) with
    | some m =>
      rw [hm] at h
      obtain ⟨type, path, rest⟩ := m
      exact absurd h (List.cons_ne_nil _ _)
    | none =>
      rw [hm] at h
      rw [replaceAllAux]
      simp only [hm, ih h]

theorem ReplaceAllStringFuncM_literal {σ : Type} (repl : σ → GoString → GoString × σ)
    (st : σ) (src : GoString) (h : FindStringSubmatch src = []) :
    ReplaceAllStringFuncM src repl st = (src, st) :=
  replaceAllAux_literal repl st src h

end regexp

namespace release

theorem chartValueStep_get? (rt : Runtime) (acc : GoMap GoString GoString × SecretCache)
    (key template : GoString) :
    (chartValueStep rt acc (key, template)).1.get? key =
      match presentValue
        (regexp.ReplaceAllStringFuncM template (chartValueLookup rt) acc.2).1 with
      | some value => some value
      | none => acc.1.get? key := by
  unfold chartValueStep presentValue
  simp only []
  split
  · rw [GoMap.get?_set_self]
  · rfl

theorem foldl_chartValueStep_get? (rt : Runtime) (ts : List (GoString × GoString))
    (acc : GoMap GoString GoString × SecretCache) (key template : GoString)
    (hnd : (ts.map Prod.fst).Nodup) (hmem : (key, template) ∈ ts) (hv : acc.2.valid rt) :
    ∃ cache : SecretCache, cache.valid rt ∧
      (ts.foldl (chartValueStep rt) acc).1.get? key =
        match presentValue
          (regexp.ReplaceAllStringFuncM template (chartValueLookup rt) cache).1 with
        | some value => some value
        | none => acc.1.get? key := by
  induction ts generalizing acc with
  | nil => exact absurd hmem (List.not_mem_nil _)
  | cons kv r ih =>
    rw [List.map_cons, List.nodup_cons] at hnd
    rcases List.mem_cons.mp hmem with hhead | htail
    · subst hhead
      refine ⟨acc.2, hv, ?_⟩
      rw [List.foldl_cons, foldl_chartValueStep_other rt r _ key hnd.1, chartValueStep_get?]
    · have hne : key ≠ kv.1 := by
        rintro rfl
        exact hnd.1 (List.mem_map.mpr ⟨_, htail, rfl⟩)
      obtain ⟨cache, hc, he⟩ := ih (chartValueStep rt acc kv) hnd.2 htail
        (chartValueStep_leads rt acc kv hv).1
      refine ⟨cache, hc, ?_⟩
      rw [List.foldl_cons, he, chartValueStep_other rt acc kv key hne]

theorem getChartValues_get? (rt : Runtime) (ro : RangeOrder)
    (service : catalog.CatalogService) (plan : catalog.CatalogPlan) (key template : GoString)
    (h : (chartTemplates ro service plan).get? key = some template) :
    ∃ cache : SecretCache, cache.valid rt ∧
      (getChartValues rt ro service plan).get? key =
        presentValue (regexp.ReplaceAllStringFuncM template (chartValueLookup rt) cache).1 := by
  obtain ⟨cache, hc, he⟩ := foldl_chartValueStep_get? rt _
    (GoMap.empty, ⟨GoMap.empty, GoMap.empty, 0⟩) key template (ro.nodup_order _)
    ((ro.mem_order _ _ _).mpr h) (valid_initial rt)
  refine ⟨cache, hc, ?_⟩
  unfold getChartValues resolveChartValues
  rw [he]
  cases presentValue (regexp.ReplaceAllStringFuncM template (chartValueLookup rt) cache).1 <;>
    rfl

theorem getChartValues_get?_none (rt : Runtime) (ro : RangeOrder)
    (service : catalog.CatalogService) (plan : catalog.CatalogPlan) (key : GoString)
    (h : (chartTemplates ro service plan).get? key = none) :
    (getChartValues rt ro service plan).get? key = none := by
  have hk : key ∉ (ro.order (chartTemplates ro service plan)).map Prod.fst := by
    intro hm
    obtain ⟨kv, hkv, rfl⟩ := List.mem_map.mp hm
    have := (ro.mem_order _ kv.1 kv.2).mp hkv
    rw [h] at this
    exact absurd this (by simp)
  unfold getChartValues resolveChartValues
  rw [foldl_chartValueStep_other rt _ _ key hk]
  rfl

theorem getUserCredentials_get?_none (rt : Runtime) (ro : RangeOrder)
    (service : catalog.CatalogService) (plan : catalog.CatalogPlan)
    (kubernetesNodes : List kubectl.Node) (helmStatus : helm.Status)
    (helmValues : GoMap GoString GoString) (key : GoString)
    (h : (credentialTemplates ro service plan).get? key = none) :
    (getUserCredentials rt ro service plan kubernetesNodes helmStatus helmValues).get? key =
      none := by
  have hk : key ∉ (ro.order (credentialTemplates ro service plan)).map Prod.fst := by
    intro hm
    obtain ⟨kv, hkv, rfl⟩ := List.mem_map.mp hm
    have := (ro.mem_order _ kv.1 kv.2).mp hkv
    rw [h] at this
    exact absurd this (by simp)
  unfold getUserCredentials
  rw [foldl_userCredentialStep_other _ _ _ key hk]
  rfl

end release

namespace release

theorem mergedValue_mem {V : Type} (service plan : GoMap GoString V) (key : GoString)
    (value : V) (h : mergedValue service plan key = some value) :
    (key, value) ∈ service.entries ∨ (key, value) ∈ plan.entries := by
  unfold mergedValue at h
  cases hp : plan.get? key with
  | some v =>
    rw [hp] at h
    cases h
    exact Or.inr ((GoMap.get?_eq_some_iff _ _ _).mp hp)
  | none =>
    rw [hp] at h
    exact Or.inl ((GoMap.get?_eq_some_iff _ _ _).mp h)

/-- C12: when the chart values of the service and of the plan are non-empty strings
without a lookup placeholder, `getChartValues` returns their key-by-key merge: under
every key the value of the plan when the plan has the key, else the value of the
service, and nothing under a key neither has.  The same merge decides which template
`getUserCredentials` resolves under a key. -/
theorem getChartValues_merge (rt : Runtime) (ro : RangeOrder)
    (service : catalog.CatalogService) (plan : catalog.CatalogPlan)
    (hs : ∀ kv ∈ service.ChartValues.entries,
      kv.2 ≠ [] ∧ regexp.FindStringSubmatch kv.2 = [])
    (hp : ∀ kv ∈ plan.ChartValues.entries,
      kv.2 ≠ [] ∧ regexp.FindStringSubmatch kv.2 = []) :
    (∀ key, (getChartValues rt ro service plan).get? key =
      mergedValue service.ChartValues plan.ChartValues key) ∧
    (∀ (kubernetesNodes : List kubectl.Node) (helmStatus : helm.Status)
      (helmValues : GoMap GoString GoString) (key : GoString),
      (getUserCredentials rt ro service plan kubernetesNodes helmStatus helmValues).get? key =
        (mergedValue service.UserCredentials plan.UserCredentials key).bind
          (resolvedValue (resolveCredential rt ro kubernetesNodes helmStatus helmValues))) := by
  refine ⟨fun key => ?_, fun kubernetesNodes helmStatus helmValues key => ?_⟩
  · cases hm : mergedValue service.ChartValues plan.ChartValues key with
    | none =>
      exact getChartValues_get?_none rt ro service plan key
        ((chartTemplates_get? ro service plan key).trans hm)
    | some template =>
      obtain ⟨cache, -, he⟩ := getChartValues_get? rt ro service plan key template
        ((chartTemplates_get? ro service plan key).trans hm)
      have hlit : template ≠ [] ∧ regexp.FindStringSubmatch template = [] := by
        rcases mergedValue_mem _ _ key template hm with h | h
        · exact hs _ h
        · exact hp _ h
      rw [he, regexp.ReplaceAllStringFuncM_literal _ _ _ hlit.2]
      unfold presentValue
      rw [if_pos (List.length_pos.mpr hlit.1)]
  · cases hm : mergedValue service.UserCredentials plan.UserCredentials key with
    | none =>
      exact getUserCredentials_get?_none rt ro service plan kubernetesNodes helmStatus
        helmValues key ((credentialTemplates_get? ro service plan key).trans hm)
    | some template =>
      exact getUserCredentials_get? rt ro service plan kubernetesNodes helmStatus helmValues
        key template ((credentialTemplates_get? ro service plan key).trans hm)

/-- C12, witness: with `foo` = `bar` and `size` = `small` in the service, and `size` =
`large` and `tier` = `gold` in the plan, `foo` resolves to `bar`, `size` to `large`,
`tier` to `gold`, and no other key is present. -/
theorem getChartValues_merge_witness :
    ((∀ kv ∈ literalService.ChartValues.entries,
        kv.2 ≠ [] ∧ regexp.FindStringSubmatch kv.2 = []) ∧
      (∀ kv ∈ literalPlan.ChartValues.entries,
        kv.2 ≠ [] ∧ regexp.FindStringSubmatch kv.2 = [])) ∧
    (getChartValues sampleRuntime RangeOrder.reversed literalService literalPlan).get?
        "foo".toList =
      mergedValue literalService.ChartValues literalPlan.ChartValues "foo".toList ∧
    mergedValue literalService.ChartValues literalPlan.ChartValues "foo".toList =
      some "bar".toList ∧
    mergedValue literalService.ChartValues literalPlan.ChartValues "size".toList =
      some "large".toList ∧
    mergedValue literalService.ChartValues literalPlan.ChartValues "tier".toList =
      some "gold".toList ∧
    (getChartValues sampleRuntime RangeOrder.reversed literalService literalPlan).size = 3 :=
  ⟨⟨by decide, by decide⟩,
   (getChartValues_merge sampleRuntime RangeOrder.reversed literalService literalPlan
     (by decide) (by decide)).1 "foo".toList,
   by decide, by decide, by decide, by decide⟩

end release

/-! ### C13: deleting a release -/

namespace release

/-- C13: `release.Delete` returns success when the delete command succeeds, and also when
it fails and the existence check that follows reports, without error, that the
release is absent; when the delete command fails and the release exists or the
existence check has an error, it returns the error of the delete command. -/
theorem Delete_idempotent {W : Type} (host : Host W) (w : W) (id name : GoString)
    (hname : getName host.toRuntime id = some name) :
    ((helm.Delete host w name).1 = none →
      Delete host w id = some (none, (helm.Delete host w name).2)) ∧
    ((helm.Delete host w name).1 ≠ none →
      (helm.Exists host (helm.Delete host w name).2 name).1 = (false, none) →
      Delete host w id = some (none, (helm.Exists host (helm.Delete host w name).2 name).2)) ∧
    ((helm.Delete host w name).1 ≠ none →
      ((helm.Exists host (helm.Delete host w name).2 name).1.1 = true ∨
        (helm.Exists host (helm.Delete host w name).2 name).1.2 ≠ none) →
      Delete host w id = some ((helm.Delete host w name).1,
        (helm.Exists host (helm.Delete host w name).2 name).2)) := by
  unfold Delete
  rw [hname, Option.map_some']
  refine ⟨fun hd => ?_, fun hd he => ?_, fun hd he => ?_⟩
  · simp only []
    rw [if_neg (not_not.mpr hd)]
  · simp only []
    rw [if_pos hd, if_pos (by rw [he]; exact ⟨rfl, rfl⟩)]
  · simp only []
    have hne : ¬ ((helm.Exists host (helm.Delete host w name).2 name).1.2 = none ∧
        (helm.Exists host (helm.Delete host w name).2 name).1.1 = false) := by
      rintro ⟨h1, h2⟩
      rcases he with h | h
      · rw [h2] at h; exact absurd h (by decide)
      · exact h h1
    rw [if_pos hd, if_neg hne]

/-- C13, witness: deleting the release `helmi-db` when no release exists is a success,
although the delete command fails; deleting it when it exists is a success too. -/
theorem Delete_idempotent_witness :
    (getName sampleHost.toRuntime "helmi-db".toList = some "helmi-db".toList ∧
      (helm.Delete sampleHost [] "helmi-db".toList).1 ≠ none ∧
      (helm.Exists sampleHost (helm.Delete sampleHost [] "helmi-db".toList).2
        "helmi-db".toList).1 = (false, none)) ∧
    Delete sampleHost [] "helmi-db".toList =
      some (none, (helm.Exists sampleHost (helm.Delete sampleHost [] "helmi-db".toList).2
        "helmi-db".toList).2) ∧
    Delete sampleHost ["helmi-db".toList] "helmi-db".toList = some (none, []) :=
  ⟨by decide,
   (Delete_idempotent sampleHost [] "helmi-db".toList "helmi-db".toList (by decide)).2.1
     (by decide) (by decide),
   by decide⟩

end release

/-! ### C14: which keys the chart values have -/

namespace release

theorem presentValue_ne_nil {r value : GoString} (h : presentValue r = some value) :
    value ≠ [] ∧ value = r := by
  unfold presentValue at h
  split at h
  · rename_i hl
    cases h
    exact ⟨List.length_pos.mp hl, rfl⟩
  · exact absurd h (by simp)

theorem presentValue_isSome (r : GoString) : (presentValue r).isSome = true ↔ r ≠ [] := by
  unfold presentValue
  by_cases h : r = []
  · subst h; simp
  · simp [h, List.length_pos.mpr h]

/-- C14: every value of the map `getChartValues` returns is a non-empty string under a key
of the merged templates; and a key of the merged templates is present in the result
exactly when its template resolves to a non-empty string in the caches the loop has
reached, the value then being that string. -/
theorem getChartValues_present (rt : Runtime) (ro : RangeOrder)
    (service : catalog.CatalogService) (plan : catalog.CatalogPlan) :
    (∀ key value, (getChartValues rt ro service plan).get? key = some value →
      value ≠ [] ∧ ((chartTemplates ro service plan).get? key).isSome = true) ∧
    (∀ key template, (chartTemplates ro service plan).get? key = some template →
      ∃ cache : SecretCache, cache.valid rt ∧
        (((getChartValues rt ro service plan).get? key).isSome = true ↔
          (regexp.ReplaceAllStringFuncM template (chartValueLookup rt) cache).1 ≠ []) ∧
        ∀ value, (getChartValues rt ro service plan).get? key = some value →
          value = (regexp.ReplaceAllStringFuncM template (chartValueLookup rt) cache).1) := by
  refine ⟨fun key value hget => ?_, fun key template ht => ?_⟩
  · cases ht : (chartTemplates ro service plan).get? key with
    | none =>
      rw [getChartValues_get?_none rt ro service plan key ht] at hget
      exact absurd hget (by simp)
    | some template =>
      obtain ⟨cache, -, he⟩ := getChartValues_get? rt ro service plan key template ht
      rw [he] at hget
      exact ⟨(presentValue_ne_nil hget).1, rfl⟩
  · obtain ⟨cache, hc, he⟩ := getChartValues_get? rt ro service plan key template ht
    refine ⟨cache, hc, ?_, ?_⟩
    · rw [he]; exact presentValue_isSome _
    · intro value hv
      rw [he] at hv
      exact (presentValue_ne_nil hv).2

/-- C14, witness: of the three keys of `partialService` the one whose template reads an
environment variable that is not set is left out, and the two values present are not
empty. -/
theorem getChartValues_present_witness :
    (getChartValues sampleRuntime RangeOrder.stored partialService emptyPlan).get?
        "foo".toList = some "bar".toList ∧
    ("bar".toList ≠ [] ∧
      ((chartTemplates RangeOrder.stored partialService emptyPlan).get? "foo".toList).isSome =
        true) ∧
    (getChartValues sampleRuntime RangeOrder.stored partialService emptyPlan).get?
        "region".toList = none ∧
    ((getChartValues sampleRuntime RangeOrder.stored partialService emptyPlan).entries.map
        Prod.fst) = ["foo".toList, "password".toList] :=
  ⟨by decide,
   (getChartValues_present sampleRuntime RangeOrder.stored partialService emptyPlan).1
     "foo".toList "bar".toList (by decide),
   by decide, by decide⟩

end release

/-! ### C15: list templates -/

namespace release

theorem filterMap_resolveItem (resolve : GoString → GoString) (items : List catalog.Value) :
    items.filterMap (resolveItem resolve) = resolvedList resolve items := by
  unfold resolvedList
  induction items with
  | nil => rfl
  | cons item rest ih =>
    cases item with
    | str s =>
      simp only [List.filterMap_cons, resolveItem, stringItems, List.map_cons, List.filter_cons]
      by_cases h : resolve s = []
      · have hl : ¬ (resolve s).length > 0 := by rw [h]; decide
        simp [hl, h, ih]
      · have hl : (resolve s).length > 0 := List.length_pos.mpr h
        simp [hl, h, ih]
    | list l => simpa [List.filterMap_cons, resolveItem, stringItems] using ih
    | other => simpa [List.filterMap_cons, resolveItem, stringItems] using ih

theorem resolvedList_eq_nil (resolve : GoString → GoString) (items : List catalog.Value) :
    resolvedList resolve items = [] ↔ ∀ s ∈ stringItems items, resolve s = [] := by
  unfold resolvedList
  rw [List.filter_eq_nil_iff]
  simp

/-- C15: under a key whose template is a list, `getUserCredentials` holds the list of the
resolved string elements in their order, each resolved on its own and the empty
results dropped; the key is left out exactly when every element resolves to the empty
string, and so is a key whose string template resolves to the empty string. -/
theorem getUserCredentials_list (rt : Runtime) (ro : RangeOrder)
    (service : catalog.CatalogService) (plan : catalog.CatalogPlan)
    (kubernetesNodes : List kubectl.Node) (helmStatus : helm.Status)
    (helmValues : GoMap GoString GoString) :
    (∀ key items,
      (credentialTemplates ro service plan).get? key = some (catalog.Value.list items) →
      ((getUserCredentials rt ro service plan kubernetesNodes helmStatus helmValues).get? key =
          if resolvedList (resolveCredential rt ro kubernetesNodes helmStatus helmValues)
              items = [] then none
          else some (Credential.strs
            (resolvedList (resolveCredential rt ro kubernetesNodes helmStatus helmValues)
              items))) ∧
      ((getUserCredentials rt ro service plan kubernetesNodes helmStatus helmValues).get? key =
          none ↔
        ∀ s ∈ stringItems items,
          resolveCredential rt ro kubernetesNodes helmStatus helmValues s = [])) ∧
    (∀ key templateString,
      (credentialTemplates ro service plan).get? key =
        some (catalog.Value.str templateString) →
      resolveCredential rt ro kubernetesNodes helmStatus helmValues templateString = [] →
      (getUserCredentials rt ro service plan kubernetesNodes helmStatus helmValues).get? key =
        none) := by
  refine ⟨fun key items h => ?_, fun key templateString h he => ?_⟩
  · have hg := getUserCredentials_get? rt ro service plan kubernetesNodes helmStatus
      helmValues key _ h
    have hr : (getUserCredentials rt ro service plan kubernetesNodes helmStatus
        helmValues).get? key =
        if resolvedList (resolveCredential rt ro kubernetesNodes helmStatus helmValues)
            items = [] then none
        else some (Credential.strs
          (resolvedList (resolveCredential rt ro kubernetesNodes helmStatus helmValues)
            items)) := by
      rw [hg]
      simp only [resolvedValue, filterMap_resolveItem]
      by_cases hn : resolvedList (resolveCredential rt ro kubernetesNodes helmStatus
          helmValues) items = []
      · rw [hn]; rfl
      · rw [if_pos (List.length_pos.mpr hn), if_neg hn]
    refine ⟨hr, ?_⟩
    rw [hr, ← resolvedList_eq_nil]
    by_cases hn : resolvedList (resolveCredential rt ro kubernetesNodes helmStatus
        helmValues) items = []
    · simp [hn]
    · simp [hn]
  · rw [getUserCredentials_get? rt ro service plan kubernetesNodes helmStatus helmValues
      key _ h]
    simp only [resolvedValue, he]
    rfl

/-- C15, witness: of the three elements of the list template of `listService` the second
resolves to the empty string: the key holds the other two in their order; and the key
whose string template resolves to the empty string is left out. -/
theorem getUserCredentials_list_witness :
    (credentialTemplates RangeOrder.stored listService emptyPlan).get? "gone".toList =
      some (catalog.Value.str (placeholder " ".toList lookupValue "missing".toList)) ∧
    resolveCredential sampleRuntime RangeOrder.stored testNodes testStatus testValues
      (placeholder " ".toList lookupValue "missing".toList) = [] ∧
    (getUserCredentials sampleRuntime RangeOrder.stored listService emptyPlan testNodes
      testStatus testValues).get? "gone".toList = none ∧
    (getUserCredentials sampleRuntime RangeOrder.stored listService emptyPlan testNodes
      testStatus testValues).get? "hosts".toList =
      some (Credential.strs ["bar".toList, "literal".toList]) :=
  ⟨rfl, by decide,
   (getUserCredentials_list sampleRuntime RangeOrder.stored listService emptyPlan testNodes
     testStatus testValues).2 "gone".toList _ rfl (by decide),
   by decide⟩

end release

/-! ### C16, C17: the chart version, and installing without a chart -/

namespace release

/-- C16: `getChartVersion` returns the version of the plan when it is not empty, else the
version of the service when it is not empty.  When both are empty and a chart is
declared, `release.Install` still runs the install command, with the empty version:
its result is that of `helm.Install` called with the version "". -/
theorem getChartVersion_resolves {W : Type} (host : Host W) (ro : RangeOrder) (w : W)
    (c : catalog.Catalog) (serviceId planId id name : GoString) (acceptsIncomplete : Bool)
    (service : catalog.CatalogService) (plan : catalog.CatalogPlan) :
    (plan.ChartVersion ≠ [] → getChartVersion service plan = (plan.ChartVersion, none)) ∧
    (plan.ChartVersion = [] → service.ChartVersion ≠ [] →
      getChartVersion service plan = (service.ChartVersion, none)) ∧
    (getName host.toRuntime id = some name →
      (getChart (catalog.GetService host c serviceId)
        (catalog.GetServicePlan host c serviceId planId)).2 = none →
      (catalog.GetServicePlan host c serviceId planId).ChartVersion = [] →
      (catalog.GetService host c serviceId).ChartVersion = [] →
      Install host ro w c serviceId planId id acceptsIncomplete =
        some (helm.Install host ro w name
          (getChart (catalog.GetService host c serviceId)
            (catalog.GetServicePlan host c serviceId planId)).1 []
          (getChartValues host.toRuntime ro (catalog.GetService host c serviceId)
            (catalog.GetServicePlan host c serviceId planId)) acceptsIncomplete)) := by
  refine ⟨fun hp => ?_, fun hp hs => ?_, fun hname hchart hpv hsv => ?_⟩
  · unfold getChartVersion
    rw [if_pos (List.length_pos.mpr hp)]
  · unfold getChartVersion
    rw [hp, if_neg (by decide), if_pos (List.length_pos.mpr hs)]
  · unfold Install
    rw [hname, Option.map_some']
    simp only []
    rw [if_neg (not_not.mpr hchart)]
    have hv : getChartVersion (catalog.GetService host c serviceId)
        (catalog.GetServicePlan host c serviceId planId) =
        ([], some "no helm chart version specified".toList) := by
      unfold getChartVersion
      rw [hpv, hsv]
      rfl
    rw [hv]
    rfl

/-- C16, witness: service and plan of the tests, both with version 1.2.3, give 1.2.3; and
installing `versionlessService` runs the install command without a version option,
after which the release exists. -/
theorem getChartVersion_resolves_witness :
    (testPlan.ChartVersion ≠ [] ∧
      getChartVersion testService testPlan = ("1.2.3".toList, none)) ∧
    (getName sampleHost.toRuntime "helmi-db".toList = some "helmi-db".toList ∧
      Install sampleHost RangeOrder.stored [] sampleCatalog "db".toList "small".toList
        "helmi-db".toList false =
      some (helm.Install sampleHost RangeOrder.stored [] "helmi-db".toList
        "stable/db".toList [] GoMap.empty false)) ∧
    helm.installArguments "helmi-db".toList "stable/db".toList [] [] false =
      ["install".toList, "stable/db".toList, "--name".toList, "helmi-db".toList,
        "--wait".toList] ∧
    helm.Install sampleHost RangeOrder.stored [] "helmi-db".toList "stable/db".toList []
      GoMap.empty false = (none, ["helmi-db".toList]) :=
  ⟨⟨by decide,
    (getChartVersion_resolves sampleHost RangeOrder.stored [] sampleCatalog "db".toList
      "small".toList "helmi-db".toList "helmi-db".toList false testService testPlan).1
      (by decide)⟩,
   ⟨by decide,
    (getChartVersion_resolves sampleHost RangeOrder.stored [] sampleCatalog "db".toList
      "small".toList "helmi-db".toList "helmi-db".toList false testService testPlan).2.2
      (by decide) (by decide) (by decide) (by decide)⟩,
   by decide, by decide⟩

/-- C17: when neither the plan nor the service the ids resolve to declares a chart,
`release.Install` returns the error of `getChart` and leaves the world as it was,
whatever the deployment tool would do: no command is run.  Ids that no service of the
catalog has resolve to the zero values, which declare no chart. -/
theorem Install_chartNotSpecified {W : Type} (host : Host W) (ro : RangeOrder) (w : W)
    (c : catalog.Catalog) (serviceId planId id name : GoString) (acceptsIncomplete : Bool)
    (hname : getName host.toRuntime id = some name) :
    ((catalog.GetServicePlan host c serviceId planId).Chart = [] →
      (catalog.GetService host c serviceId).Chart = [] →
      Install host ro w c serviceId planId id acceptsIncomplete =
        some (some "no helm chart specified".toList, w)) ∧
    ((∀ s ∈ c.Services, host.EqualFold s.Id serviceId = false) →
      Install host ro w c serviceId planId id acceptsIncomplete =
        some (some "no helm chart specified".toList, w)) := by
  have key : (catalog.GetServicePlan host c serviceId planId).Chart = [] →
      (catalog.GetService host c serviceId).Chart = [] →
      Install host ro w c serviceId planId id acceptsIncomplete =
        some (some "no helm chart specified".toList, w) := by
    intro hp hs
    have hc : getChart (catalog.GetService host c serviceId)
        (catalog.GetServicePlan host c serviceId planId) =
        ([], some "no helm chart specified".toList) := by
      unfold getChart
      rw [hp, hs]
      rfl
    unfold Install
    rw [hname, Option.map_some']
    simp only [hc]
    rfl
  refine ⟨key, fun hnone => ?_⟩
  have hfind : c.Services.find? (fun s => host.EqualFold s.Id serviceId) = none := by
    rw [List.find?_eq_none]
    intro s hs
    simp [hnone s hs]
  have hplan : ∀ l : List catalog.CatalogService,
      (∀ s ∈ l, host.EqualFold s.Id serviceId = false) →
      catalog.findPlan host serviceId planId l = none := by
    intro l
    induction l with
    | nil => intro _; rfl
    | cons s r ih =>
      intro h
      rw [catalog.findPlan, if_neg (by simp [h s (List.mem_cons_self _ _)])]
      exact ih (fun x hx => h x (List.mem_cons_of_mem _ hx))
  apply key
  · have hzero : catalog.GetServicePlan host c serviceId planId = catalog.zeroPlan := by
      unfold catalog.GetServicePlan
      simp only [hplan c.Services hnone, Option.getD_none]
    exact hzero ▸ rfl
  · have hzero : catalog.GetService host c serviceId = catalog.zeroService := by
      unfold catalog.GetService
      simp only [hfind]
    exact hzero ▸ rfl

/-- C17, witness: in `sampleCatalog` the service `queue` declares no chart, and no service
has the id `nope`: both installs return the error and leave the world empty. -/
theorem Install_chartNotSpecified_witness :
    (getName sampleHost.toRuntime "helmi-q".toList = some "helmi-q".toList ∧
      (catalog.GetServicePlan sampleHost sampleCatalog "queue".toList "small".toList).Chart =
        [] ∧
      (catalog.GetService sampleHost sampleCatalog "queue".toList).Chart = [] ∧
      (∀ s ∈ sampleCatalog.Services, sampleHost.EqualFold s.Id "nope".toList = false)) ∧
    Install sampleHost RangeOrder.stored [] sampleCatalog "queue".toList "small".toList
      "helmi-q".toList false = some (some "no helm chart specified".toList, []) ∧
    Install sampleHost RangeOrder.stored [] sampleCatalog "nope".toList "small".toList
      "helmi-q".toList false = some (some "no helm chart specified".toList, []) :=
  ⟨by decide,
   (Install_chartNotSpecified sampleHost RangeOrder.stored [] sampleCatalog "queue".toList
     "small".toList "helmi-q".toList "helmi-q".toList false (by decide)).1
     (by decide) (by decide),
   (Install_chartNotSpecified sampleHost RangeOrder.stored [] sampleCatalog "nope".toList
     "small".toList "helmi-q".toList "helmi-q".toList false (by decide)).2 (by decide)⟩

end release

/-! ### C18: the answer to a failed install -/

namespace app

/-- C18: when the request is well-formed and `release.Install` fails, the existence check
is made and `createInstance` answers 409 Conflict exactly when that check reports,
without error, that the release exists; in every other case it answers 500. -/
theorem createInstance_conflict {W : Type} (host : Host W) (ro : RangeOrder) (w w₁ : W)
    (c : catalog.Catalog) (serviceId : GoString) (acceptsIncomplete decoderErr : Bool)
    (data : requestData) (err : GoError)
    (hreq : ¬ (decoderErr = true ∨ data.ServiceId.length = 0 ∨ data.PlanId.length = 0))
    (hfail : release.Install host ro w c data.ServiceId data.PlanId serviceId
      acceptsIncomplete = some (some err, w₁)) :
    ∃ existence, release.Exists host w₁ serviceId = some existence ∧
      createInstance host ro w c serviceId acceptsIncomplete decoderErr data =
        some (if existence.1.2 = none ∧ existence.1.1 = true then StatusConflict
          else StatusInternalServerError, existence.2) ∧
      ∀ code w₂, createInstance host ro w c serviceId acceptsIncomplete decoderErr data =
          some (code, w₂) →
        (code = StatusConflict ↔ existence.1.2 = none ∧ existence.1.1 = true) ∧
        (code ≠ StatusConflict → code = StatusInternalServerError) := by
  have hname : ∃ name, release.getName host.toRuntime serviceId = some name := by
    unfold release.Install at hfail
    obtain ⟨name, hn, -⟩ := Option.map_eq_some'.mp hfail
    exact ⟨name, hn⟩
  obtain ⟨name, hn⟩ := hname
  have hex : release.Exists host w₁ serviceId = some (helm.Exists host w₁ name) := by
    unfold release.Exists
    rw [hn, Option.map_some']
  have hcreate : createInstance host ro w c serviceId acceptsIncomplete decoderErr data =
      some (if (helm.Exists host w₁ name).1.2 = none ∧ (helm.Exists host w₁ name).1.1 = true
        then StatusConflict else StatusInternalServerError, (helm.Exists host w₁ name).2) := by
    unfold createInstance
    rw [if_neg hreq, hfail, Option.some_bind]
    simp only []
    rw [if_pos (by simp), hex, Option.map_some']
    by_cases h : (helm.Exists host w₁ name).1.2 = none ∧ (helm.Exists host w₁ name).1.1 = true
    · rw [if_pos h, if_pos h]
    · rw [if_neg h, if_neg h]
  refine ⟨helm.Exists host w₁ name, hex, hcreate, fun code w₂ hcode => ?_⟩
  rw [hcreate, Option.some.injEq, Prod.mk.injEq] at hcode
  obtain ⟨hc, -⟩ := hcode
  by_cases h : (helm.Exists host w₁ name).1.2 = none ∧ (helm.Exists host w₁ name).1.1 = true
  · rw [if_pos h] at hc
    exact ⟨⟨fun _ => h, fun _ => hc.symm⟩, fun hne => absurd hc.symm hne⟩
  · rw [if_neg h] at hc
    subst hc
    have hne : ¬ StatusInternalServerError = StatusConflict := by decide
    exact ⟨⟨fun h9 => absurd h9 hne, fun h9 => absurd h9 h⟩, fun _ => rfl⟩

/-- C18, witness: installing `helmi-db` a second time fails; the release exists, and the
answer is 409.  Installing the service without a chart fails too; the release does not
exist, and the answer is 500. -/
theorem createInstance_conflict_witness :
    (¬ (false = true ∨ sampleRequest.ServiceId.length = 0 ∨ sampleRequest.PlanId.length = 0) ∧
      release.Install sampleHost RangeOrder.stored ["helmi-db".toList] release.sampleCatalog
        sampleRequest.ServiceId sampleRequest.PlanId "helmi-db".toList false =
        some (some "Error: a release with this name already exists".toList,
          ["helmi-db".toList])) ∧
    (∃ existence, release.Exists sampleHost ["helmi-db".toList] "helmi-db".toList =
        some existence ∧
      createInstance sampleHost RangeOrder.stored ["helmi-db".toList] release.sampleCatalog
          "helmi-db".toList false false sampleRequest =
        some (if existence.1.2 = none ∧ existence.1.1 = true then StatusConflict
          else StatusInternalServerError, existence.2) ∧
      ∀ code w₂, createInstance sampleHost RangeOrder.stored ["helmi-db".toList]
          release.sampleCatalog "helmi-db".toList false false sampleRequest =
          some (code, w₂) →
        (code = StatusConflict ↔ existence.1.2 = none ∧ existence.1.1 = true) ∧
        (code ≠ StatusConflict → code = StatusInternalServerError)) ∧
    createInstance sampleHost RangeOrder.stored ["helmi-db".toList] release.sampleCatalog
      "helmi-db".toList false false sampleRequest = some (409, ["helmi-db".toList]) ∧
    createInstance sampleHost RangeOrder.stored [] release.sampleCatalog
      "helmi-q".toList false false ⟨"queue".toList, "small".toList⟩ = some (500, []) ∧
    createInstance sampleHost RangeOrder.stored [] release.sampleCatalog
      "helmi-db".toList false false sampleRequest = some (200, ["helmi-db".toList]) :=
  ⟨⟨by decide, by decide⟩,
   createInstance_conflict sampleHost RangeOrder.stored ["helmi-db".toList]
     ["helmi-db".toList] release.sampleCatalog "helmi-db".toList false false sampleRequest
     "Error: a release with this name already exists".toList (by decide) (by decide),
   by decide, by decide, by decide⟩

end app

/-! ### C19: placeholders the chart values do not support -/

namespace regexp

theorem matchHere_not_brace (c : Char) (cs : GoString) (h : c ≠ '\x7b') :
    matchHere (c :: cs) = none := by
  unfold matchHere
  have : lit "\x7b\x7b".toList (c :: cs) = none := by
    unfold lit
    have hp : ("\x7b\x7b".toList).isPrefixOf (c :: cs) = false := by
      have e : "\x7b\x7b".toList = ['\x7b', '\x7b'] := rfl
      rw [e]
      simp [List.isPrefixOf, Ne.symm h]
    rw [hp]
    rfl
  rw [this]
  rfl

theorem replaceAllAux_text {σ : Type} (repl : σ → GoString → GoString × σ) (st : σ)
    (s rest : GoString) (h : '\x7b' ∉ s) :
    replaceAllAux repl 0 st (s ++ rest) =
      (s ++ (replaceAllAux repl 0 st rest).1, (replaceAllAux repl 0 st rest).2) := by
  induction s with
  | nil => rfl
  | cons c cs ih =>
    have hc : c ≠ '\x7b' := fun e => h (e ▸ List.mem_cons_self _ _)
    have hcs : '\x7b' ∉ cs := fun e => h (List.mem_cons_of_mem _ e)
    rw [List.cons_append, replaceAllAux]
    simp only [matchHere_not_brace c (cs ++ rest) hc, ih hcs]
    rfl

end regexp

namespace release

theorem chartValueLookup_unsupported (rt : Runtime) (st : SecretCache)
    (gap kind path : GoString) (hkind : kind = lookupValue ∨ kind = lookupCluster)
    (hgap : ∀ c ∈ gap, regexp.isSpace c = true)
    (hpath : path ≠ [] ∧ ∀ c ∈ path, regexp.isPathChar c = true) :
    chartValueLookup rt st (placeholder gap kind path) = ([], st) := by
  have hw : kind ≠ [] ∧ ∀ c ∈ kind, regexp.isWord c = true := by
    rcases hkind with rfl | rfl <;> decide
  have e1 : strings.EqualFold kind lookupUsername = false := by
    rcases hkind with rfl | rfl <;> decide
  have e2 : strings.EqualFold kind lookupPassword = false := by
    rcases hkind with rfl | rfl <;> decide
  have e3 : strings.EqualFold kind lookupEnv = false := by
    rcases hkind with rfl | rfl <;> decide
  unfold chartValueLookup
  simp only [regexp.FindStringSubmatch_placeholder gap kind path hgap hw hpath,
    lookupGroups_match, e1, e2, e3, Bool.false_eq_true, if_false]

theorem ReplaceAllStringFuncM_unsupported (rt : Runtime) (pieces : List Piece)
    (hp : ∀ p ∈ pieces, p.unsupported) (cache : SecretCache) :
    regexp.ReplaceAllStringFuncM (renderPieces pieces) (chartValueLookup rt) cache =
      (literalText pieces, cache) := by
  induction pieces with
  | nil => rfl
  | cons p rest ih =>
    have ih' := ih (fun q hq => hp q (List.mem_cons_of_mem _ hq))
    have hp0 := hp p (List.mem_cons_self _ _)
    have hr : renderPieces (p :: rest) = p.render ++ renderPieces rest := by
      simp [renderPieces]
    have hl : literalText (p :: rest) = p.literal ++ literalText rest := by
      simp [literalText]
    rw [hr, hl]
    cases p with
    | text s =>
      have := regexp.replaceAllAux_text (chartValueLookup rt) cache s (renderPieces rest) hp0
      unfold regexp.ReplaceAllStringFuncM at ih' ⊢
      simp only [Piece.render, Piece.literal]
      rw [this, ih']
    | lookup gap kind path =>
      obtain ⟨hk, hg, hpa⟩ := hp0
      have hw : kind ≠ [] ∧ ∀ c ∈ kind, regexp.isWord c = true := by
        rcases hk with rfl | rfl <;> decide
      simp only [Piece.render, Piece.literal]
      rw [regexp.replaceAll_placeholder_append _ _ gap kind path _ hg hw hpa,
        chartValueLookup_unsupported rt cache gap kind path hk hg hpa, ih']

/-- C19: in `getChartValues` a template made of literal text and placeholders of kind
`value` or `cluster` resolves to its literal text, every placeholder giving the empty
string; the key has no entry when there is no literal text, as for a template that is
such a placeholder alone. -/
theorem getChartValues_unsupported (rt : Runtime) (ro : RangeOrder)
    (service : catalog.CatalogService) (plan : catalog.CatalogPlan) (key : GoString)
    (pieces : List Piece) (hp : ∀ p ∈ pieces, p.unsupported)
    (h : (chartTemplates ro service plan).get? key = some (renderPieces pieces)) :
    (∀ cache, regexp.ReplaceAllStringFuncM (renderPieces pieces) (chartValueLookup rt) cache =
      (literalText pieces, cache)) ∧
    (getChartValues rt ro service plan).get? key = presentValue (literalText pieces) ∧
    (literalText pieces = [] → (getChartValues rt ro service plan).get? key = none) := by
  have hall := ReplaceAllStringFuncM_unsupported rt pieces hp
  obtain ⟨cache, -, he⟩ := getChartValues_get? rt ro service plan key _ h
  rw [hall cache] at he
  refine ⟨hall, he, fun hnil => ?_⟩
  rw [he, hnil]
  rfl

/-- C19, witness: the template `a{{ lookup('value','x') }}b` resolves to `ab`, and the
key whose template is a placeholder of kind `cluster` alone has no entry. -/
theorem getChartValues_unsupported_witness :
    ((∀ p ∈ abPieces, p.unsupported) ∧
      (chartTemplates RangeOrder.stored unsupportedService emptyPlan).get? "ab".toList =
        some (renderPieces abPieces)) ∧
    ((∀ cache, regexp.ReplaceAllStringFuncM (renderPieces abPieces)
        (chartValueLookup sampleRuntime) cache = (literalText abPieces, cache)) ∧
      (getChartValues sampleRuntime RangeOrder.stored unsupportedService emptyPlan).get?
        "ab".toList = presentValue (literalText abPieces) ∧
      (literalText abPieces = [] →
        (getChartValues sampleRuntime RangeOrder.stored unsupportedService emptyPlan).get?
          "ab".toList = none)) ∧
    renderPieces abPieces = "a\x7b\x7b lookup(\x27value\x27,\x27x\x27) \x7d\x7db".toList ∧
    presentValue (literalText abPieces) = some "ab".toList ∧
    (getChartValues sampleRuntime RangeOrder.stored unsupportedService emptyPlan).get?
      "host".toList = none :=
  ⟨⟨by decide, by decide⟩,
   getChartValues_unsupported sampleRuntime RangeOrder.stored unsupportedService emptyPlan
     "ab".toList abPieces (by decide) (by decide),
   by decide, by decide, by decide⟩

end release

/-! ### C20: the flattened values of a release -/

namespace GoMap

theorem foldl_set_get? (l : List (GoString × GoString)) (m : GoMap GoString GoString)
    (key : GoString) :
    (l.foldl (fun t kv => t.set kv.1 kv.2) m).get? key = helm.lastValue key l (m.get? key) := by
  unfold helm.lastValue
  induction l generalizing m with
  | nil => rfl
  | cons e r ih =>
    rw [List.foldl_cons, List.foldl_cons, ih]
    by_cases h : e.1 = key
    · rw [if_pos h, ← h, get?_set_self]
    · rw [if_neg h, get?_set_ne _ _ _ _ (fun e' => h e'.symm)]

end GoMap

namespace helm

theorem lastValue_init (key : GoString) (l : List (GoString × GoString))
    (init : Option GoString) :
    lastValue key l init =
      match lastValue key l none with
      | some value => some value
      | none => init := by
  unfold lastValue
  induction l generalizing init with
  | nil => rfl
  | cons e r ih =>
    rw [List.foldl_cons, List.foldl_cons, ih, ih (if e.1 = key then some e.2 else none)]
    cases List.foldl (fun acc kv => if kv.1 = key then some kv.2 else acc) none r with
    | some v => rfl
    | none =>
      by_cases h : e.1 = key
      · simp [h]
      · simp [h]

theorem lastValue_append (key : GoString) (a b : List (GoString × GoString))
    (init : Option GoString) :
    lastValue key (a ++ b) init = lastValue key b (lastValue key a init) := by
  unfold lastValue
  rw [List.foldl_append]

theorem lastValue_order (ro : RangeOrder) (m : GoMap GoString GoString) (key : GoString)
    (init : Option GoString) :
    lastValue key (ro.order m) init =
      match m.get? key with
      | some value => some value
      | none => init := by
  have h := GoMap.foldl_set_lookup (ro.order m) GoMap.empty key (ro.nodup_order m)
  rw [GoMap.foldl_set_get?, GoMap.lookup_perm key _ _ (ro.perm m) m.nodup] at h
  rw [lastValue_init]
  have hn : lastValue key (ro.order m) none = GoMap.lookupEntries key m.entries := by
    rw [show (GoMap.empty : GoMap GoString GoString).get? key = none from rfl] at h
    rw [h]
    cases GoMap.lookupEntries key m.entries <;> rfl
  rw [hn]
  rfl

mutual
theorem readYamlProperties_get? (ro : RangeOrder) (key : GoString) :
    ∀ (node : yaml.Node) (pre : GoString),
      (readYamlProperties ro node pre).get? key = lastValue key (namedLeaves node pre) none
  | yaml.Node.Map entries, pre => by
    rw [readYamlProperties, namedLeaves, readYamlEntries_get? ro key entries pre GoMap.empty]
    rfl
  | yaml.Node.Scalar value, pre => by
    rw [readYamlProperties, namedLeaves]
    unfold lastValue
    by_cases h : pre = key
    · subst h; simp [GoMap.get?_set_self]
    · simp [h, GoMap.get?_set_ne _ _ _ _ (fun e => h e.symm), GoMap.get?_empty]
  | yaml.Node.List _, pre => by
    rw [readYamlProperties, namedLeaves]
    rfl
theorem readYamlEntries_get? (ro : RangeOrder) (key : GoString) :
    ∀ (entries : List (GoString × yaml.Node)) (pre : GoString)
      (values : GoMap GoString GoString),
      (readYamlEntries ro entries pre values).get? key =
        lastValue key (namedEntries entries pre) (values.get? key)
  | [], pre, values => by
    rw [readYamlEntries, namedEntries]
    rfl
  | (mapKey, mapNode) :: rest, pre, values => by
    rw [readYamlEntries, namedEntries]
    rw [readYamlEntries_get? ro key rest pre, GoMap.foldl_set_get?, lastValue_order,
      readYamlProperties_get? ro key mapNode, lastValue_append]
    have hn : (if pre.length > 0 then pre ++ ".".toList else pre) ++ mapKey =
        nodeName pre mapKey := rfl
    rw [hn, lastValue_init key (namedLeaves mapNode (nodeName pre mapKey)) (values.get? key)]
end

end helm

namespace helm

theorem namePath_cons (pre key : GoString) (path : List GoString) :
    namePath pre (key :: path) = namePath (nodeName pre key) path := rfl

mutual
theorem namedLeaves_eq : ∀ (node : yaml.Node) (pre : GoString),
    namedLeaves node pre = (leaves node).map fun leaf => (namePath pre leaf.1, leaf.2)
  | yaml.Node.Map entries, pre => by
    rw [namedLeaves, leaves, namedEntries_eq entries pre]
  | yaml.Node.Scalar value, pre => by
    rw [namedLeaves, leaves]
    rfl
  | yaml.Node.List _, pre => by
    rw [namedLeaves, leaves]
    rfl
theorem namedEntries_eq : ∀ (entries : List (GoString × yaml.Node)) (pre : GoString),
    namedEntries entries pre =
      (leavesOfEntries entries).map fun leaf => (namePath pre leaf.1, leaf.2)
  | [], pre => by
    rw [namedEntries, leavesOfEntries]
    rfl
  | (key, node) :: rest, pre => by
    rw [namedEntries, leavesOfEntries, List.map_append, List.map_map,
      namedLeaves_eq node (nodeName pre key), namedEntries_eq rest pre]
    rfl
end

theorem nodeName_ne_nil (pre key : GoString) (h : key ≠ []) : nodeName pre key ≠ [] := by
  unfold nodeName
  intro e
  exact h (List.append_eq_nil.mp e).2

theorem nodeName_of_ne_nil (pre key : GoString) (h : pre ≠ []) :
    nodeName pre key = pre ++ '.' :: key := by
  unfold nodeName
  rw [if_pos (List.length_pos.mpr h)]
  simp

mutual
theorem namedLeaves_tail : ∀ (node : yaml.Node) (pre : GoString), pre ≠ [] →
    ∀ name ∈ (namedLeaves node pre).map Prod.fst,
      ∃ d, name = pre ++ d ∧ (d = [] ∨ d.head? = some '.')
  | yaml.Node.Map entries, pre, hpre => by
    intro name hn
    rw [namedLeaves] at hn
    obtain ⟨d, hd, hh⟩ := namedEntries_tail entries pre hpre name hn
    exact ⟨d, hd, Or.inr hh⟩
  | yaml.Node.Scalar value, pre, _ => by
    intro name hn
    rw [namedLeaves] at hn
    simp only [List.map_cons, List.map_nil, List.mem_singleton] at hn
    exact ⟨[], by rw [hn, List.append_nil], Or.inl rfl⟩
  | yaml.Node.List _, pre, _ => by
    intro name hn
    rw [namedLeaves] at hn
    exact absurd hn (List.not_mem_nil _)
theorem namedEntries_tail : ∀ (entries : List (GoString × yaml.Node)) (pre : GoString),
    pre ≠ [] → ∀ name ∈ (namedEntries entries pre).map Prod.fst,
      ∃ d, name = pre ++ d ∧ d.head? = some '.'
  | [], pre, _ => by
    intro name hn
    rw [namedEntries] at hn
    exact absurd hn (List.not_mem_nil _)
  | (key, node) :: rest, pre, hpre => by
    intro name hn
    rw [namedEntries, List.map_append, List.mem_append] at hn
    rcases hn with hn | hn
    · have hq : nodeName pre key ≠ [] := by
        rw [nodeName_of_ne_nil pre key hpre]
        exact fun e => hpre (List.append_eq_nil.mp e).1
      obtain ⟨d, hd, -⟩ := namedLeaves_tail node (nodeName pre key) hq name hn
      refine ⟨'.' :: (key ++ d), ?_, rfl⟩
      rw [hd, nodeName_of_ne_nil pre key hpre]
      simp
    · exact namedEntries_tail rest pre hpre name hn
end

theorem key_eq_of_append {k₁ k₂ d₁ d₂ : GoString} (h : k₁ ++ d₁ = k₂ ++ d₂)
    (h₁ : '.' ∉ k₁) (h₂ : '.' ∉ k₂) (t₁ : d₁ = [] ∨ d₁.head? = some '.')
    (t₂ : d₂ = [] ∨ d₂.head? = some '.') : k₁ = k₂ := by
  induction k₁ generalizing k₂ with
  | nil =>
    cases k₂ with
    | nil => rfl
    | cons b s =>
      exfalso
      rw [List.nil_append, List.cons_append] at h
      have hb : b ≠ '.' := fun e => h₂ (e ▸ List.mem_cons_self _ _)
      rcases t₁ with t | t
      · rw [t] at h; exact absurd h (by simp)
      · rw [h, List.head?_cons, Option.some.injEq] at t
        exact hb t
  | cons a r ih =>
    cases k₂ with
    | nil =>
      exfalso
      rw [List.nil_append, List.cons_append] at h
      have ha : a ≠ '.' := fun e => h₁ (e ▸ List.mem_cons_self _ _)
      rcases t₂ with t | t
      · rw [t] at h; exact absurd h (by simp)
      · rw [← h, List.head?_cons, Option.some.injEq] at t
        exact ha t
    | cons b s =>
      rw [List.cons_append, List.cons_append, List.cons.injEq] at h
      rw [h.1, ih h.2 (fun e => h₁ (List.mem_cons_of_mem _ e))
        (fun e => h₂ (List.mem_cons_of_mem _ e))]

theorem mem_namedEntries (entries : List (GoString × yaml.Node)) (pre name : GoString)
    (h : name ∈ (namedEntries entries pre).map Prod.fst) :
    ∃ e ∈ entries, name ∈ (namedLeaves e.2 (nodeName pre e.1)).map Prod.fst := by
  induction entries with
  | nil => rw [namedEntries] at h; exact absurd h (List.not_mem_nil _)
  | cons e rest ih =>
    obtain ⟨key, node⟩ := e
    rw [namedEntries, List.map_append, List.mem_append] at h
    rcases h with h | h
    · exact ⟨(key, node), List.mem_cons_self _ _, h⟩
    · obtain ⟨e', he', hn⟩ := ih h
      exact ⟨e', List.mem_cons_of_mem _ he', hn⟩

theorem plainEntries_mem (good : GoString → Bool) (entries : List (GoString × yaml.Node))
    (h : plainEntries good entries = true) :
    ∀ e ∈ entries, good e.1 = true ∧ plain good e.2 = true := by
  induction entries with
  | nil => intro e he; exact absurd he (List.not_mem_nil _)
  | cons e rest ih =>
    obtain ⟨key, node⟩ := e
    rw [plainEntries, Bool.and_eq_true, Bool.and_eq_true] at h
    intro e' he'
    rcases List.mem_cons.mp he' with rfl | hr
    · exact h.1
    · exact ih h.2 e' hr

end helm

namespace helm

mutual
theorem namedLeaves_nodup : ∀ (node : yaml.Node) (pre : GoString), pre ≠ [] →
    plain dotFree node = true → ((namedLeaves node pre).map Prod.fst).Nodup
  | yaml.Node.Map entries, pre, hpre, hp => by
    rw [plain, Bool.and_eq_true, decide_eq_true_eq] at hp
    rw [namedLeaves]
    refine namedEntries_nodup entries pre (fun e _ => ?_) hp.1 hp.2
    rw [nodeName_of_ne_nil pre e.1 hpre]
    exact fun h => hpre (List.append_eq_nil.mp h).1
  | yaml.Node.Scalar value, pre, _, _ => by
    rw [namedLeaves]
    exact List.nodup_singleton _
  | yaml.Node.List _, pre, _, _ => by
    rw [namedLeaves]
    exact List.nodup_nil
theorem namedEntries_nodup : ∀ (entries : List (GoString × yaml.Node)) (pre : GoString),
    (∀ e ∈ entries, nodeName pre e.1 ≠ []) → plainEntries dotFree entries = true →
    (entries.map Prod.fst).Nodup → ((namedEntries entries pre).map Prod.fst).Nodup
  | [], pre, _, _, _ => by
    rw [namedEntries]
    exact List.nodup_nil
  | (key, node) :: rest, pre, hne, hp, hnd => by
    rw [plainEntries, Bool.and_eq_true, Bool.and_eq_true] at hp
    rw [List.map_cons, List.nodup_cons] at hnd
    rw [namedEntries, List.map_append, List.nodup_append]
    have hkey := hne (key, node) (List.mem_cons_self _ _)
    refine ⟨namedLeaves_nodup node (nodeName pre key) hkey hp.1.2,
      namedEntries_nodup rest pre (fun e he => hne e (List.mem_cons_of_mem _ he)) hp.2 hnd.2,
      ?_⟩
    intro name h₁ h₂
    obtain ⟨e, he, hn⟩ := mem_namedEntries rest pre name h₂
    obtain ⟨d₁, hd₁, t₁⟩ := namedLeaves_tail node _ hkey name h₁
    obtain ⟨d₂, hd₂, t₂⟩ :=
      namedLeaves_tail e.2 _ (hne e (List.mem_cons_of_mem _ he)) name hn
    have hk : key = e.1 := by
      refine key_eq_of_append ?_ (of_decide_eq_true hp.1.1)
        (of_decide_eq_true (plainEntries_mem dotFree rest hp.2 e he).1) t₁ t₂
      rw [hd₁] at hd₂
      unfold nodeName at hd₂
      rw [List.append_assoc, List.append_assoc] at hd₂
      exact List.append_cancel_left hd₂
    exact hnd.1 (by rw [hk]; exact List.mem_map.mpr ⟨e, he, rfl⟩)
end

theorem lastValue_eq_some_iff (key value : GoString) (l : List (GoString × GoString))
    (hnd : (l.map Prod.fst).Nodup) : lastValue key l none = some value ↔ (key, value) ∈ l := by
  have h := GoMap.foldl_set_lookup l GoMap.empty key hnd
  rw [GoMap.foldl_set_get?,
    show (GoMap.empty : GoMap GoString GoString).get? key = none from rfl] at h
  rw [h, ← GoMap.lookup_eq_some_iff key value l hnd]
  cases GoMap.lookupEntries key l <;> simp

theorem joinPath_cons_cons (a b : GoString) (rest : List GoString) :
    joinPath (a :: b :: rest) = a ++ '.' :: joinPath (b :: rest) := by
  simp [joinPath, List.intercalate, List.intersperse]

theorem joinPath_singleton (a : GoString) : joinPath [a] = a := by
  simp [joinPath, List.intercalate, List.intersperse]

theorem namePath_of_ne_nil (pre : GoString) (path : List GoString) (hpre : pre ≠ []) :
    namePath pre path = joinPath (pre :: path) := by
  induction path generalizing pre with
  | nil => rw [joinPath_singleton]; rfl
  | cons key rest ih =>
    have hq : pre ++ '.' :: key ≠ [] := fun h => hpre (List.append_eq_nil.mp h).1
    rw [namePath_cons, nodeName_of_ne_nil pre key hpre, ih _ hq, joinPath_cons_cons pre]
    cases rest with
    | nil => rw [joinPath_singleton, joinPath_singleton]
    | cons r rs =>
      rw [joinPath_cons_cons, joinPath_cons_cons key, List.append_assoc]
      rfl

theorem namePath_nil (path : List GoString) (h : path.head? ≠ some []) :
    namePath [] path = joinPath path := by
  cases path with
  | nil => rfl
  | cons key rest =>
    have hk : key ≠ [] := fun e => h (by rw [e]; rfl)
    rw [namePath_cons, show nodeName [] key = key from rfl, namePath_of_ne_nil key rest hk]

theorem mem_leavesOfEntries (entries : List (GoString × yaml.Node))
    (leaf : List GoString × GoString) (h : leaf ∈ leavesOfEntries entries) :
    ∃ e ∈ entries, leaf.1.head? = some e.1 := by
  induction entries with
  | nil => rw [leavesOfEntries] at h; exact absurd h (List.not_mem_nil _)
  | cons e rest ih =>
    obtain ⟨key, node⟩ := e
    rw [leavesOfEntries, List.mem_append, List.mem_map] at h
    rcases h with ⟨below, -, rfl⟩ | h
    · exact ⟨(key, node), List.mem_cons_self _ _, rfl⟩
    · obtain ⟨e', he', hh⟩ := ih h
      exact ⟨e', List.mem_cons_of_mem _ he', hh⟩

theorem leaves_head (node : yaml.Node) (hroot : rootKeyed node = true) :
    ∀ leaf ∈ leaves node, leaf.1.head? ≠ some [] := by
  intro leaf hl
  cases node with
  | Map entries =>
    rw [leaves] at hl
    obtain ⟨e, he, hh⟩ := mem_leavesOfEntries entries leaf hl
    rw [rootKeyed, List.all_eq_true] at hroot
    rw [hh]
    exact fun h => of_decide_eq_true (hroot e he) (Option.some.inj h)
  | Scalar value =>
    rw [leaves, List.mem_singleton] at hl
    rw [hl]
    exact fun h => Option.noConfusion h
  | List items => rw [leaves] at hl; exact absurd hl (List.not_mem_nil _)

theorem namedLeaves_root (node : yaml.Node) (hroot : rootKeyed node = true) :
    namedLeaves node [] = (leaves node).map fun leaf => (joinPath leaf.1, leaf.2) := by
  rw [namedLeaves_eq]
  refine List.map_congr_left fun leaf hl => ?_
  rw [namePath_nil leaf.1 (leaves_head node hroot leaf hl)]

theorem namedLeaves_root_nodup (node : yaml.Node) (hplain : plain dotFree node = true)
    (hroot : rootKeyed node = true) : ((namedLeaves node []).map Prod.fst).Nodup := by
  cases node with
  | Map entries =>
    rw [plain, Bool.and_eq_true, decide_eq_true_eq] at hplain
    rw [rootKeyed, List.all_eq_true] at hroot
    rw [namedLeaves]
    exact namedEntries_nodup entries [] (fun e he => of_decide_eq_true (hroot e he))
      hplain.1 hplain.2
  | Scalar value => rw [namedLeaves]; exact List.nodup_singleton _
  | List items => rw [namedLeaves]; exact List.nodup_nil

end helm

namespace helm

theorem readYamlProperties_mem (ro : RangeOrder) (node : yaml.Node)
    (hplain : plain dotFree node = true) (hroot : rootKeyed node = true)
    (key value : GoString) :
    (key, value) ∈ (readYamlProperties ro node []).entries ↔
      (key, value) ∈ namedLeaves node [] := by
  rw [← GoMap.get?_eq_some_iff, readYamlProperties_get?,
    lastValue_eq_some_iff key value _ (namedLeaves_root_nodup node hplain hroot)]

/-- C20 (amended): for every tree built from maps and scalars whose keys contain no `.`
and whose top-level keys are not empty, `readYamlProperties node ""` is total and has
exactly one entry per scalar leaf: an entry `key ↦ value` exists exactly when some leaf
with the string `value` has a key path that joined with `.` gives `key`, different
leaves have different joined paths, and the map has as many entries as the tree has
leaves. -/
theorem readYamlProperties_flattens (ro : RangeOrder) (node : yaml.Node)
    (hplain : plain dotFree node = true) (hroot : rootKeyed node = true) :
    (∀ key value, (readYamlProperties ro node []).get? key = some value ↔
        ∃ path, (path, value) ∈ leaves node ∧ key = joinPath path) ∧
      ((leaves node).map fun leaf => joinPath leaf.1).Nodup ∧
      (readYamlProperties ro node []).size = (leaves node).length := by
  have hnd := namedLeaves_root_nodup node hplain hroot
  refine ⟨fun key value => ?_, ?_, ?_⟩
  · rw [GoMap.get?_eq_some_iff, readYamlProperties_mem ro node hplain hroot,
      namedLeaves_root node hroot, List.mem_map]
    constructor
    · rintro ⟨leaf, hl, he⟩
      rw [Prod.mk.injEq] at he
      exact ⟨leaf.1, by rw [← he.2]; exact hl, he.1.symm⟩
    · rintro ⟨path, hl, rfl⟩
      exact ⟨(path, value), hl, rfl⟩
  · rw [namedLeaves_root node hroot, List.map_map] at hnd
    exact hnd
  · have hperm : (readYamlProperties ro node []).entries.Perm (namedLeaves node []) :=
      (List.perm_ext_iff_of_nodup (List.Nodup.of_map Prod.fst
        (readYamlProperties ro node []).nodup) (List.Nodup.of_map Prod.fst hnd)).mpr
        fun e => readYamlProperties_mem ro node hplain hroot e.1 e.2
    rw [GoMap.size, hperm.length_eq, namedLeaves_root node hroot, List.length_map]

/-- C20, on a tree with two levels: the entries are `a.b ↦ 1`, `a.c ↦ 2` and `d ↦ 3`. -/
theorem readYamlProperties_flattens_witness :
    plain dotFree nestedTree = true ∧ rootKeyed nestedTree = true ∧
      ((∀ key value, (readYamlProperties RangeOrder.stored nestedTree []).get? key =
            some value ↔ ∃ path, (path, value) ∈ leaves nestedTree ∧ key = joinPath path) ∧
        ((leaves nestedTree).map fun leaf => joinPath leaf.1).Nodup ∧
        (readYamlProperties RangeOrder.stored nestedTree []).size =
          (leaves nestedTree).length) ∧
      (readYamlProperties RangeOrder.stored nestedTree []).entries =
        [("a.b".toList, "1".toList), ("a.c".toList, "2".toList), ("d".toList, "3".toList)] ∧
      leaves nestedTree =
        [(["a".toList, "b".toList], "1".toList), (["a".toList, "c".toList], "2".toList),
          (["d".toList], "3".toList)] :=
  ⟨by decide, by decide,
    readYamlProperties_flattens RangeOrder.stored nestedTree (by decide) (by decide),
    by decide, by decide⟩

/-- C20 as stated fails on a tree whose keys contain no `.`: below an empty top-level key
the prefix stays empty, so the leaf with the key path `["", "a"]` is named `a`, not
`.a`; it shares that name with the leaf `["a"]`, and the two leaves leave one entry. -/
theorem readYamlProperties_emptyKey :
    plain dotFree emptyKeyTree = true ∧
      leaves emptyKeyTree =
        [(["".toList, "a".toList], "1".toList), (["a".toList], "2".toList)] ∧
      joinPath ["".toList, "a".toList] = ".a".toList ∧
      (readYamlProperties RangeOrder.stored emptyKeyTree []).entries =
        [("a".toList, "2".toList)] ∧
      (readYamlProperties RangeOrder.reversed emptyKeyTree []).entries =
        [("a".toList, "2".toList)] ∧
      (readYamlProperties RangeOrder.stored emptyKeyTree []).get?
        (joinPath ["".toList, "a".toList]) = none ∧
      (readYamlProperties RangeOrder.stored emptyKeyTree []).size ≠
        (leaves emptyKeyTree).length := by
  refine ⟨by decide, by decide, by decide, by decide, by decide, by decide, by decide⟩

end helm

/-! ### C21, C28: the credentials of a request -/

namespace app

theorem checkCredentials_unset (rt : Runtime) (username password : GoString)
    (h : rt.LookupEnv "USERNAME".toList = none ∨ rt.LookupEnv "USERNAME".toList = some [] ∨
      rt.LookupEnv "PASSWORD".toList = none) :
    checkCredentials rt username password = true := by
  unfold checkCredentials
  rcases h with h | h | h
  · rw [h]
  · rw [h]; rfl
  · rw [h]
    cases rt.LookupEnv "USERNAME".toList with
    | none => rfl
    | some user => simp only []; split <;> rfl

theorem checkCredentials_set (rt : Runtime) (user pass username password : GoString)
    (hu : rt.LookupEnv "USERNAME".toList = some user) (hun : user ≠ [])
    (hp : rt.LookupEnv "PASSWORD".toList = some pass) :
    checkCredentials rt username password = true ↔ username = user ∧ password = pass := by
  unfold checkCredentials
  rw [hu]
  simp only [List.length_pos.mpr hun, if_true, hp]
  by_cases h : pass ≠ password ∨ user ≠ username
  · rw [if_pos h]
    constructor
    · intro hf; exact absurd hf (by decide)
    · rintro ⟨rfl, rfl⟩
      rcases h with h | h <;> exact absurd rfl h
  · rw [if_neg h]
    rw [not_or, not_not, not_not] at h
    exact ⟨fun _ => ⟨h.2.symm, h.1.symm⟩, fun _ => rfl⟩

/-- C21: with `USERNAME` set to `admin` and `PASSWORD` set to the empty string,
`checkCredentials` does not ignore the credentials supplied: it refuses `admin` with the
password `secret`, and every pair other than `admin` with the empty password. -/
theorem checkCredentials_emptyPassword :
    emptyPasswordRuntime.LookupEnv "PASSWORD".toList = some [] ∧
      checkCredentials emptyPasswordRuntime "admin".toList "secret".toList = false ∧
      checkCredentials emptyPasswordRuntime "guest".toList [] = false ∧
      checkCredentials emptyPasswordRuntime "admin".toList [] = true ∧
      ∀ username password, checkCredentials emptyPasswordRuntime username password = true ↔
        username = "admin".toList ∧ password = [] :=
  ⟨rfl, by decide, by decide, by decide, fun username password =>
    checkCredentials_set emptyPasswordRuntime "admin".toList [] username password rfl
      (by decide) rfl⟩

/-- C28: when `USERNAME` is set and not empty and `PASSWORD` is set, so in particular
when both are set and not empty, `checkCredentials` returns true exactly when the user
name supplied equals `USERNAME` and the password supplied equals `PASSWORD`, and `auth`
runs the handler exactly then and answers `401` otherwise. -/
theorem checkCredentials_iff (rt : Runtime) (user pass username password : GoString)
    (hu : rt.LookupEnv "USERNAME".toList = some user) (hun : user ≠ [])
    (hp : rt.LookupEnv "PASSWORD".toList = some pass) :
    (checkCredentials rt username password = true ↔ username = user ∧ password = pass) ∧
      ∀ (α : Type) (handler : α), auth rt handler (username, password) =
        if username = user ∧ password = pass then Except.ok handler
        else Except.error StatusUnauthorized := by
  have h := checkCredentials_set rt user pass username password hu hun hp
  refine ⟨h, fun α handler => ?_⟩
  unfold auth
  by_cases hc : username = user ∧ password = pass
  · rw [if_pos hc, h.mpr hc]; rfl
  · rw [if_neg hc]
    have : checkCredentials rt username password = false := by
      cases hv : checkCredentials rt username password with
      | false => rfl
      | true => exact absurd (h.mp hv) hc
    rw [this]; rfl

/-- C28, on a broker configured with `admin` and `secret`: that pair is accepted, a wrong
password and a wrong user name are refused. -/
theorem checkCredentials_iff_witness :
    (authRuntime.LookupEnv "USERNAME".toList = some "admin".toList ∧
      authRuntime.LookupEnv "PASSWORD".toList = some "secret".toList) ∧
    ((checkCredentials authRuntime "admin".toList "secret".toList = true ↔
        "admin".toList = "admin".toList ∧ "secret".toList = "secret".toList) ∧
      ∀ (α : Type) (handler : α), auth authRuntime handler ("admin".toList, "secret".toList) =
        if "admin".toList = "admin".toList ∧ "secret".toList = "secret".toList then
          Except.ok handler
        else Except.error StatusUnauthorized) ∧
    checkCredentials authRuntime "admin".toList "secret".toList = true ∧
    checkCredentials authRuntime "admin".toList "wrong".toList = false ∧
    checkCredentials authRuntime "guest".toList "secret".toList = false :=
  ⟨⟨rfl, rfl⟩,
    checkCredentials_iff authRuntime "admin".toList "secret".toList "admin".toList
      "secret".toList rfl (by decide) rfl,
    by decide, by decide, by decide⟩

end app

/-! ### C22: instance ids that are too short -/

namespace release

theorem getName_short (rt : Runtime) (value : GoString)
    (hstart : strings.HasPrefix value namePrefix = false)
    (hshort : (strings.Replace (strings.Replace (rt.ToLower value) "-".toList [] (-1))
      "_".toList [] (-1)).length < 14) :
    getName rt value = none := by
  unfold getName
  rw [hstart]
  simp only [Bool.false_eq_true, if_false]
  rw [if_neg (by omega)]

/-- C22: `getName` is not total.  On the ids `abc`, the empty string and
`a-b_c-d_e-f_g-h_i-j_k-l_m`, whose lower-cased form without `-` and `_` has 3, 0 and 13
characters, the slice `name[:14]` is out of range and no name is returned; an id with
14 such characters gets its name. -/
theorem getName_panics :
    getName sampleRuntime "abc".toList = none ∧
      getName sampleRuntime [] = none ∧
      getName sampleRuntime "a-b_c-d_e-f_g-h_i-j_k-l_m".toList = none ∧
      getName sampleRuntime "a-b_c-d_e-f_g-h_i-j_k-l_m-n".toList =
        some "helmiabcdefghijklmn".toList :=
  ⟨by decide, by decide, by decide, by decide⟩

end release

/-! ### C23: reports without a deployment time -/

namespace helm

theorem lastDeployedAt_zero (rt : Runtime) (output : List GoString)
    (hzero : (∀ line ∈ output, strings.HasPrefix line DeploymentTimePrefix = false) ∨
      ∃ line, (output.filter fun line =>
          strings.HasPrefix line DeploymentTimePrefix).getLast? = some line ∧
        rt.ParseInLocation (strings.TrimPrefix line DeploymentTimePrefix) = none) :
    lastDeployedAt rt output = 0 := by
  unfold lastDeployedAt lastDeployedFrom
  rcases hzero with h | ⟨line, hl, hp⟩
  · have : (output.filter fun line => strings.HasPrefix line DeploymentTimePrefix) = [] := by
      rw [List.filter_eq_nil_iff]
      intro line hline
      rw [h line hline]
      exact Bool.false_ne_true
    rw [this]
    rfl
  · rw [hl]
    simp only [hp, Option.getD_none]

/-- C23: when the report has no line `LAST DEPLOYED: `, or the last such line does not
parse, the deployment time is the zero time; if then fewer nodes are available than
desired and the clock is past the zero time plus the timeout, the status `GetStatus`
returns has `IsFailed` set. -/
theorem GetStatus_zeroTime (rt : Runtime) (release : GoString) (output : List GoString)
    (st : Status) (h : GetStatus rt release output = some st)
    (hzero : (∀ line ∈ output, strings.HasPrefix line DeploymentTimePrefix = false) ∨
      ∃ line, (output.filter fun line =>
          strings.HasPrefix line DeploymentTimePrefix).getLast? = some line ∧
        rt.ParseInLocation (strings.TrimPrefix line DeploymentTimePrefix) = none)
    (hnodes : st.AvailableNodes < st.DesiredNodes) (hnow : rt.Now > 0 + timeout rt) :
    lastDeployedAt rt output = 0 ∧ st.IsFailed = true := by
  have hz := lastDeployedAt_zero rt output hzero
  refine ⟨hz, ?_⟩
  unfold GetStatus at h
  obtain ⟨s, hs, rfl⟩ := Option.map_eq_some'.mp h
  obtain ⟨-, ht⟩ := scan_failed rt output _ s hs
  have ht' : s.lastDeploymentTime = 0 := ht.trans hz
  obtain ⟨c1, c2, -, -⟩ := finish_counts rt s
  rw [c1, c2] at hnodes
  unfold finish
  rw [ht', if_pos ⟨hnow, hnodes⟩]

/-- C23, on `undatedReport`, which has no line `LAST DEPLOYED: `, with 1 node available
of 2 desired; `misdatedReport`, whose last such line does not parse, is failed as
well. -/
theorem GetStatus_zeroTime_witness :
    (GetStatus sampleRuntime "db".toList undatedReport = some staleStatus ∧
      ((∀ line ∈ undatedReport, strings.HasPrefix line DeploymentTimePrefix = false) ∨
        ∃ line, (undatedReport.filter fun line =>
            strings.HasPrefix line DeploymentTimePrefix).getLast? = some line ∧
          sampleRuntime.ParseInLocation (strings.TrimPrefix line DeploymentTimePrefix) =
            none) ∧
      staleStatus.AvailableNodes < staleStatus.DesiredNodes ∧
      sampleRuntime.Now > 0 + timeout sampleRuntime) ∧
    (lastDeployedAt sampleRuntime undatedReport = 0 ∧ staleStatus.IsFailed = true) ∧
    lastDeployedAt sampleRuntime misdatedReport = 0 ∧
    GetStatus sampleRuntime "db".toList misdatedReport = some staleStatus :=
  ⟨⟨by decide, Or.inl (by decide), by decide, by decide⟩,
    GetStatus_zeroTime sampleRuntime "db".toList undatedReport staleStatus (by decide)
      (Or.inl (by decide)) (by decide) (by decide),
    by decide, by decide⟩

end helm

/-! ### C24: a lookup path with a dot -/

namespace release

theorem resolveCredential_literal (rt : Runtime) (ro : RangeOrder)
    (kubernetesNodes : List kubectl.Node) (helmStatus : helm.Status)
    (helmValues : GoMap GoString GoString) (template : GoString)
    (h : regexp.FindStringSubmatch template = []) :
    resolveCredential rt ro kubernetesNodes helmStatus helmValues template = template := by
  unfold resolveCredential regexp.ReplaceAllStringFunc
  rw [regexp.ReplaceAllStringFuncM_literal _ _ _ h]

theorem getUserCredentials_literal (rt : Runtime) (ro : RangeOrder)
    (service : catalog.CatalogService) (plan : catalog.CatalogPlan)
    (kubernetesNodes : List kubectl.Node) (helmStatus : helm.Status)
    (helmValues : GoMap GoString GoString) (key template : GoString)
    (hne : template ≠ []) (hm : regexp.FindStringSubmatch template = [])
    (h : (credentialTemplates ro service plan).get? key = some (catalog.Value.str template)) :
    (getUserCredentials rt ro service plan kubernetesNodes helmStatus helmValues).get? key =
      some (Credential.str template) := by
  rw [getUserCredentials_get? rt ro service plan kubernetesNodes helmStatus helmValues key _ h]
  simp only [resolvedValue,
    resolveCredential_literal rt ro kubernetesNodes helmStatus helmValues template hm,
    List.length_pos.mpr hne, if_true]

/-- C24 (amended): the character `.` is not among the path characters of the lookup
pattern, so the template with the path `a.b` holds no placeholder: whatever the deployed
values are, it resolves to itself, and `getUserCredentials` returns the template text
under its key. -/
theorem getUserCredentials_dotted (rt : Runtime) (ro : RangeOrder)
    (service : catalog.CatalogService) (plan : catalog.CatalogPlan)
    (kubernetesNodes : List kubectl.Node) (helmStatus : helm.Status)
    (helmValues : GoMap GoString GoString) (key : GoString)
    (h : (credentialTemplates ro service plan).get? key =
      some (catalog.Value.str dottedTemplate)) :
    regexp.isPathChar '.' = false ∧
      regexp.FindStringSubmatch dottedTemplate = [] ∧
      resolveCredential rt ro kubernetesNodes helmStatus helmValues dottedTemplate =
        dottedTemplate ∧
      (getUserCredentials rt ro service plan kubernetesNodes helmStatus helmValues).get? key =
        some (Credential.str dottedTemplate) :=
  ⟨by decide, by decide,
    resolveCredential_literal rt ro kubernetesNodes helmStatus helmValues dottedTemplate
      (by decide),
    getUserCredentials_literal rt ro service plan kubernetesNodes helmStatus helmValues key
      dottedTemplate (by decide) (by decide) h⟩

/-- C24, on `dottedService` and deployed values that hold `v` under `a.b`. -/
theorem getUserCredentials_dotted_witness :
    (credentialTemplates RangeOrder.stored dottedService emptyPlan).get? "key".toList =
        some (catalog.Value.str dottedTemplate) ∧
    (regexp.isPathChar '.' = false ∧
      regexp.FindStringSubmatch dottedTemplate = [] ∧
      resolveCredential sampleRuntime RangeOrder.stored testNodes testStatus dottedValues
        dottedTemplate = dottedTemplate ∧
      (getUserCredentials sampleRuntime RangeOrder.stored dottedService emptyPlan testNodes
        testStatus dottedValues).get? "key".toList = some (Credential.str dottedTemplate)) ∧
    dottedTemplate = "\x7b\x7b lookup(\x27value\x27, \x27a.b\x27) \x7d\x7d".toList :=
  ⟨rfl,
    getUserCredentials_dotted sampleRuntime RangeOrder.stored dottedService emptyPlan
      testNodes testStatus dottedValues "key".toList rfl,
    by decide⟩

/-- C24 as stated fails: the deployed values hold the non-empty value `v` under `a.b`,
and the credential with the template `dottedTemplate` is the template text, not `v`. -/
theorem getUserCredentials_dotted_unread :
    dottedValues.get? "a.b".toList = some "v".toList ∧
      dottedTemplate = "\x7b\x7b lookup(\x27value\x27, \x27a.b\x27) \x7d\x7d".toList ∧
      (getUserCredentials sampleRuntime RangeOrder.stored dottedService emptyPlan testNodes
        testStatus dottedValues).get? "key".toList = some (Credential.str dottedTemplate) ∧
      (getUserCredentials sampleRuntime RangeOrder.stored dottedService emptyPlan testNodes
        testStatus dottedValues).get? "key".toList ≠ some (Credential.str "v".toList) := by
  have h := getUserCredentials_literal sampleRuntime RangeOrder.stored dottedService emptyPlan
    testNodes testStatus dottedValues "key".toList dottedTemplate (by decide) (by decide) rfl
  refine ⟨by decide, by decide, h, ?_⟩
  rw [h]
  decide

end release

/-! ### C25: a plan value that is empty -/

namespace release

theorem getChartValues_blank (rt : Runtime) (ro : RangeOrder)
    (service : catalog.CatalogService) (plan : catalog.CatalogPlan) (key : GoString)
    (h : (chartTemplates ro service plan).get? key = some []) :
    (getChartValues rt ro service plan).get? key = none := by
  obtain ⟨cache, -, he⟩ := getChartValues_get? rt ro service plan key [] h
  rw [he]
  rfl

/-- C25 (amended): the value of the plan overrides the value of the service also when it
is empty.  For every key whose plan template is the empty string, the template
`getChartValues` resolves is the empty one of the plan, whatever the service declares,
and the result has no entry for the key. -/
theorem getChartValues_emptyPlanValue (rt : Runtime) (ro : RangeOrder)
    (service : catalog.CatalogService) (plan : catalog.CatalogPlan) (key : GoString)
    (hp : plan.ChartValues.get? key = some []) :
    (chartTemplates ro service plan).get? key = some [] ∧
      (getChartValues rt ro service plan).get? key = none := by
  have ht : (chartTemplates ro service plan).get? key = some [] := by
    rw [chartTemplates_get?]
    unfold mergedValue
    rw [hp]
  exact ⟨ht, getChartValues_blank rt ro service plan key ht⟩

/-- C25, on `literalService`, whose chart value `size` is `small`, and `blankPlan`. -/
theorem getChartValues_emptyPlanValue_witness :
    blankPlan.ChartValues.get? "size".toList = some [] ∧
    ((chartTemplates RangeOrder.stored literalService blankPlan).get? "size".toList =
        some [] ∧
      (getChartValues sampleRuntime RangeOrder.stored literalService blankPlan).get?
        "size".toList = none) ∧
    literalService.ChartValues.get? "size".toList = some "small".toList :=
  ⟨rfl,
    getChartValues_emptyPlanValue sampleRuntime RangeOrder.stored literalService blankPlan
      "size".toList rfl,
    by decide⟩

/-- C25 as stated fails: the plan template of `size` is the empty string and the service
template is the non-empty literal `small`, and `getChartValues` does not return the
value of the service for `size`: it returns no entry. -/
theorem getChartValues_emptyPlanValue_drops :
    blankPlan.ChartValues.get? "size".toList = some [] ∧
      literalService.ChartValues.get? "size".toList = some "small".toList ∧
      regexp.FindStringSubmatch "small".toList = [] ∧
      (getChartValues sampleRuntime RangeOrder.stored literalService blankPlan).get?
        "size".toList = none ∧
      (getChartValues sampleRuntime RangeOrder.stored literalService blankPlan).get?
        "size".toList ≠ some "small".toList := by
  have h := getChartValues_blank sampleRuntime RangeOrder.stored literalService blankPlan
    "size".toList rfl
  refine ⟨rfl, by decide, by decide, h, ?_⟩
  rw [h]
  exact fun e => Option.noConfusion e

end release

/-! ### C26: a failed status query -/

namespace release

theorem GetStatus_failed {W : Type} (host : Host W) (scanLines : GoString → List GoString)
    (w : W) (id name : GoString) (err : GoError)
    (hname : getName host.toRuntime id = some name)
    (herr : (host.CombinedOutput w (statusCommand name)).1.err = some err) :
    GetStatus host scanLines w id =
      some ((⟨false, false, false⟩, some err),
        (helm.Exists host (host.CombinedOutput w (statusCommand name)).2 name).2) := by
  have hq : helm.GetStatusCmd host scanLines w name =
      some ((⟨[], [], false, false, 0, 0, GoMap.empty, GoMap.empty⟩, some err),
        (host.CombinedOutput w (statusCommand name)).2) := by
    unfold helm.GetStatusCmd
    unfold statusCommand at herr
    simp only [herr, ne_eq, not_false_eq_true, if_true, reduceCtorEq]
    rfl
  unfold GetStatus
  rw [hname, Option.some_bind, hq, Option.map_some']
  simp only [ne_eq, not_false_eq_true, if_true, reduceCtorEq, ite_self]

/-- C26 (amended): when the status command fails, `release.GetStatus` returns the same
value whatever its existence check reports, the zero status with the error of the
command; the two cases are told apart by `queryInstance`, which checks the existence
once more and answers `410` when that check reports the release absent without an
error, and `500` with the error of the command otherwise. -/
theorem GetStatus_sameOnFailure {W : Type} (host : Host W)
    (scanLines : GoString → List GoString) (w : W) (id name : GoString) (err : GoError)
    (hname : getName host.toRuntime id = some name)
    (herr : (host.CombinedOutput w (statusCommand name)).1.err = some err) :
    (GetStatus host scanLines w id).map Prod.fst = some (⟨false, false, false⟩, some err) ∧
      (app.queryInstance host scanLines w id).map Prod.fst =
        some (if (helm.Exists host (helm.Exists host
              (host.CombinedOutput w (statusCommand name)).2 name).2 name).1.2 = none ∧
            (helm.Exists host (helm.Exists host
              (host.CombinedOutput w (statusCommand name)).2 name).2 name).1.1 = false
          then (app.StatusGone, []) else app.respondWithServerError err) := by
  have h := GetStatus_failed host scanLines w id name err hname herr
  refine ⟨by rw [h]; rfl, ?_⟩
  unfold app.queryInstance
  rw [h, Option.some_bind]
  simp only []
  unfold Exists
  rw [hname, Option.map_some', Option.map_some', Option.map_some']
  split <;> rfl

/-- C26, on a host whose commands all fail with `not found`, and on one whose first
command fails and whose later commands succeed: `release.GetStatus` returns the same
value, and `queryInstance` answers `410` on the first and `500` on the second. -/
theorem GetStatus_sameOnFailure_witness :
    (getName scriptedHost.toRuntime longId = some "helmithisisatestnam".toList ∧
      (scriptedHost.CombinedOutput absentScript
        (statusCommand "helmithisisatestnam".toList)).1.err = some "exit status 1".toList) ∧
    ((GetStatus scriptedHost sampleLines absentScript longId).map Prod.fst =
        some (⟨false, false, false⟩, some "exit status 1".toList) ∧
      (app.queryInstance scriptedHost sampleLines absentScript longId).map Prod.fst =
        some (if (helm.Exists scriptedHost (helm.Exists scriptedHost
              (scriptedHost.CombinedOutput absentScript
                (statusCommand "helmithisisatestnam".toList)).2
              "helmithisisatestnam".toList).2 "helmithisisatestnam".toList).1.2 = none ∧
            (helm.Exists scriptedHost (helm.Exists scriptedHost
              (scriptedHost.CombinedOutput absentScript
                (statusCommand "helmithisisatestnam".toList)).2
              "helmithisisatestnam".toList).2 "helmithisisatestnam".toList).1.1 = false
          then (app.StatusGone, []) else
            app.respondWithServerError "exit status 1".toList)) ∧
    (app.queryInstance scriptedHost sampleLines absentScript longId).map Prod.fst =
      some (410, []) ∧
    (app.queryInstance scriptedHost sampleLines presentScript longId).map Prod.fst =
      some (500, [("description".toList, "exit status 1".toList)]) :=
  ⟨⟨by decide, by decide⟩,
    GetStatus_sameOnFailure scriptedHost sampleLines absentScript longId
      "helmithisisatestnam".toList "exit status 1".toList (by decide) (by decide),
    by decide, by decide⟩

/-- C26 as stated fails: the status command fails with the same error on both hosts, the
existence check that follows reports the release absent on the one and existing on the
other, and `release.GetStatus` returns the same value on both. -/
theorem GetStatus_sameOnFailure_equal :
    (scriptedHost.CombinedOutput absentScript
        (statusCommand "helmithisisatestnam".toList)).1.err = some "exit status 1".toList ∧
      (scriptedHost.CombinedOutput presentScript
        (statusCommand "helmithisisatestnam".toList)).1.err = some "exit status 1".toList ∧
      (helm.Exists scriptedHost absentScript.tail "helmithisisatestnam".toList).1 =
        (false, none) ∧
      (helm.Exists scriptedHost presentScript.tail "helmithisisatestnam".toList).1 =
        (true, none) ∧
      (GetStatus scriptedHost sampleLines absentScript longId).map Prod.fst =
        some (⟨false, false, false⟩, some "exit status 1".toList) ∧
      (GetStatus scriptedHost sampleLines presentScript longId).map Prod.fst =
        some (⟨false, false, false⟩, some "exit status 1".toList) :=
  ⟨by decide, by decide, by decide, by decide, by decide, by decide⟩

end release

/-! ### C27: a blank line clears the columns -/

namespace helm

theorem scanLine_of_cleared (rt : Runtime) (st : ScanState) (line : GoString)
    (hc : (scanMarkers rt st line).cleared) (hl : ¬ recordsColumn line) :
    scanLine rt st line = some (scanMarkers rt st line) := by
  obtain ⟨c1, -, -, c4⟩ := hc
  have hh : ¬ (strings.Index line DesiredLabel ≥ 0 ∧ strings.Index line CurrentLabel ≥ 0) :=
    fun h => hl (Or.inl h)
  have hp : ¬ strings.Index line PortsLabel ≥ 0 := fun h => hl (Or.inr h)
  have e2 : scanNodes (scanMarkers rt st line) line = some (scanMarkers rt st line) := by
    unfold scanNodes
    simp only []
    rw [if_neg hh, if_neg (by rw [c1]; exact fun h => absurd h.1 (by decide))]
  have e3 : scanPorts (scanMarkers rt st line) line = some (scanMarkers rt st line) := by
    unfold scanPorts
    simp only []
    rw [if_neg hp, if_neg (by rw [c4]; decide)]
  unfold scanLine
  rw [e2, Option.some_bind, e3]

theorem scan_cleared (rt : Runtime) (lines : List GoString) (st : ScanState)
    (hc : st.cleared) (hl : ∀ line ∈ lines, ¬ recordsColumn line) :
    ∃ st', scan rt st lines = some st' ∧ st'.cleared ∧
      st'.status.DesiredNodes = st.status.DesiredNodes ∧
      st'.status.AvailableNodes = st.status.AvailableNodes ∧
      st'.status.NodePorts = st.status.NodePorts ∧
      st'.status.ClusterPorts = st.status.ClusterPorts := by
  induction lines generalizing st with
  | nil => exact ⟨st, rfl, hc, rfl, rfl, rfl, rfl⟩
  | cons line rest ih =>
    obtain ⟨n1, n2, n3, n4⟩ := scanMarkers_counts rt st line
    obtain ⟨s, e, c, d1, d2, d3, d4⟩ := ih (scanMarkers rt st line)
      (scanMarkers_cleared rt st line hc) (fun l h => hl l (List.mem_cons_of_mem _ h))
    refine ⟨s, ?_, c, d1.trans n1, d2.trans n2, d3.trans n3, d4.trans n4⟩
    rw [scan, scanLine_of_cleared rt st line (scanMarkers_cleared rt st line hc)
      (hl line (List.mem_cons_self _ _)), Option.some_bind, e]

/-- C27: in whatever state the scan is, a blank line clears every recorded column, and
the lines that follow it up to the next line that records a column (a header with
`DESIRED` and `CURRENT`, or with `PORT(S)`) are scanned without a panic, leave
`DesiredNodes`, `AvailableNodes`, `NodePorts` and `ClusterPorts` as they were before the
blank line, and leave every column cleared. -/
theorem scan_blank_frame (rt : Runtime) (st : ScanState) (lines : List GoString)
    (hl : ∀ line ∈ lines, ¬ recordsColumn line) :
    (∃ st₁, scanLine rt st [] = some st₁ ∧ st₁.cleared) ∧
      ∃ st', scan rt st ([] :: lines) = some st' ∧ st'.cleared ∧
        st'.status.DesiredNodes = st.status.DesiredNodes ∧
        st'.status.AvailableNodes = st.status.AvailableNodes ∧
        st'.status.NodePorts = st.status.NodePorts ∧
        st'.status.ClusterPorts = st.status.ClusterPorts := by
  have hb := scanMarkers_blank rt st
  obtain ⟨n1, n2, n3, n4⟩ := scanMarkers_counts rt st []
  have e1 : scanLine rt st [] = some (scanMarkers rt st []) :=
    scanLine_of_cleared rt st [] hb (by decide)
  obtain ⟨s, e, c, d1, d2, d3, d4⟩ := scan_cleared rt lines (scanMarkers rt st []) hb hl
  refine ⟨⟨_, e1, hb⟩, s, ?_, c, d1.trans n1, d2.trans n2, d3.trans n3, d4.trans n4⟩
  rw [scan, e1, Option.some_bind, e]

/-- C27, on a state below the header `NAME  DESIRED  CURRENT  PORT(S)`: behind a blank
line the line `web   5        5        80:30001/TCP` adds no nodes and registers no
port, while without the blank line it adds 5 nodes and registers the port 80. -/
theorem scan_blank_frame_witness :
    (∀ line ∈ strayLines, ¬ recordsColumn line) ∧
    ((∃ st₁, scanLine sampleRuntime tableState [] = some st₁ ∧ st₁.cleared) ∧
      ∃ st', scan sampleRuntime tableState ([] :: strayLines) = some st' ∧ st'.cleared ∧
        st'.status.DesiredNodes = tableState.status.DesiredNodes ∧
        st'.status.AvailableNodes = tableState.status.AvailableNodes ∧
        st'.status.NodePorts = tableState.status.NodePorts ∧
        st'.status.ClusterPorts = tableState.status.ClusterPorts) ∧
    (scan sampleRuntime tableState ([] :: strayLines)).map
        (fun s => (s.status.DesiredNodes, s.status.AvailableNodes,
          s.status.NodePorts.get? 80)) = some (2, 1, none) ∧
    (scan sampleRuntime tableState strayLines.dropLast).map
        (fun s => (s.status.DesiredNodes, s.status.AvailableNodes,
          s.status.NodePorts.get? 80)) = some (7, 6, some 30001) :=
  ⟨by decide, scan_blank_frame sampleRuntime tableState strayLines (by decide),
    by decide, by decide⟩

end helm
